import Mathlib

/-!
Verification of the ToC parsing/serialization core of `sphinx-external-toc`
(`sphinx_external_toc/parsing.py`), via a shallow embedding in Lean 4.

The embedding models:
  * YAML-ish nested data (`Value`), with Python `dict` semantics on
    string-keyed association lists (insertion order, replace-in-place update);
  * the entity model of the `api` module (`Document`, `TocTree`, the three
    item variants and `SiteMap`), which is not part of the sources in scope
    and is therefore modelled from the specification;
  * the parser (`parse_toc_data`, `_parse_doc_item`, `_parse_docs_list`) and
    the serializer (`create_toc_dict`, `_docitem_to_dict`).
-/

namespace SphinxExternalToc

/-- A YAML/Python data value as handled by the parser: `None`, booleans,
integers, strings, lists and string-keyed mappings (Python `dict`s preserve
insertion order, so a mapping is an association list). -/
inductive Value where
  | vnone : Value
  | vbool : Bool → Value
  | vstr : String → Value
  | vint : Int → Value
  | vlist : List Value → Value
  | vmap : List (String × Value) → Value
  deriving Repr, Inhabited

/-- Python `dict` lookup on an association list (first binding wins; lists
built by `dictInsert` have distinct keys, as Python dicts do). -/
def dictGet : List (String × Value) → String → Option Value
  | [], _ => none
  | (k', v) :: rest, k => if k' = k then some v else dictGet rest k

/-- Python `key in dict`. -/
def dictContains (kvs : List (String × Value)) (k : String) : Bool :=
  (dictGet kvs k).isSome

/-- Python `dict[key] = value`: replaces the value in place if the key is
present (keeping its position), else appends the new binding. -/
def dictInsert : List (String × Value) → String → Value → List (String × Value)
  | [], k, v => [(k, v)]
  | (k', v') :: rest, k, v =>
      if k' = k then (k, v) :: rest else (k', v') :: dictInsert rest k v

/-- Python `dict.pop(key)` (ignoring the returned value): removes the first
binding of the key, keeping the order of the rest. -/
def dictRemove : List (String × Value) → String → List (String × Value)
  | [], _ => []
  | (k', v') :: rest, k =>
      if k' = k then rest else (k', v') :: dictRemove rest k

/-- Python `{**a, **b}` / sequential dict update: insert every binding of `b`
into `a`, in order. -/
def dictMerge (a b : List (String × Value)) : List (String × Value) :=
  b.foldl (fun acc kv => dictInsert acc kv.1 kv.2) a

/-- The pairs of a mapping value.  Used where the source iterates over an
object it knows to be a `dict` (e.g. `defaults`, `options`); for a non-mapping
Python would raise an unhandled error at the use site, a situation unreachable
from the parser's call sites, which the model renders as the empty dict. -/
def pyDictPairs : Value → List (String × Value)
  | .vmap kvs => kvs
  | _ => []

/-- Python `dict.get` on a mapping value (`None` when absent). -/
def pyGet (v : Value) (k : String) : Value :=
  (dictGet (pyDictPairs v) k).getD .vnone

/-- Python `isinstance(x, Mapping)`. -/
def isMapping : Value → Bool
  | .vmap _ => true
  | _ => false

/-- Python `isinstance(x, Sequence)` combined with iteration: strings are
sequences of their one-character substrings; lists are sequences of their
elements; nothing else in the data model is a `Sequence`. -/
def pySeqElems : Value → Option (List Value)
  | .vlist xs => some xs
  | .vstr s => some (s.toList.map fun c => Value.vstr (String.mk [c]))
  | _ => none

/-- Python truthiness of a data value. -/
def pyTruthy : Value → Bool
  | .vnone => false
  | .vbool b => b
  | .vstr s => s ≠ ""
  | .vint n => n ≠ 0
  | .vlist xs => !xs.isEmpty
  | .vmap kvs => !kvs.isEmpty

/-- Python `str(x)` for the values that can reach a string-conversion point in
the source (`FileItem`/`GlobItem` are `str` subclasses, and docnames are
interpolated into messages).  Scalars are converted faithfully; containers
(which can never belong to a successfully parsed document) get a placeholder. -/
def pyStr : Value → String
  | .vnone => "None"
  | .vbool true => "True"
  | .vbool false => "False"
  | .vstr s => s
  | .vint n => toString n
  | .vlist _ => "<list>"
  | .vmap _ => "<dict>"

/-- Python `repr` of a string: quoted with single quotes (adequate for the
quote-free docnames of this development). -/
def pyReprStr (s : String) : String := "'" ++ s ++ "'"

/-- Python `str(type(x))`, as interpolated by `f"{type(data)}"`. -/
def pyTypeStr : Value → String
  | .vnone => "<class 'NoneType'>"
  | .vbool _ => "<class 'bool'>"
  | .vstr _ => "<class 'str'>"
  | .vint _ => "<class 'int'>"
  | .vlist _ => "<class 'list'>"
  | .vmap _ => "<class 'dict'>"

mutual

/-- Structural equality test on data values (used below to build Python `==`,
which additionally identifies booleans with `0`/`1`). -/
def Value.beq : Value → Value → Bool
  | .vnone, .vnone => true
  | .vbool a, .vbool b => a == b
  | .vstr a, .vstr b => a == b
  | .vint a, .vint b => a == b
  | .vlist xs, .vlist ys => Value.beqList xs ys
  | .vmap xs, .vmap ys => Value.beqPairs xs ys
  | _, _ => false

/-- Elementwise `Value.beq` on lists. -/
def Value.beqList : List Value → List Value → Bool
  | [], [] => true
  | x :: xs, y :: ys => Value.beq x y && Value.beqList xs ys
  | _, _ => false

/-- Pairwise `Value.beq` on association lists. -/
def Value.beqPairs : List (String × Value) → List (String × Value) → Bool
  | [], [] => true
  | (k, v) :: xs, (k', v') :: ys => k == k' && Value.beq v v' && Value.beqPairs xs ys
  | _, _ => false

end

/-- Python `==` on data values.  Python identifies `False == 0` and
`True == 1` across `bool`/`int`; on the scalar option values compared by the
serializer this is the only divergence from structural equality.  (Containers
are compared structurally; no container ever reaches a `==` in the model.) -/
def pyEq : Value → Value → Bool
  | .vbool a, .vint b => (if a then (1 : Int) else 0) == b
  | .vint a, .vbool b => a == (if b then (1 : Int) else 0)
  | a, b => Value.beq a b

/-! ## The entity model

The `Document`/`TocTree`/item/`SiteMap` types live in the repository's `api`
module, which is outside the sources in scope; they are modelled from the
specification (§3 "DATA MODEL"). -/

/-- Modelled from the spec: the three navigation item variants (§3 "Item").
`FileItem` and `GlobItem` each wrap a string (converted with `str(...)` from
the raw value, matching their description as string-like); `UrlItem` wraps a
URL plus an optional title, stored as given (their validation is outside the
spec's scope).  A missing title is Python `None`, i.e. `Value.vnone`. -/
inductive Item where
  | file : String → Item
  | glob : String → Item
  | url : Value → Value → Item
  deriving Repr, Inhabited

/-- Modelled from the spec: a navigation item-grouping (§3
"Navigation-Item-Grouping", the `TocTree` type): an ordered list of items plus
the fixed option set `caption`, `hidden`, `maxdepth`, `numbered`, `reversed`
and `titlesonly`.  `numbered` may be a boolean or an integer and is stored as
the given data value; the other options are stored in validated form. -/
structure TocTree where
  items : List Item
  caption : Option String
  hidden : Bool
  maxdepth : Int
  numbered : Value
  reversed : Bool
  titlesonly : Bool
  deriving Repr, Inhabited

/-- Modelled from the spec: a document node (§3 "Document"): a docname, an
optional title and an ordered list of item-groupings. -/
structure Document where
  docname : String
  title : Option String
  subtrees : List TocTree
  deriving Repr, Inhabited

/-- Modelled from the spec: the root container (§3 "SiteMap"): the root
document, a docname-keyed mapping of documents (an insertion-ordered
association list, like a Python dict) and free-form metadata.  The testable
property of §8 in which the root's docname re-used by a nested document is a
duplicate requires membership tests to see the root, so the constructor
(`SiteMap.make` below) registers the root document under its own docname. -/
structure SiteMap where
  root : Document
  docs : List (String × Document)
  meta : Value
  deriving Repr, Inhabited

/-- Modelled from the spec: `SiteMap(root=..., meta=...)`; the root document
is registered under its docname. -/
def SiteMap.make (root : Document) (meta : Value) : SiteMap :=
  { root := root, docs := [(root.docname, root)], meta := meta }

/-- `docname in site_map` (membership testing by docname, §3). -/
def SiteMap.contains (sm : SiteMap) (docname : String) : Bool :=
  (sm.docs.lookup docname).isSome

/-- `site_map[docname]` (lookup by docname, §3). -/
def SiteMap.find (sm : SiteMap) (docname : String) : Option Document :=
  sm.docs.lookup docname

/-- `site_map[docname] = item` (insertion keyed by docname, §4.1 step 3);
Python dict assignment replaces in place or appends. -/
def SiteMap.setitem (sm : SiteMap) (docname : String) (item : Document) : SiteMap :=
  { sm with docs := go sm.docs }
where
  go : List (String × Document) → List (String × Document)
    | [] => [(docname, item)]
    | (k, d) :: rest => if k = docname then (docname, item) :: rest else (k, d) :: go rest

/-! ## Constants of the parser (`parsing.py` lines 11-25). -/

def DEFAULT_SUBTREES_KEY : String := "subtrees"
def DEFAULT_ITEMS_KEY : String := "sections"

def FILE_KEY : String := "file"
def GLOB_KEY : String := "glob"
def URL_KEY : String := "url"

def TOCTREE_OPTIONS : List String :=
  ["caption", "hidden", "maxdepth", "numbered", "reversed", "titlesonly"]

/-- `MalformedError`: the single error kind raised by the parser
(`parsing.py` lines 28-29). -/
structure MalformedError where
  msg : String
  deriving Repr, DecidableEq, Inhabited

/-! ## Validating constructors of the entity model

Modelled from the spec: construction of a grouping or document with
inconsistent field value types fails type-checking (§4.1: "option value types
must be consistent with declared types", wrapped by the parser), which in the
attrs-style data model is a `TypeError` carried here as `Except String`. -/

/-- The declared default value of each `TocTree` option, as a data value
(the spec gives each option "a defined default value"; the concrete values
follow the upstream data model: `caption=None`, `hidden=True`, `maxdepth=-1`,
`numbered=False`, `reversed=False`, `titlesonly=True`). -/
def toctreeFieldDefault : String → Value
  | "caption" => .vnone
  | "hidden" => .vbool true
  | "maxdepth" => .vint (-1)
  | "numbered" => .vbool false
  | "reversed" => .vbool false
  | "titlesonly" => .vbool true
  | _ => .vnone

/-- Validation of a `caption` value: an optional string. -/
def validate_caption : Value → Except String (Option String)
  | .vnone => .ok none
  | .vstr s => .ok (some s)
  | _ => .error "caption must be a string or None"

/-- Validation of a boolean option value. -/
def validate_bool : Value → Except String Bool
  | .vbool b => .ok b
  | _ => .error "expected a bool"

/-- Validation of an integer option value. -/
def validate_int : Value → Except String Int
  | .vint n => .ok n
  | _ => .error "expected an int"

/-- Validation of a `numbered` value: a boolean or an integer, kept as a data
value. -/
def validate_numbered : Value → Except String Value
  | .vbool b => .ok (.vbool b)
  | .vint n => .ok (.vint n)
  | _ => .error "numbered must be a bool or int"

/-- Modelled from the spec: `TocTree(items=..., **keywords)`.  Every keyword
must name a recognized option (an unexpected keyword is a `TypeError`), each
option falls back to its declared default when absent, and each value must be
consistent with the option's declared type (§3: `caption` optional string,
`hidden`/`reversed`/`titlesonly` booleans, `maxdepth` int, `numbered` bool or
int). -/
def toctree_init (items : List Item) (keywords : List (String × Value)) :
    Except String TocTree :=
  if !(keywords.all fun kv => TOCTREE_OPTIONS.contains kv.1) then
    .error "unexpected keyword argument"
  else
    match validate_caption ((dictGet keywords "caption").getD (toctreeFieldDefault "caption")) with
    | .error e => .error e
    | .ok caption =>
      match validate_bool ((dictGet keywords "hidden").getD (toctreeFieldDefault "hidden")) with
      | .error e => .error e
      | .ok hidden =>
        match validate_int ((dictGet keywords "maxdepth").getD (toctreeFieldDefault "maxdepth")) with
        | .error e => .error e
        | .ok maxdepth =>
          match validate_numbered ((dictGet keywords "numbered").getD (toctreeFieldDefault "numbered")) with
          | .error e => .error e
          | .ok numbered =>
            match validate_bool ((dictGet keywords "reversed").getD (toctreeFieldDefault "reversed")) with
            | .error e => .error e
            | .ok reversed =>
              match validate_bool ((dictGet keywords "titlesonly").getD (toctreeFieldDefault "titlesonly")) with
              | .error e => .error e
              | .ok titlesonly =>
                .ok { items := items, caption := caption, hidden := hidden,
                      maxdepth := maxdepth, numbered := numbered,
                      reversed := reversed, titlesonly := titlesonly }

/-- Modelled from the spec: `Document(docname=..., title=..., subtrees=...)`;
the docname must be a string and the title a string or `None`. -/
def document_init (docnameV titleV : Value) (subtrees : List TocTree) :
    Except String Document :=
  match docnameV with
  | .vstr docname =>
    (match titleV with
     | .vnone => .ok { docname := docname, title := none, subtrees := subtrees }
     | .vstr t => .ok { docname := docname, title := some t, subtrees := subtrees }
     | _ => .error "title must be a string or None")
  | _ => .error "docname must be a string"

/-! ## The parser (`parsing.py` lines 39-182)

The loops of `_parse_doc_item` are written as named recursive functions, so
`toc_idx`/`item_idx` appear as explicit counters; the error messages are the
source's f-strings.  `_known_link_keys` is a Python `set` literal whose `repr`
order is hash-dependent; the model fixes the declaration order
`'file', 'glob', 'url'`. -/

/-- `repr` of the set of link keys present on an item entry (declaration
order). -/
def linkKeysRepr (hasFile hasGlob hasUrl : Bool) : String :=
  let elems :=
    (if hasFile then [pyReprStr FILE_KEY] else []) ++
    (if hasGlob then [pyReprStr GLOB_KEY] else []) ++
    (if hasUrl then [pyReprStr URL_KEY] else [])
  "\x7b" ++ String.intercalate ", " elems ++ "\x7d"

/-- Python `needle in haystack` for the membership tests the parser performs
on item entries (`FILE_KEY in item_data` and friends).  For a mapping this is
key containment.  A non-mapping item entry is rejected by the item loop before
any such test is evaluated on it (for a string Python would use substring
containment, for other types it would raise), so non-mappings are rendered as
`false`. -/
def pyInKey (v : Value) (k : String) : Bool :=
  match v with
  | .vmap m => dictContains m k
  | _ => false

/-- Lines 67-79 of `_parse_doc_item`: determine `subtrees_data`, either the
singleton list synthesised from the items-key shorthand (merged with the
top-level `options` mapping), the validated non-empty `subtrees` sequence, or
the empty list.  The result is the list of elements the source iterates
(`enumerate(subtrees_data)`); a string value for the subtrees-key is a Python
`Sequence` of its one-character substrings. -/
def get_subtrees_data (data : List (String × Value)) (path : String)
    (subtreesKey itemsKey : String) : Except MalformedError (List Value) :=
  if dictContains data itemsKey then
    -- this is a shorthand for defining a single subtree
    if dictContains data subtreesKey then
      .error ⟨"Both '" ++ subtreesKey ++ "' and '" ++ itemsKey ++ "' found: '" ++ path ++ "'"⟩
    else
      .ok [Value.vmap (dictMerge [(itemsKey, (dictGet data itemsKey).getD .vnone)]
        (pyDictPairs ((dictGet data "options").getD (.vmap []))))]
  else if dictContains data subtreesKey then
    match pySeqElems ((dictGet data subtreesKey).getD .vnone) with
    | none =>
        .error ⟨"'" ++ subtreesKey ++ "' not a non-empty list: '" ++ path ++ "'"⟩
    | some xs =>
        if xs.isEmpty then
          .error ⟨"'" ++ subtreesKey ++ "' not a non-empty list: '" ++ path ++ "'"⟩
        else .ok xs
  else .ok []

/-- Lines 100-133 of `_parse_doc_item`: parse a single item entry of a
grouping's items list into an `Item`, validating that exactly one link key is
present and that a `glob`/`url` entry carries no `subtrees`/`sections` key. -/
def parse_item_data (itemData : Value) (path : String) (tocIdx itemIdx : Nat)
    (subtreesKey itemsKey : String) : Except MalformedError Item :=
  let pos := path ++ toString tocIdx ++ "/" ++ toString itemIdx
  if !(isMapping itemData) then
    .error ⟨"'" ++ itemsKey ++ "' item not a mapping type: '" ++ pos ++ "'"⟩
  else
    let hasFile := pyInKey itemData FILE_KEY
    let hasGlob := pyInKey itemData GLOB_KEY
    let hasUrl := pyInKey itemData URL_KEY
    let linkCount := (if hasFile then 1 else 0) + (if hasGlob then 1 else 0) +
      (if hasUrl then 1 else 0)
    -- validation checks
    if linkCount = 0 then
      .error ⟨"'" ++ itemsKey ++ "' item does not contain one of " ++
        linkKeysRepr true true true ++ ": '" ++ pos ++ "'"⟩
    else if linkCount ≠ 1 then
      .error ⟨"'" ++ itemsKey ++ "' item contains incompatible keys " ++
        linkKeysRepr hasFile hasGlob hasUrl ++ ": " ++ pos⟩
    else if hasGlob && pyInKey itemData subtreesKey then
      .error ⟨"'" ++ itemsKey ++ "' item contains incompatible keys '" ++ GLOB_KEY ++
        "' and '" ++ subtreesKey ++ "': " ++ pos⟩
    else if hasGlob && pyInKey itemData itemsKey then
      .error ⟨"'" ++ itemsKey ++ "' item contains incompatible keys '" ++ GLOB_KEY ++
        "' and '" ++ itemsKey ++ "': " ++ pos⟩
    else if hasUrl && pyInKey itemData subtreesKey then
      .error ⟨"'" ++ itemsKey ++ "' item contains incompatible keys '" ++ URL_KEY ++
        "' and '" ++ subtreesKey ++ "': " ++ pos⟩
    else if hasUrl && pyInKey itemData itemsKey then
      .error ⟨"'" ++ itemsKey ++ "' item contains incompatible keys '" ++ URL_KEY ++
        "' and '" ++ itemsKey ++ "': " ++ pos⟩
    else if hasFile then .ok (.file (pyStr (pyGet itemData FILE_KEY)))
    else if hasGlob then .ok (.glob (pyStr (pyGet itemData GLOB_KEY)))
    else .ok (.url (pyGet itemData URL_KEY) (pyGet itemData "title"))

/-- The `for item_idx, item_data in enumerate(items_data)` loop (lines
100-133): generate the sections list. -/
def parse_items_list (itemsData : List Value) (path : String) (tocIdx itemIdx : Nat)
    (subtreesKey itemsKey : String) : Except MalformedError (List Item) :=
  match itemsData with
  | [] => .ok []
  | itemData :: rest =>
    match parse_item_data itemData path tocIdx itemIdx subtreesKey itemsKey with
    | .error e => .error e
    | .ok item =>
      match parse_items_list rest path tocIdx (itemIdx + 1) subtreesKey itemsKey with
      | .error e => .error e
      | .ok items => .ok (item :: items)

/-- Lines 136-139 of `_parse_doc_item`: generate toc key-word arguments: the
recognized options present on the grouping, then every `defaults` key not
already set. -/
def toctree_keywords (tocData : Value) (defaults : List (String × Value)) :
    List (String × Value) :=
  let keywords := TOCTREE_OPTIONS.foldl
    (fun acc k => if pyInKey tocData k then dictInsert acc k (pyGet tocData k) else acc) []
  defaults.foldl
    (fun acc kv => if dictContains acc kv.1 then acc else dictInsert acc kv.1 kv.2) keywords

/-- The `for toc_idx, toc_data in enumerate(subtrees_data)` loop (lines
84-145): validate each part, parse its items, and construct its `TocTree`,
wrapping a construction `TypeError` as `MalformedError` naming the part. -/
def parse_subtrees (subtreesData : List Value) (defaults : List (String × Value))
    (path : String) (subtreesKey itemsKey : String) (tocIdx : Nat) :
    Except MalformedError (List TocTree) :=
  match subtreesData with
  | [] => .ok []
  | tocData :: rest =>
    if !(isMapping tocData && pyInKey tocData itemsKey) then
      .error ⟨"part not a mapping containing '" ++ itemsKey ++ "' key: '" ++
        path ++ toString tocIdx ++ "'"⟩
    else
      match pySeqElems (pyGet tocData itemsKey) with
      | none =>
          .error ⟨"'" ++ itemsKey ++ "' not a non-empty list: '" ++ path ++
            toString tocIdx ++ "'"⟩
      | some itemsData =>
        if itemsData.isEmpty then
          .error ⟨"'" ++ itemsKey ++ "' not a non-empty list: '" ++ path ++
            toString tocIdx ++ "'"⟩
        else
          match parse_items_list itemsData path tocIdx 0 subtreesKey itemsKey with
          | .error e => .error e
          | .ok items =>
            match toctree_init items (toctree_keywords tocData defaults) with
            | .error _ => .error ⟨"toctree validation: " ++ path ++ toString tocIdx⟩
            | .ok tocItem =>
              match parse_subtrees rest defaults path subtreesKey itemsKey (tocIdx + 1) with
              | .error e => .error e
              | .ok toctrees => .ok (tocItem :: toctrees)

/-- Lines 154-159 of `_parse_doc_item`: the flattened list of item entries
containing a `file` key, across all groupings — these become the child
documents to recurse into.  (`toc_data[items_key]` re-reads the items lists
the loop above iterated; in a state where a part lacks the key or is not a
sequence the parse has already failed, which the model renders as no
entries.) -/
def docs_data_of (subtreesData : List Value) (itemsKey : String) : List Value :=
  (subtreesData.map fun tocData =>
    ((pySeqElems (pyGet tocData itemsKey)).getD []).filter
      (fun itemData => pyInKey itemData FILE_KEY)).flatten

/-- `_parse_doc_item` (lines 55-164): parse a single doc item, returning the
`Document` and the file-backed item entries of its groupings. -/
def parse_doc_item (data : List (String × Value)) (defaults : List (String × Value))
    (path : String) (subtreesKey itemsKey fileKey : String) :
    Except MalformedError (Document × List Value) :=
  if !(dictContains data fileKey) then
    .error ⟨"'" ++ fileKey ++ "' key not found: '" ++ path ++ "'"⟩
  else
    match get_subtrees_data data path subtreesKey itemsKey with
    | .error e => .error e
    | .ok subtreesData =>
      match parse_subtrees subtreesData defaults path subtreesKey itemsKey 0 with
      | .error e => .error e
      | .ok toctrees =>
        match document_init ((dictGet data fileKey).getD .vnone)
            ((dictGet data "title").getD .vnone) toctrees with
        | .error _ => .error ⟨"doc validation: " ++ path⟩
        | .ok docItem => .ok (docItem, docs_data_of subtreesData itemsKey)

/-- `docname in site_map` where `docname` is the raw value of a `file` key
(line 176).  A Python dict membership test with a non-string hashable key is
simply `False`; unhashable keys (containers) would raise, but the walk only
reaches this test with values drawn from item entries, whose parse fails later
for any non-string value anyway. -/
def SiteMap.containsV (sm : SiteMap) (docname : Value) : Bool :=
  match docname with
  | .vstr s => sm.contains s
  | _ => false

/-- `site_map[docname] = child_item` (line 180) with the raw `file` value as
key; the successful parse of `child_item` guarantees the value is a string. -/
def SiteMap.setitemV (sm : SiteMap) (docname : Value) (item : Document) : SiteMap :=
  match docname with
  | .vstr s => sm.setitem s item
  | _ => sm

/-! ### Size bounds: the child entries returned by `parse_doc_item` are
structurally smaller than the document data they came from, which terminates
the recursive walk `parse_docs_list`. -/

theorem sizeOf_value_pos (v : Value) : 0 < sizeOf v := by
  cases v <;> simp

theorem sizeOf_dictGet {kvs : List (String × Value)} {k : String} {v : Value}
    (h : dictGet kvs k = some v) : sizeOf v < sizeOf kvs := by
  induction kvs with
  | nil => simp [dictGet] at h
  | cons hd tl ih =>
    obtain ⟨k', v'⟩ := hd
    simp only [dictGet] at h
    split at h
    · cases h; simp; omega
    · have := ih h; simp; omega

theorem sizeOf_mem_pair_snd {kvs : List (String × Value)} {k : String} {v : Value}
    (h : (k, v) ∈ kvs) : sizeOf v < sizeOf kvs := by
  induction kvs with
  | nil => cases h
  | cons hd tl ih =>
    rcases List.mem_cons.mp h with rfl | hm
    · simp; omega
    · have := ih hm; simp; omega

theorem sizeOf_filter_le (p : Value → Bool) (l : List Value) :
    sizeOf (l.filter p) ≤ sizeOf l := by
  induction l with
  | nil => simp
  | cons hd tl ih =>
    rw [List.filter_cons]
    split
    · simp; omega
    · simp; omega

theorem sizeOf_append_value (l₁ l₂ : List Value) :
    sizeOf (l₁ ++ l₂) + 1 = sizeOf l₁ + sizeOf l₂ := by
  induction l₁ with
  | nil => simp; omega
  | cons hd tl ih => simp; omega

theorem sizeOf_pyDictPairs_le (v : Value) : sizeOf (pyDictPairs v) ≤ sizeOf v := by
  cases v <;> simp [pyDictPairs]

theorem dictGet_insert_cases {a : List (String × Value)} {k₁ k : String} {v₁ v : Value}
    (h : dictGet (dictInsert a k₁ v₁) k = some v) :
    (k = k₁ ∧ v = v₁) ∨ dictGet a k = some v := by
  induction a with
  | nil =>
    simp only [dictInsert, dictGet] at h
    split at h
    · cases h; left; constructor <;> simp_all
    · cases h
  | cons hd tl ih =>
    obtain ⟨k', v'⟩ := hd
    simp only [dictInsert] at h
    split at h
    · simp only [dictGet] at h ⊢
      split at h
      · cases h; left; constructor <;> simp_all
      · right; rename_i hk1 hkk
        rw [if_neg]; exact h
        intro hc; exact hkk (hk1 ▸ hc)
    · simp only [dictGet] at h ⊢
      split at h
      · right; cases h; rw [if_pos ‹k' = k›]
      · rcases ih h with h' | h'
        · left; exact h'
        · right; rw [if_neg ‹¬ k' = k›]; exact h'

theorem dictGet_merge_cases {b a : List (String × Value)} {k : String} {v : Value}
    (h : dictGet (dictMerge a b) k = some v) :
    dictGet a k = some v ∨ (k, v) ∈ b := by
  induction b generalizing a with
  | nil => left; simpa [dictMerge] using h
  | cons hd tl ih =>
    obtain ⟨k₁, v₁⟩ := hd
    have hstep : dictMerge a ((k₁, v₁) :: tl) = dictMerge (dictInsert a k₁ v₁) tl := by
      simp [dictMerge]
    rw [hstep] at h
    rcases ih h with h' | h'
    · rcases dictGet_insert_cases h' with ⟨rfl, rfl⟩ | h''
      · right; simp
      · left; exact h''
    · right; exact List.mem_cons_of_mem _ h'

/-- One grouping's contribution to `docs_data_of`. -/
def file_entries_of (tocData : Value) (itemsKey : String) : List Value :=
  ((pySeqElems (pyGet tocData itemsKey)).getD []).filter
    (fun itemData => pyInKey itemData FILE_KEY)

theorem docs_data_of_eq_map (subtreesData : List Value) (itemsKey : String) :
    docs_data_of subtreesData itemsKey =
      (subtreesData.map fun tocData => file_entries_of tocData itemsKey).flatten := rfl

theorem file_entries_of_nonmap {tocData : Value} (h : isMapping tocData = false)
    (itemsKey : String) : file_entries_of tocData itemsKey = [] := by
  cases tocData <;> simp_all [file_entries_of, pyGet, pyDictPairs, dictGet,
    pySeqElems, isMapping]

theorem file_entries_of_bound {tocData : Value} {itemsKey : String} {B : Nat}
    (hB : 1 ≤ B)
    (hlook : ∀ w, dictGet (pyDictPairs tocData) itemsKey = some w → sizeOf w ≤ B) :
    sizeOf (file_entries_of tocData itemsKey) ≤ B := by
  unfold file_entries_of pyGet
  cases hget : dictGet (pyDictPairs tocData) itemsKey with
  | none => simpa [pySeqElems] using hB
  | some w =>
    have hw := hlook w hget
    cases w with
    | vlist ys =>
      simp only [Option.getD_some, pySeqElems]
      calc sizeOf (ys.filter fun itemData => pyInKey itemData FILE_KEY)
          ≤ sizeOf ys := sizeOf_filter_le _ _
        _ ≤ B := by simp at hw; omega
    | vstr s =>
      have hnil : ((s.toList.map fun c => Value.vstr (String.mk [c])).filter
          (fun itemData => pyInKey itemData FILE_KEY)) = [] := by
        rw [List.filter_eq_nil_iff]
        intro a ha
        rcases List.mem_map.mp ha with ⟨c, _, rfl⟩
        simp [pyInKey]
      simp only [Option.getD_some, pySeqElems, hnil]
      simpa using hB
    | vnone => simpa [pySeqElems] using hB
    | vbool b => simpa [pySeqElems] using hB
    | vint n => simpa [pySeqElems] using hB
    | vmap kvs => simpa [pySeqElems] using hB

theorem file_entries_of_le_self (tocData : Value) (itemsKey : String) :
    sizeOf (file_entries_of tocData itemsKey) ≤ sizeOf tocData := by
  apply file_entries_of_bound (sizeOf_value_pos tocData)
  intro w hget
  have h₁ := sizeOf_dictGet hget
  have h₂ := sizeOf_pyDictPairs_le tocData
  omega

theorem docs_data_of_le {subtreesData : List Value} {itemsKey : String}
    (h : ∀ tocData ∈ subtreesData,
      sizeOf (file_entries_of tocData itemsKey) ≤ sizeOf tocData) :
    sizeOf (docs_data_of subtreesData itemsKey) ≤ sizeOf subtreesData := by
  rw [docs_data_of_eq_map]
  induction subtreesData with
  | nil => simp
  | cons hd tl ih =>
    have hhd := h hd (List.mem_cons_self hd tl)
    have htl := ih (fun t ht => h t (List.mem_cons_of_mem hd ht))
    rw [List.map_cons, List.flatten_cons]
    have := sizeOf_append_value (file_entries_of hd itemsKey)
      ((tl.map fun tocData => file_entries_of tocData itemsKey).flatten)
    simp only [List.cons.sizeOf_spec]
    omega

theorem docs_data_of_nil_of {subtreesData : List Value} {itemsKey : String}
    (h : ∀ tocData ∈ subtreesData, file_entries_of tocData itemsKey = []) :
    docs_data_of subtreesData itemsKey = [] := by
  rw [docs_data_of_eq_map]
  rw [List.flatten_eq_nil_iff]
  intro l hl
  rcases List.mem_map.mp hl with ⟨t, ht, rfl⟩
  exact h t ht

/-- The child entries of a successfully parsed doc item are, in total,
structurally no larger than the doc item's data. -/
theorem parse_doc_item_children_sizeOf {data defaults : List (String × Value)}
    {path subtreesKey itemsKey fileKey : String} {docItem : Document} {cs : List Value}
    (h : parse_doc_item data defaults path subtreesKey itemsKey fileKey =
      .ok (docItem, cs)) :
    sizeOf cs ≤ sizeOf data := by
  have hdata : (1 : Nat) ≤ sizeOf data := by
    cases data with
    | nil => simp
    | cons hd tl => simp; omega
  unfold parse_doc_item at h
  split at h
  · cases h
  · split at h
    · cases h
    · rename_i subtreesData hsd
      split at h
      · cases h
      · split at h
        · cases h
        · rename_i docItem' heq
          cases h
          -- `cs = docs_data_of subtreesData itemsKey`; bound via the branches of
          -- `get_subtrees_data`.
          unfold get_subtrees_data at hsd
          split at hsd
          · split at hsd
            · cases hsd
            · cases hsd
              -- shorthand: a single synthesised mapping
              rw [docs_data_of_eq_map, List.map_cons, List.map_nil,
                List.flatten_cons, List.flatten_nil, List.append_nil]
              apply file_entries_of_bound hdata
              intro w hget
              simp only [pyDictPairs] at hget
              rcases dictGet_merge_cases hget with hget' | hmem
              · have hsing : dictGet [(itemsKey, (dictGet data itemsKey).getD Value.vnone)]
                    itemsKey = some ((dictGet data itemsKey).getD Value.vnone) := by
                  simp [dictGet]
                rw [hsing] at hget'
                injection hget' with hw
                subst hw
                cases hv0 : dictGet data itemsKey with
                | none => simpa using hdata
                | some v0 => simpa using le_of_lt (sizeOf_dictGet hv0)
              · cases hopt : dictGet data "options" with
                | none => rw [hopt] at hmem; simp [pyDictPairs] at hmem
                | some ov =>
                  rw [hopt] at hmem
                  simp only [Option.getD_some] at hmem
                  have h₃ := sizeOf_dictGet hopt
                  cases ov with
                  | vmap pp =>
                    simp only [pyDictPairs] at hmem
                    have h₁ := sizeOf_mem_pair_snd hmem
                    simp only [Value.vmap.sizeOf_spec] at h₃
                    omega
                  | vnone => simp [pyDictPairs] at hmem
                  | vbool b => simp [pyDictPairs] at hmem
                  | vstr s => simp [pyDictPairs] at hmem
                  | vint n => simp [pyDictPairs] at hmem
                  | vlist l => simp [pyDictPairs] at hmem
          · split at hsd
            · -- long form: elements of the subtrees value
              split at hsd
              · cases hsd
              · rename_i xs hseq
                split at hsd
                · cases hsd
                · cases hsd
                  cases hv : dictGet data subtreesKey with
                  | none => rw [hv] at hseq; simp [pySeqElems] at hseq
                  | some w =>
                    rw [hv] at hseq
                    simp only [Option.getD_some] at hseq
                    have hwlt := sizeOf_dictGet hv
                    cases w with
                    | vlist ys =>
                      simp only [pySeqElems, Option.some.injEq] at hseq
                      subst hseq
                      have h₁ := @docs_data_of_le ys itemsKey
                        (fun t _ => file_entries_of_le_self t itemsKey)
                      simp only [Value.vlist.sizeOf_spec] at hwlt
                      omega
                    | vstr s =>
                      simp only [pySeqElems, Option.some.injEq] at hseq
                      subst hseq
                      rw [docs_data_of_nil_of]
                      · simpa using hdata
                      · intro t ht
                        rcases List.mem_map.mp ht with ⟨c, _, rfl⟩
                        exact file_entries_of_nonmap (by simp [isMapping]) itemsKey
                    | vnone => simp [pySeqElems] at hseq
                    | vbool b => simp [pySeqElems] at hseq
                    | vint n => simp [pySeqElems] at hseq
                    | vmap kvs => simp [pySeqElems] at hseq
            · cases hsd
              simpa [docs_data_of, List.map_nil] using hdata

/-- The recursive call on a parsed entry's children is on structurally
smaller data. -/
theorem children_cons_sizeOf_lt {docData : Value} {rest : List Value}
    {defaults : List (String × Value)} {childPath : String} {childItem : Document}
    {childDocsList : List Value}
    (hpi : parse_doc_item (pyDictPairs docData) defaults childPath
      DEFAULT_SUBTREES_KEY DEFAULT_ITEMS_KEY FILE_KEY = .ok (childItem, childDocsList)) :
    sizeOf childDocsList < sizeOf (docData :: rest) := by
  have h₁ := parse_doc_item_children_sizeOf hpi
  have h₂ := sizeOf_pyDictPairs_le docData
  have h₃ := sizeOf_value_pos docData
  simp only [List.cons.sizeOf_spec]
  omega

/-- `_parse_docs_list` (lines 167-182): parse a list of docs.  Each entry's
docname must be new to the site-map; the entry is parsed as a doc item,
registered, and its own file-backed entries are walked depth-first before the
remaining entries. -/
def parse_docs_list (docsList : List Value) (siteMap : SiteMap)
    (defaults : List (String × Value)) (path : String) :
    Except MalformedError SiteMap :=
  match docsList with
  | [] => .ok siteMap
  | docData :: rest =>
    -- `docname = doc_data["file"]`; the walk only receives mappings that
    -- contain the key, so the `.get`-style default is never taken.
    let docname := pyGet docData FILE_KEY
    if siteMap.containsV docname then
      .error ⟨"document file used multiple times: " ++ pyStr docname⟩
    else
      let childPath := path ++ pyStr docname ++ "/"
      match hpi : parse_doc_item (pyDictPairs docData) defaults childPath
          DEFAULT_SUBTREES_KEY DEFAULT_ITEMS_KEY FILE_KEY with
      | .error e => .error e
      | .ok (childItem, childDocsList) =>
        match parse_docs_list childDocsList (siteMap.setitemV docname childItem)
            defaults childPath with
        | .error e => .error e
        | .ok siteMap' => parse_docs_list rest siteMap' defaults path
termination_by sizeOf docsList
decreasing_by
  · exact children_cons_sizeOf_lt hpi
  · simp only [List.cons.sizeOf_spec]; omega

/-- `parse_toc_data` (lines 39-52): parse a dictionary of the ToC into a
`SiteMap`. -/
def parse_toc_data (data : Value) : Except MalformedError SiteMap :=
  if !(isMapping data) then
    .error ⟨"toc is not a mapping: " ++ pyTypeStr data⟩
  else
    -- `defaults: Dict[str, Any] = data.get("defaults", {})`
    let defaults := pyDictPairs (pyGet data "defaults")
    match parse_doc_item (pyDictPairs data) defaults "/"
        DEFAULT_SUBTREES_KEY DEFAULT_ITEMS_KEY "root" with
    | .error e => .error e
    | .ok (docItem, docsList) =>
      let siteMap := SiteMap.make docItem (pyGet data "meta")
      parse_docs_list docsList siteMap defaults "/"

/-! ## The serializer (`parsing.py` lines 185-261)

`_docitem_to_dict` recurses through `site_map` lookups rather than through its
arguments' structure, so the model takes a fuel parameter; `noFuel` marks
exhaustion and corresponds to no behaviour of the source — every terminating
run of the source is reproduced by all sufficiently large fuels.  The mutable
`parsed_docnames` set threaded through the entire traversal is modelled by
passing the visited list in and returning the extended list. -/

inductive SerializeError where
  /-- `RecursionError` (line 209): a docname reached a second time. -/
  | recursion : String → SerializeError
  /-- Fuel exhaustion (an artefact of the model, not of the source). -/
  | noFuel : SerializeError
  deriving Repr, DecidableEq, Inhabited

/-- The data value stored back from a validated `caption`. -/
def captionValue : Option String → Value
  | none => .vnone
  | some s => .vstr s

/-- `getattr(toctree, key)` for a recognized option name, as a data value. -/
def toctree_option_value (toctree : TocTree) (key : String) : Value :=
  match key with
  | "caption" => captionValue toctree.caption
  | "hidden" => .vbool toctree.hidden
  | "maxdepth" => .vint toctree.maxdepth
  | "numbered" => toctree.numbered
  | "reversed" => .vbool toctree.reversed
  | "titlesonly" => .vbool toctree.titlesonly
  | _ => .vnone

/-- Lines 243-247: the option fields of one grouping, keeping a key only if
`skip_defaults` is off or the value differs (Python `!=`) from the field's
declared default. -/
def serialize_toctree_options (toctree : TocTree) (skipDefaults : Bool) :
    List (String × Value) :=
  TOCTREE_OPTIONS.foldl
    (fun acc key =>
      if !skipDefaults || !pyEq (toctree_option_value toctree key) (toctreeFieldDefault key)
      then dictInsert acc key (toctree_option_value toctree key)
      else acc) []

mutual

/-- `_docitem_to_dict` (lines 195-261): serialize one document, guarding
against a docname being reached twice, and applying the single-grouping
shorthand compaction at the end. -/
def docitem_to_dict (fuel : Nat) (docItem : Document) (siteMap : SiteMap)
    (skipDefaults : Bool) (subtreesKey itemsKey fileKey : String)
    (parsedDocnames : List String) :
    Except SerializeError (List (String × Value) × List String) :=
  match fuel with
  | 0 => .error .noFuel
  | fuel + 1 =>
    -- protect against infinite recursion
    if parsedDocnames.contains docItem.docname then
      .error (.recursion (pyReprStr docItem.docname ++ " in site-map multiple times"))
    else
      let visited := docItem.docname :: parsedDocnames
      let data : List (String × Value) := [(fileKey, .vstr docItem.docname)]
      let data := match docItem.title with
        | some t => dictInsert data "title" (.vstr t)
        | none => data
      if docItem.subtrees.isEmpty then .ok (data, visited)
      else
        match serialize_subtrees fuel docItem.subtrees siteMap skipDefaults
            itemsKey visited with
        | .error e => .error e
        | .ok (toctreesData, visited) =>
          let data := dictInsert data subtreesKey (.vlist (toctreesData.map .vmap))
          -- apply shorthand if possible (one toctree in subtrees)
          match toctreesData with
          | [single] =>
            if dictContains single itemsKey then
              let data := dictRemove data subtreesKey
              let data := dictInsert data itemsKey ((dictGet single itemsKey).getD .vnone)
              if single.length > 1 then
                .ok (dictInsert data "options"
                  (.vmap (single.filter (fun kv => kv.1 ≠ itemsKey))), visited)
              else .ok (data, visited)
            else .ok (data, visited)
          | _ => .ok (data, visited)

/-- The `for toctree in doc_item.subtrees` loop (lines 241-249). -/
def serialize_subtrees (fuel : Nat) (toctrees : List TocTree) (siteMap : SiteMap)
    (skipDefaults : Bool) (itemsKey : String) (parsedDocnames : List String) :
    Except SerializeError (List (List (String × Value)) × List String) :=
  match fuel with
  | 0 => .error .noFuel
  | fuel + 1 =>
    match toctrees with
    | [] => .ok ([], parsedDocnames)
    | toctree :: rest =>
      match serialize_items fuel toctree.items siteMap skipDefaults parsedDocnames with
      | .error e => .error e
      | .ok (itemVals, visited) =>
        let toctreeData := dictInsert (serialize_toctree_options toctree skipDefaults)
          itemsKey (.vlist itemVals)
        match serialize_subtrees fuel rest siteMap skipDefaults itemsKey visited with
        | .error e => .error e
        | .ok (restData, visited') => .ok (toctreeData :: restData, visited')

/-- The `[_parse_item(s) for s in toctree.items]` comprehension (line 248). -/
def serialize_items (fuel : Nat) (items : List Item) (siteMap : SiteMap)
    (skipDefaults : Bool) (parsedDocnames : List String) :
    Except SerializeError (List Value × List String) :=
  match fuel with
  | 0 => .error .noFuel
  | fuel + 1 =>
    match items with
    | [] => .ok ([], parsedDocnames)
    | item :: rest =>
      match serialize_item fuel item siteMap skipDefaults parsedDocnames with
      | .error e => .error e
      | .ok (v, visited) =>
        match serialize_items fuel rest siteMap skipDefaults visited with
        | .error e => .error e
        | .ok (vs, visited') => .ok (v :: vs, visited')

/-- `_parse_item` (lines 221-237): serialize one item; a `FileItem` present in
the site-map is inlined by a full recursive serialization of its document. -/
def serialize_item (fuel : Nat) (item : Item) (siteMap : SiteMap)
    (skipDefaults : Bool) (parsedDocnames : List String) :
    Except SerializeError (Value × List String) :=
  match fuel with
  | 0 => .error .noFuel
  | fuel + 1 =>
    match item with
    | .file s =>
      match siteMap.find s with
      | some childDoc =>
        match docitem_to_dict fuel childDoc siteMap skipDefaults
            DEFAULT_SUBTREES_KEY DEFAULT_ITEMS_KEY FILE_KEY parsedDocnames with
        | .error e => .error e
        | .ok (d, visited) => .ok (.vmap d, visited)
      | none => .ok (.vmap [(FILE_KEY, .vstr s)], parsedDocnames)
    | .glob s => .ok (.vmap [(GLOB_KEY, .vstr s)], parsedDocnames)
    | .url u t =>
      match t with
      | .vnone => .ok (.vmap [(URL_KEY, u)], parsedDocnames)
      | _ => .ok (.vmap [(URL_KEY, u), ("title", t)], parsedDocnames)

end

/-- `create_toc_dict` (lines 185-192): create the ToC dictionary from a
site-map, starting at the root with the reserved `"root"` file-key and
appending a copy of `meta` if truthy. -/
def create_toc_dict (fuel : Nat) (siteMap : SiteMap) (skipDefaults : Bool) :
    Except SerializeError (List (String × Value)) :=
  match docitem_to_dict fuel siteMap.root siteMap skipDefaults
      DEFAULT_SUBTREES_KEY DEFAULT_ITEMS_KEY "root" [] with
  | .error e => .error e
  | .ok (data, _) =>
    if pyTruthy siteMap.meta then .ok (dictInsert data "meta" siteMap.meta)
    else .ok data

/-! ### Evaluation twin of the walk

`parse_docs_list` is defined by well-founded recursion and therefore does not
reduce definitionally; `parse_docs_list_fuel` is the same computation with an
explicit structural bound, used (through `parse_toc_data_exec`) to evaluate
the parser on concrete inputs.  `parse_docs_list_eq_fuel` shows any bound at
least the size of the entry list is enough. -/

def parse_docs_list_fuel (fuel : Nat) (docsList : List Value) (siteMap : SiteMap)
    (defaults : List (String × Value)) (path : String) :
    Except MalformedError SiteMap :=
  match docsList, fuel with
  | [], _ => .ok siteMap
  | _ :: _, 0 => .error ⟨"recursion bound exhausted"⟩
  | docData :: rest, fuel + 1 =>
      let docname := pyGet docData FILE_KEY
      if siteMap.containsV docname then
        .error ⟨"document file used multiple times: " ++ pyStr docname⟩
      else
        let childPath := path ++ pyStr docname ++ "/"
        match parse_doc_item (pyDictPairs docData) defaults childPath
            DEFAULT_SUBTREES_KEY DEFAULT_ITEMS_KEY FILE_KEY with
        | .error e => .error e
        | .ok (childItem, childDocsList) =>
          match parse_docs_list_fuel fuel childDocsList
              (siteMap.setitemV docname childItem) defaults childPath with
          | .error e => .error e
          | .ok siteMap' => parse_docs_list_fuel fuel rest siteMap' defaults path

/-- Whether a result is the fuel twin's exhaustion marker (no run of the
source produces it). -/
def isFuelErr : Except MalformedError SiteMap → Bool
  | .error e => e.msg == "recursion bound exhausted"
  | .ok _ => false

/-- A fuel run that does not exhaust its bound computes `parse_docs_list`. -/
theorem parse_docs_list_eq_fuel :
    ∀ (fuel : Nat) (docsList : List Value) (siteMap : SiteMap)
      (defaults : List (String × Value)) (path : String),
      isFuelErr (parse_docs_list_fuel fuel docsList siteMap defaults path) = false →
      parse_docs_list docsList siteMap defaults path =
        parse_docs_list_fuel fuel docsList siteMap defaults path := by
  intro fuel
  induction fuel with
  | zero =>
    intro docsList siteMap defaults path h
    match docsList with
    | [] => rw [parse_docs_list]; rfl
    | docData :: rest => simp [parse_docs_list_fuel, isFuelErr] at h
  | succ fuel ih =>
    intro docsList siteMap defaults path h
    match docsList with
    | [] => rw [parse_docs_list]; rfl
    | docData :: rest =>
      rw [parse_docs_list]
      simp only [parse_docs_list_fuel] at h ⊢
      cases hcont : (siteMap.containsV (pyGet docData FILE_KEY)) with
      | true => simp [hcont]
      | false =>
        simp only [hcont, Bool.false_eq_true, if_false] at h ⊢
        cases hpi : parse_doc_item (pyDictPairs docData) defaults
            (path ++ pyStr (pyGet docData FILE_KEY) ++ "/")
            DEFAULT_SUBTREES_KEY DEFAULT_ITEMS_KEY FILE_KEY with
        | error e => rfl
        | ok pr =>
          obtain ⟨childItem, childDocsList⟩ := pr
          simp only [hpi] at h
          dsimp only at h ⊢
          cases hchild : parse_docs_list_fuel fuel childDocsList
              (siteMap.setitemV (pyGet docData FILE_KEY) childItem) defaults
              (path ++ pyStr (pyGet docData FILE_KEY) ++ "/") with
          | error e =>
            rw [hchild] at h
            dsimp only at h
            have hc : isFuelErr (parse_docs_list_fuel fuel childDocsList
                (siteMap.setitemV (pyGet docData FILE_KEY) childItem) defaults
                (path ++ pyStr (pyGet docData FILE_KEY) ++ "/")) = false := by
              rw [hchild]; simpa [isFuelErr] using h
            rw [ih childDocsList _ _ _ hc, hchild]
          | ok siteMap' =>
            rw [hchild] at h
            dsimp only at h
            rw [ih childDocsList _ _ _ (by rw [hchild]; rfl), hchild]
            dsimp only
            exact ih rest siteMap' defaults path h

/-- `parse_toc_data` with the walk replaced by its bounded evaluation twin;
definitionally computable for literal bounds. -/
def parse_toc_data_exec (fuel : Nat) (data : Value) : Except MalformedError SiteMap :=
  if !(isMapping data) then
    .error ⟨"toc is not a mapping: " ++ pyTypeStr data⟩
  else
    let defaults := pyDictPairs (pyGet data "defaults")
    match parse_doc_item (pyDictPairs data) defaults "/"
        DEFAULT_SUBTREES_KEY DEFAULT_ITEMS_KEY "root" with
    | .error e => .error e
    | .ok (docItem, docsList) =>
      let siteMap := SiteMap.make docItem (pyGet data "meta")
      parse_docs_list_fuel fuel docsList siteMap defaults "/"

theorem parse_toc_data_eq_exec (fuel : Nat) (data : Value)
    (h : isFuelErr (parse_toc_data_exec fuel data) = false) :
    parse_toc_data data = parse_toc_data_exec fuel data := by
  unfold parse_toc_data_exec at h
  unfold parse_toc_data parse_toc_data_exec
  cases hm : isMapping data with
  | false => simp [hm]
  | true =>
    simp only [hm, Bool.not_true, Bool.false_eq_true, if_false] at h ⊢
    cases hpi : parse_doc_item (pyDictPairs data) (pyDictPairs (pyGet data "defaults")) "/"
        DEFAULT_SUBTREES_KEY DEFAULT_ITEMS_KEY "root" with
    | error e => simp only [hpi]
    | ok pr =>
      obtain ⟨docItem, docsList⟩ := pr
      simp only [hpi] at h ⊢
      exact parse_docs_list_eq_fuel fuel docsList _ _ "/" h

/-! ## Claims -/

/-- The input of claim C2: `{root: "index", sections: [{file: "a"}]}`. -/
def c2_input : Value :=
  .vmap [("root", .vstr "index"),
         ("sections", .vlist [.vmap [("file", .vstr "a")]])]

/-- The root document that parsing `c2_input` produces. -/
def c2_root : Document :=
  { docname := "index", title := none,
    subtrees := [{ items := [.file "a"], caption := none, hidden := true,
                   maxdepth := -1, numbered := .vbool false, reversed := false,
                   titlesonly := true }] }

/-- The document that parsing `c2_input` registers for `"a"`. -/
def c2_leaf : Document := { docname := "a", title := none, subtrees := [] }

/-- C2, counterexample: the claim states that `"a"` is *not* registered as a
document of the SiteMap; in fact parsing succeeds and the SiteMap does contain
an entry for `"a"` (`_parse_docs_list` registers every file-backed item
entry). -/
theorem C2_counterexample :
    (parse_toc_data c2_input).map (fun sm => sm.contains "a") = .ok true := by
  rw [parse_toc_data_eq_exec 50 c2_input rfl]
  rfl

/-- C2, amended: parsing `{root: "index", sections: [{file: "a"}]}` yields a
SiteMap whose root has docname `"index"` and exactly one grouping containing
the single item `FileItem("a")` — and `"a"` *is* registered as a document of
its own: the file-backed entry becomes a nested document definition, a leaf
`Document` with docname `"a"`, no title and no subtrees (the root itself is
registered under `"index"` as well). -/
theorem C2_parse_registers_file_entries :
    parse_toc_data c2_input =
      .ok { root := c2_root, docs := [("index", c2_root), ("a", c2_leaf)],
            meta := .vnone } := by
  rw [parse_toc_data_eq_exec 50 c2_input rfl]
  rfl

/-- The input of claim C3's concrete instance: the root docname `"index"`
re-used by a nested file entry. -/
def c3_input : Value :=
  .vmap [("root", .vstr "index"),
         ("sections", .vlist [.vmap [("file", .vstr "index")]])]

/-- C3: whenever the file-entry at the head of the recursive child walk has a
docname already registered in the site-map under construction, the walk fails
at once with the duplicate-use `MalformedError` — for every content of the
entry and every list of remaining entries, so nothing below that entry is
parsed; and in particular the root document's docname re-appearing as a
nested `file:` key (the concrete `c3_input`) is rejected this way. -/
theorem C3_duplicate_docname :
    (∀ (docData : Value) (rest : List Value) (siteMap : SiteMap)
       (defaults : List (String × Value)) (path : String) (dn : String),
       pyGet docData FILE_KEY = .vstr dn →
       siteMap.contains dn = true →
       parse_docs_list (docData :: rest) siteMap defaults path =
         .error ⟨"document file used multiple times: " ++ dn⟩) ∧
    parse_toc_data c3_input =
      .error ⟨"document file used multiple times: index"⟩ := by
  constructor
  · intro docData rest siteMap defaults path dn hdn hmem
    rw [parse_docs_list]
    simp only [hdn, SiteMap.containsV, hmem, if_pos, pyStr]
  · rw [parse_toc_data_eq_exec 50 c3_input rfl]
    rfl

/-- C3, witness: the universal part applied at a concrete site-map that
already contains the docname `"x"`. -/
theorem C3_duplicate_docname_witness :
    pyGet (Value.vmap [("file", .vstr "x")]) FILE_KEY = .vstr "x" ∧
    (SiteMap.make { docname := "x", title := none, subtrees := [] } .vnone).contains "x"
      = true ∧
    parse_docs_list [Value.vmap [("file", .vstr "x")]]
      (SiteMap.make { docname := "x", title := none, subtrees := [] } .vnone) [] "/" =
      .error ⟨"document file used multiple times: x"⟩ :=
  ⟨rfl, rfl,
    C3_duplicate_docname.1 (Value.vmap [("file", .vstr "x")]) []
      (SiteMap.make { docname := "x", title := none, subtrees := [] } .vnone) [] "/" "x"
      rfl rfl⟩

/-- The number of link keys (`file`, `glob`, `url`) present on an item-entry
mapping (a statement helper for C8). -/
def link_key_count (m : List (String × Value)) : Nat :=
  (if dictContains m FILE_KEY then 1 else 0) +
  (if dictContains m GLOB_KEY then 1 else 0) +
  (if dictContains m URL_KEY then 1 else 0)

/-- C8: an item-entry mapping with none of `{file, glob, url}` fails with the
"does not contain one of" `MalformedError`; with two or more of them it fails
with the "incompatible keys" `MalformedError`; with exactly one it passes this
check — the entry either parses to an item or fails only the later
`glob`/`url`-versus-`subtrees`/`sections` key check. -/
theorem C8_item_entry_link_keys :
    ∀ (m : List (String × Value)) (path : String) (tocIdx itemIdx : Nat)
      (subtreesKey itemsKey : String),
      (link_key_count m = 0 →
        parse_item_data (.vmap m) path tocIdx itemIdx subtreesKey itemsKey =
          .error ⟨"'" ++ itemsKey ++ "' item does not contain one of " ++
            linkKeysRepr true true true ++ ": '" ++
            (path ++ toString tocIdx ++ "/" ++ toString itemIdx) ++ "'"⟩) ∧
      (2 ≤ link_key_count m →
        parse_item_data (.vmap m) path tocIdx itemIdx subtreesKey itemsKey =
          .error ⟨"'" ++ itemsKey ++ "' item contains incompatible keys " ++
            linkKeysRepr (dictContains m FILE_KEY) (dictContains m GLOB_KEY)
              (dictContains m URL_KEY) ++ ": " ++
            (path ++ toString tocIdx ++ "/" ++ toString itemIdx)⟩) ∧
      (link_key_count m = 1 →
        (∃ item, parse_item_data (.vmap m) path tocIdx itemIdx subtreesKey itemsKey =
          .ok item) ∨
        (∃ k₁ k₂, (k₁ = GLOB_KEY ∨ k₁ = URL_KEY) ∧
          (k₂ = subtreesKey ∨ k₂ = itemsKey) ∧
          parse_item_data (.vmap m) path tocIdx itemIdx subtreesKey itemsKey =
            .error ⟨"'" ++ itemsKey ++ "' item contains incompatible keys '" ++ k₁ ++
              "' and '" ++ k₂ ++ "': " ++
              (path ++ toString tocIdx ++ "/" ++ toString itemIdx)⟩)) := by
  intro m path tocIdx itemIdx subtreesKey itemsKey
  unfold parse_item_data link_key_count
  simp only [isMapping, Bool.not_true, Bool.false_eq_true, if_false, pyInKey]
  rcases Bool.eq_false_or_eq_true (dictContains m FILE_KEY) with hF | hF <;>
    rcases Bool.eq_false_or_eq_true (dictContains m GLOB_KEY) with hG | hG <;>
      rcases Bool.eq_false_or_eq_true (dictContains m URL_KEY) with hU | hU
  -- file, glob, url all present
  · refine ⟨?_, ?_, ?_⟩ <;> intro hcnt
    · simp [hF, hG, hU] at hcnt
    · simp +decide [hF, hG, hU]
    · simp [hF, hG, hU] at hcnt
  -- file and glob
  · refine ⟨?_, ?_, ?_⟩ <;> intro hcnt
    · simp [hF, hG, hU] at hcnt
    · simp +decide [hF, hG, hU]
    · simp [hF, hG, hU] at hcnt
  -- file and url
  · refine ⟨?_, ?_, ?_⟩ <;> intro hcnt
    · simp [hF, hG, hU] at hcnt
    · simp +decide [hF, hG, hU]
    · simp [hF, hG, hU] at hcnt
  -- file only: the entry parses
  · refine ⟨?_, ?_, ?_⟩ <;> intro hcnt
    · simp [hF, hG, hU] at hcnt
    · simp [hF, hG, hU] at hcnt
    · left
      exact ⟨Item.file (pyStr (pyGet (Value.vmap m) FILE_KEY)),
        by simp +decide [hF, hG, hU]⟩
  -- glob and url
  · refine ⟨?_, ?_, ?_⟩ <;> intro hcnt
    · simp [hF, hG, hU] at hcnt
    · simp +decide [hF, hG, hU]
    · simp [hF, hG, hU] at hcnt
  -- glob only: the entry passes the arity check
  · refine ⟨?_, ?_, ?_⟩ <;> intro hcnt
    · simp [hF, hG, hU] at hcnt
    · simp [hF, hG, hU] at hcnt
    · rcases Bool.eq_false_or_eq_true (dictContains m subtreesKey) with hs | hs
      · exact Or.inr ⟨GLOB_KEY, subtreesKey, Or.inl rfl, Or.inl rfl,
          by simp +decide [hF, hG, hU, hs]⟩
      · rcases Bool.eq_false_or_eq_true (dictContains m itemsKey) with hi | hi
        · exact Or.inr ⟨GLOB_KEY, itemsKey, Or.inl rfl, Or.inr rfl,
            by simp +decide [hF, hG, hU, hs, hi]⟩
        · exact Or.inl ⟨Item.glob (pyStr (pyGet (Value.vmap m) GLOB_KEY)),
            by simp +decide [hF, hG, hU, hs, hi]⟩
  -- url only: the entry passes the arity check
  · refine ⟨?_, ?_, ?_⟩ <;> intro hcnt
    · simp [hF, hG, hU] at hcnt
    · simp [hF, hG, hU] at hcnt
    · rcases Bool.eq_false_or_eq_true (dictContains m subtreesKey) with hs | hs
      · exact Or.inr ⟨URL_KEY, subtreesKey, Or.inr rfl, Or.inl rfl,
          by simp +decide [hF, hG, hU, hs]⟩
      · rcases Bool.eq_false_or_eq_true (dictContains m itemsKey) with hi | hi
        · exact Or.inr ⟨URL_KEY, itemsKey, Or.inr rfl, Or.inr rfl,
            by simp +decide [hF, hG, hU, hs, hi]⟩
        · exact Or.inl ⟨Item.url (pyGet (Value.vmap m) URL_KEY)
            (pyGet (Value.vmap m) "title"),
            by simp +decide [hF, hG, hU, hs, hi]⟩
  -- no link key at all
  · refine ⟨?_, ?_, ?_⟩ <;> intro hcnt
    · simp +decide [hF, hG, hU]
    · simp [hF, hG, hU] at hcnt
    · simp [hF, hG, hU] at hcnt

/-- C8, witness: the arity checks applied to the three concrete entries
`{}`, `{file: "a", glob: "b"}` and `{glob: "p"}`. -/
theorem C8_item_entry_link_keys_witness :
    (link_key_count [] = 0 ∧
      parse_item_data (.vmap []) "/" 0 0 DEFAULT_SUBTREES_KEY DEFAULT_ITEMS_KEY =
        .error ⟨"'sections' item does not contain one of " ++
          linkKeysRepr true true true ++ ": '/0/0'"⟩) ∧
    (2 ≤ link_key_count [("file", .vstr "a"), ("glob", .vstr "b")] ∧
      parse_item_data (.vmap [("file", .vstr "a"), ("glob", .vstr "b")]) "/" 0 0
          DEFAULT_SUBTREES_KEY DEFAULT_ITEMS_KEY =
        .error ⟨"'sections' item contains incompatible keys " ++
          linkKeysRepr true true false ++ ": /0/0"⟩) ∧
    (link_key_count [("glob", .vstr "p")] = 1 ∧
      ((∃ item, parse_item_data (.vmap [("glob", .vstr "p")]) "/" 0 0
          DEFAULT_SUBTREES_KEY DEFAULT_ITEMS_KEY = .ok item) ∨
       (∃ k₁ k₂, (k₁ = GLOB_KEY ∨ k₁ = URL_KEY) ∧
         (k₂ = DEFAULT_SUBTREES_KEY ∨ k₂ = DEFAULT_ITEMS_KEY) ∧
         parse_item_data (.vmap [("glob", .vstr "p")]) "/" 0 0
            DEFAULT_SUBTREES_KEY DEFAULT_ITEMS_KEY =
          .error ⟨"'sections' item contains incompatible keys '" ++ k₁ ++
            "' and '" ++ k₂ ++ "': /0/0"⟩))) :=
  ⟨⟨rfl, by
      have h := (C8_item_entry_link_keys [] "/" 0 0 DEFAULT_SUBTREES_KEY
        DEFAULT_ITEMS_KEY).1 rfl
      simpa using h⟩,
   ⟨by decide, by
      have h := (C8_item_entry_link_keys [("file", .vstr "a"), ("glob", .vstr "b")]
        "/" 0 0 DEFAULT_SUBTREES_KEY DEFAULT_ITEMS_KEY).2.1 (by decide)
      simpa using h⟩,
   ⟨rfl, by
      have h := (C8_item_entry_link_keys [("glob", .vstr "p")] "/" 0 0
        DEFAULT_SUBTREES_KEY DEFAULT_ITEMS_KEY).2.2 rfl
      simpa using h⟩⟩

/-- C7: whenever construction of an item-grouping (`TocTree(...)`) fails with
a type error, the grouping loop raises `MalformedError` naming the grouping's
path (`toctree validation: <path><idx>`); whenever construction of a
`Document(...)` fails with a type error, `parse_doc_item` raises
`MalformedError` naming the document's path (`doc validation: <path>`).  The
parser's error type contains only `MalformedError`, so the underlying type
error is never surfaced to the caller as a different error kind. -/
theorem C7_construction_type_errors_wrapped :
    (∀ (tocData : Value) (rest : List Value) (defaults : List (String × Value))
       (path subtreesKey itemsKey : String) (tocIdx : Nat) (itemsData : List Value)
       (items : List Item) (e : String),
       isMapping tocData = true →
       pyInKey tocData itemsKey = true →
       pySeqElems (pyGet tocData itemsKey) = some itemsData →
       itemsData.isEmpty = false →
       parse_items_list itemsData path tocIdx 0 subtreesKey itemsKey = .ok items →
       toctree_init items (toctree_keywords tocData defaults) = .error e →
       parse_subtrees (tocData :: rest) defaults path subtreesKey itemsKey tocIdx =
         .error ⟨"toctree validation: " ++ path ++ toString tocIdx⟩) ∧
    (∀ (data defaults : List (String × Value))
       (path subtreesKey itemsKey fileKey : String)
       (subtreesData : List Value) (toctrees : List TocTree) (e : String),
       dictContains data fileKey = true →
       get_subtrees_data data path subtreesKey itemsKey = .ok subtreesData →
       parse_subtrees subtreesData defaults path subtreesKey itemsKey 0 = .ok toctrees →
       document_init ((dictGet data fileKey).getD .vnone)
         ((dictGet data "title").getD .vnone) toctrees = .error e →
       parse_doc_item data defaults path subtreesKey itemsKey fileKey =
         .error ⟨"doc validation: " ++ path⟩) := by
  constructor
  · intro tocData rest defaults path subtreesKey itemsKey tocIdx itemsData items e
      hmap hkey hseq hne hitems hinit
    unfold parse_subtrees
    simp only [hmap, hkey, Bool.and_self, Bool.not_true, Bool.false_eq_true,
      if_false, hseq, hne, hitems, hinit]
  · intro data defaults path subtreesKey itemsKey fileKey subtreesData toctrees e
      hfk hsd hst hinit
    unfold parse_doc_item
    simp only [hfk, Bool.not_true, Bool.false_eq_true, if_false, hsd, hst, hinit]

/-- C7, witness: a grouping with `maxdepth: "x"` wraps the type error as
`toctree validation: /0`, and a document with a non-string `file` value wraps
it as `doc validation: /`. -/
theorem C7_construction_type_errors_wrapped_witness :
    parse_subtrees
        [Value.vmap [("sections", .vlist [.vmap [("file", .vstr "a")]]),
                     ("maxdepth", .vstr "x")]]
        [] "/" DEFAULT_SUBTREES_KEY DEFAULT_ITEMS_KEY 0 =
      .error ⟨"toctree validation: " ++ "/" ++ toString 0⟩ ∧
    parse_doc_item [("file", .vint 3)] [] "/"
        DEFAULT_SUBTREES_KEY DEFAULT_ITEMS_KEY FILE_KEY =
      .error ⟨"doc validation: " ++ "/"⟩ :=
  ⟨C7_construction_type_errors_wrapped.1
      (Value.vmap [("sections", .vlist [.vmap [("file", .vstr "a")]]),
                   ("maxdepth", .vstr "x")])
      [] [] "/" DEFAULT_SUBTREES_KEY DEFAULT_ITEMS_KEY 0
      [Value.vmap [("file", .vstr "a")]] [Item.file "a"] "expected an int"
      rfl rfl rfl rfl rfl rfl,
   C7_construction_type_errors_wrapped.2 [("file", .vint 3)] [] "/"
      DEFAULT_SUBTREES_KEY DEFAULT_ITEMS_KEY FILE_KEY [] [] "docname must be a string"
      rfl rfl rfl rfl⟩

/-! ### Dictionary lookup lemmas used by C4. -/

theorem dictGet_insert_self (l : List (String × Value)) (k : String) (v : Value) :
    dictGet (dictInsert l k v) k = some v := by
  induction l with
  | nil => simp [dictInsert, dictGet]
  | cons hd tl ih =>
    obtain ⟨k', v'⟩ := hd
    by_cases h : k' = k
    · subst h; simp [dictInsert, dictGet]
    · simp [dictInsert, dictGet, h, ih]

theorem dictGet_insert_ne (l : List (String × Value)) {k k' : String} (v : Value)
    (h : k' ≠ k) : dictGet (dictInsert l k v) k' = dictGet l k' := by
  induction l with
  | nil => simp [dictInsert, dictGet, Ne.symm h]
  | cons hd tl ih =>
    obtain ⟨k₁, v₁⟩ := hd
    by_cases h₁ : k₁ = k
    · subst h₁
      simp [dictInsert, dictGet, Ne.symm h]
    · by_cases h₂ : k₁ = k'
      · subst h₂; simp [dictInsert, dictGet, h₁]
      · simp [dictInsert, dictGet, h₁, h₂, ih]

theorem dictGet_remove_ne (l : List (String × Value)) {k k' : String}
    (h : k' ≠ k) : dictGet (dictRemove l k) k' = dictGet l k' := by
  induction l with
  | nil => simp [dictRemove]
  | cons hd tl ih =>
    obtain ⟨k₁, v₁⟩ := hd
    by_cases h₁ : k₁ = k
    · subst h₁
      simp [dictRemove, dictGet, Ne.symm h]
    · simp [dictRemove, dictGet, h₁, ih]

theorem dictGet_eq_none_of_not_mem (l : List (String × Value)) (k : String)
    (h : k ∉ l.map Prod.fst) : dictGet l k = none := by
  induction l with
  | nil => rfl
  | cons hd tl ih =>
    obtain ⟨k₁, v₁⟩ := hd
    simp only [List.map_cons, List.mem_cons] at h
    push_neg at h
    simp [dictGet, Ne.symm h.1, ih h.2]

theorem dictGet_remove_self (l : List (String × Value)) (k : String)
    (hnd : (l.map Prod.fst).Nodup) : dictGet (dictRemove l k) k = none := by
  induction l with
  | nil => simp [dictRemove, dictGet]
  | cons hd tl ih =>
    obtain ⟨k₁, v₁⟩ := hd
    simp only [List.map_cons, List.nodup_cons] at hnd
    by_cases h₁ : k₁ = k
    · subst h₁
      have hrw : dictRemove ((k₁, v₁) :: tl) k₁ = tl := by simp [dictRemove]
      rw [hrw]
      exact dictGet_eq_none_of_not_mem tl k₁ hnd.1
    · simp [dictRemove, dictGet, h₁, ih hnd.2]

/-- The long form that claim C4 compares the items-key shorthand against: the
items-key is replaced by a subtrees-key holding one grouping mapping, built
from the items list plus the pairs of the top-level `options` mapping. -/
def long_form (data : List (String × Value)) : List (String × Value) :=
  dictInsert (dictRemove data DEFAULT_ITEMS_KEY) DEFAULT_SUBTREES_KEY
    (.vlist [.vmap (dictMerge
      [(DEFAULT_ITEMS_KEY, (dictGet data DEFAULT_ITEMS_KEY).getD .vnone)]
      (pyDictPairs ((dictGet data "options").getD (.vmap []))))])

/-- C4: a document mapping with the items-key (`sections`) and no
subtrees-key parses exactly as its long form, in which `subtrees` holds the
single grouping consisting of those items merged with the pairs of the
top-level `options` mapping — both the resulting `Document` and the child
entries agree.  (`data` is a Python dict, so its keys are distinct, and the
document's file-key is a reserved key distinct from `sections`/`subtrees`.) -/
theorem C4_shorthand_long_form_equiv :
    ∀ (data defaults : List (String × Value)) (path fileKey : String),
      (data.map Prod.fst).Nodup →
      dictContains data DEFAULT_ITEMS_KEY = true →
      dictContains data DEFAULT_SUBTREES_KEY = false →
      fileKey ≠ DEFAULT_ITEMS_KEY →
      fileKey ≠ DEFAULT_SUBTREES_KEY →
      parse_doc_item data defaults path
          DEFAULT_SUBTREES_KEY DEFAULT_ITEMS_KEY fileKey =
        parse_doc_item (long_form data) defaults path
          DEFAULT_SUBTREES_KEY DEFAULT_ITEMS_KEY fileKey := by
  intro data defaults path fileKey hnd hik hsk hf1 hf2
  have hlf_fk : dictGet (long_form data) fileKey = dictGet data fileKey := by
    unfold long_form
    rw [dictGet_insert_ne _ _ hf2, dictGet_remove_ne _ hf1]
  have hlf_title : dictGet (long_form data) "title" = dictGet data "title" := by
    unfold long_form
    rw [dictGet_insert_ne _ _ (by decide), dictGet_remove_ne _ (by decide)]
  have hlf_ik : dictGet (long_form data) DEFAULT_ITEMS_KEY = none := by
    unfold long_form
    rw [dictGet_insert_ne _ _ (by decide), dictGet_remove_self _ _ hnd]
  have hlf_sk : dictGet (long_form data) DEFAULT_SUBTREES_KEY =
      some (.vlist [.vmap (dictMerge
        [(DEFAULT_ITEMS_KEY, (dictGet data DEFAULT_ITEMS_KEY).getD .vnone)]
        (pyDictPairs ((dictGet data "options").getD (.vmap []))))]) := by
    unfold long_form
    exact dictGet_insert_self _ _ _
  simp only [dictContains] at hik hsk
  cases hg : dictGet data DEFAULT_ITEMS_KEY with
  | none => rw [hg] at hik; simp at hik
  | some v =>
    unfold parse_doc_item get_subtrees_data
    rw [hg] at hlf_sk
    simp only [dictContains, hlf_fk, hlf_title, hlf_ik, hlf_sk, hsk, hg,
      Option.isSome_some, Option.isSome_none, Bool.false_eq_true, if_false,
      if_true, Bool.not_true, Bool.not_false, pySeqElems, List.isEmpty_cons,
      Option.getD_some]

/-- C4, witness: the equivalence applied at the concrete shorthand document
`{file: "d", sections: [{file: "a"}], options: {caption: "C"}}`. -/
theorem C4_shorthand_long_form_equiv_witness :
    parse_doc_item
        [("file", .vstr "d"),
         ("sections", .vlist [.vmap [("file", .vstr "a")]]),
         ("options", .vmap [("caption", .vstr "C")])] [] "/"
        DEFAULT_SUBTREES_KEY DEFAULT_ITEMS_KEY FILE_KEY =
      parse_doc_item
        (long_form
          [("file", .vstr "d"),
           ("sections", .vlist [.vmap [("file", .vstr "a")]]),
           ("options", .vmap [("caption", .vstr "C")])]) [] "/"
        DEFAULT_SUBTREES_KEY DEFAULT_ITEMS_KEY FILE_KEY :=
  C4_shorthand_long_form_equiv
    [("file", .vstr "d"),
     ("sections", .vlist [.vmap [("file", .vstr "a")]]),
     ("options", .vmap [("caption", .vstr "C")])] [] "/" FILE_KEY
    (by decide) rfl rfl (by decide) (by decide)

/-! ### Lookup characterization of `toctree_keywords`, used by C5 and C9. -/

theorem dictGet_defaults_foldl (defaults : List (String × Value))
    (init : List (String × Value)) (k : String) :
    dictGet (defaults.foldl
      (fun acc kv => if dictContains acc kv.1 then acc else dictInsert acc kv.1 kv.2)
      init) k =
    (if (dictGet init k).isSome then dictGet init k else dictGet defaults k) := by
  induction defaults generalizing init with
  | nil => cases h : dictGet init k <;> simp [h, dictGet]
  | cons hd tl ih =>
    obtain ⟨k₁, v₁⟩ := hd
    simp only [List.foldl_cons]
    rw [ih]
    by_cases hc : dictContains init k₁
    · simp only [hc, if_true]
      cases h : dictGet init k with
      | some v => simp [h, dictGet]
      | none =>
        simp only [h, Option.isSome_none, Bool.false_eq_true, if_false, dictGet]
        by_cases hk : k₁ = k
        · subst hk
          simp [dictContains, h] at hc
        · simp [hk]
    · simp only [hc, Bool.false_eq_true, if_false]
      by_cases hk : k₁ = k
      · subst hk
        simp only [dictContains] at hc
        rw [dictGet_insert_self]
        cases h : dictGet init k₁ with
        | some v => rw [h] at hc; simp at hc
        | none => simp [dictGet]
      · rw [dictGet_insert_ne _ _ (Ne.symm hk)]
        simp [dictGet, hk]

theorem dictGet_options_foldl (opts : List String) (tocData : Value)
    (init : List (String × Value)) (k : String) :
    dictGet (opts.foldl
      (fun acc key =>
        if pyInKey tocData key then dictInsert acc key (pyGet tocData key) else acc)
      init) k =
    (if opts.contains k && pyInKey tocData k then some (pyGet tocData k)
     else dictGet init k) := by
  induction opts generalizing init with
  | nil => simp
  | cons o rest ih =>
    simp only [List.foldl_cons]
    rw [ih]
    by_cases hk : o = k
    · subst hk
      cases hp : pyInKey tocData o <;>
        cases hr : rest.contains o <;>
          simp_all [List.contains_cons, dictGet_insert_self]
    · cases hp : pyInKey tocData o <;>
        simp_all [List.contains_cons, dictGet_insert_ne _ _ (Ne.symm hk),
          show (o == k) = false by simp [hk], Ne.symm hk]

theorem dictGet_toctree_keywords (tocData : Value)
    (defaults : List (String × Value)) (k : String) :
    dictGet (toctree_keywords tocData defaults) k =
    (if TOCTREE_OPTIONS.contains k && pyInKey tocData k then some (pyGet tocData k)
     else dictGet defaults k) := by
  unfold toctree_keywords
  rw [dictGet_defaults_foldl, dictGet_options_foldl]
  cases h : (TOCTREE_OPTIONS.contains k && pyInKey tocData k) with
  | true => simp [h]
  | false => simp [h, dictGet]

/-! ### Recovering the stored option value from a successful validation. -/

theorem validate_caption_ok {v : Value} {c : Option String}
    (h : validate_caption v = .ok c) : captionValue c = v := by
  cases v <;> simp [validate_caption] at h <;> (subst h; rfl)

theorem validate_bool_ok {v : Value} {b : Bool} (h : validate_bool v = .ok b) :
    Value.vbool b = v := by
  cases v <;> simp [validate_bool] at h <;> (subst h; rfl)

theorem validate_int_ok {v : Value} {n : Int} (h : validate_int v = .ok n) :
    Value.vint n = v := by
  cases v <;> simp [validate_int] at h <;> (subst h; rfl)

theorem validate_numbered_ok {v w : Value} (h : validate_numbered v = .ok w) :
    w = v := by
  cases v <;> simp [validate_numbered] at h <;> (subst h; rfl)

/-- Inversion of a successful `TocTree` construction. -/
theorem toctree_init_ok_inv {items : List Item} {keywords : List (String × Value)}
    {t : TocTree} (h : toctree_init items keywords = .ok t) :
    (keywords.all fun kv => TOCTREE_OPTIONS.contains kv.1) = true ∧
    t.items = items ∧
    validate_caption ((dictGet keywords "caption").getD (toctreeFieldDefault "caption"))
      = .ok t.caption ∧
    validate_bool ((dictGet keywords "hidden").getD (toctreeFieldDefault "hidden"))
      = .ok t.hidden ∧
    validate_int ((dictGet keywords "maxdepth").getD (toctreeFieldDefault "maxdepth"))
      = .ok t.maxdepth ∧
    validate_numbered ((dictGet keywords "numbered").getD (toctreeFieldDefault "numbered"))
      = .ok t.numbered ∧
    validate_bool ((dictGet keywords "reversed").getD (toctreeFieldDefault "reversed"))
      = .ok t.reversed ∧
    validate_bool ((dictGet keywords "titlesonly").getD (toctreeFieldDefault "titlesonly"))
      = .ok t.titlesonly := by
  unfold toctree_init at h
  split at h
  · cases h
  · rename_i hall
    rw [Bool.not_eq_true', Bool.not_eq_false] at hall
    refine ⟨hall, ?_⟩
    split at h
    · cases h
    · split at h
      · cases h
      · split at h
        · cases h
        · split at h
          · cases h
          · split at h
            · cases h
            · split at h
              · cases h
              · cases h
                simp_all

/-- The option value handed to the grouping's construction for a recognized
key is resolved by the chain: grouping's own value, else the `defaults`
value, else the option's built-in default. -/
theorem keywords_arg_eq (tocData : Value) (defaults : List (String × Value))
    (key : String) (hk : TOCTREE_OPTIONS.contains key = true) :
    (dictGet (toctree_keywords tocData defaults) key).getD (toctreeFieldDefault key) =
      (if pyInKey tocData key then pyGet tocData key
       else if dictContains defaults key then (dictGet defaults key).getD .vnone
       else toctreeFieldDefault key) := by
  rw [dictGet_toctree_keywords, hk]
  cases hp : pyInKey tocData key with
  | true => simp [hp]
  | false =>
    simp only [hp, Bool.and_false, Bool.false_eq_true, if_false]
    cases hd : dictGet defaults key with
    | some v => simp [dictContains, hd]
    | none => simp [dictContains, hd]

/-- C5: for every item-grouping whose construction from `toc_data` and the
top-level `defaults` succeeds, each recognized option's final value is the
grouping's own value when the key is present on the grouping, else the
same-named `defaults` value, else the option's built-in default; the result
carries exactly the given items and the six options, so keys outside the
recognized set are not copied into the options (the keyword assembly reads
only recognized keys from the grouping). -/
theorem C5_option_resolution :
    ∀ (tocData : Value) (defaults : List (String × Value)) (items : List Item)
      (t : TocTree),
      toctree_init items (toctree_keywords tocData defaults) = .ok t →
      t.items = items ∧
      ∀ key ∈ TOCTREE_OPTIONS,
        toctree_option_value t key =
          (if pyInKey tocData key then pyGet tocData key
           else if dictContains defaults key then (dictGet defaults key).getD .vnone
           else toctreeFieldDefault key) := by
  intro tocData defaults items t h
  obtain ⟨hall, hitems, hcap, hhid, hmax, hnum, hrev, htit⟩ := toctree_init_ok_inv h
  refine ⟨hitems, ?_⟩
  intro key hkey
  fin_cases hkey
  · rw [keywords_arg_eq tocData defaults "caption" rfl] at hcap
    exact validate_caption_ok hcap
  · rw [keywords_arg_eq tocData defaults "hidden" rfl] at hhid
    exact validate_bool_ok hhid
  · rw [keywords_arg_eq tocData defaults "maxdepth" rfl] at hmax
    exact validate_int_ok hmax
  · rw [keywords_arg_eq tocData defaults "numbered" rfl] at hnum
    exact validate_numbered_ok hnum
  · rw [keywords_arg_eq tocData defaults "reversed" rfl] at hrev
    exact validate_bool_ok hrev
  · rw [keywords_arg_eq tocData defaults "titlesonly" rfl] at htit
    exact validate_bool_ok htit

/-- The grouping data of C5's witness: `hidden` set on the grouping (plus an
unrecognized key), `hidden` and `caption` set in `defaults`. -/
def w5_toc : Value := .vmap [("hidden", .vbool false), ("junk", .vint 1)]

def w5_defaults : List (String × Value) :=
  [("hidden", .vbool true), ("caption", .vstr "D")]

/-- The grouping C5's witness constructs: `hidden` from the grouping wins
over `defaults`, `caption` comes from `defaults`, the rest are built-in. -/
def w5_t : TocTree :=
  { items := [.file "a"], caption := some "D", hidden := false, maxdepth := -1,
    numbered := .vbool false, reversed := false, titlesonly := true }

/-- C5, witness: the resolution chain applied to `w5_toc`/`w5_defaults`. -/
theorem C5_option_resolution_witness :
    w5_t.items = [Item.file "a"] ∧
    ∀ key ∈ TOCTREE_OPTIONS,
      toctree_option_value w5_t key =
        (if pyInKey w5_toc key then pyGet w5_toc key
         else if dictContains w5_defaults key then (dictGet w5_defaults key).getD .vnone
         else toctreeFieldDefault key) :=
  C5_option_resolution w5_toc w5_defaults [Item.file "a"] w5_t rfl

/-! ### Lemmas about the serialized grouping mapping, used by C6. -/

theorem dictGet_mem {l : List (String × Value)} {k : String} {v : Value}
    (h : dictGet l k = some v) : (k, v) ∈ l := by
  induction l with
  | nil => simp [dictGet] at h
  | cons hd tl ih =>
    obtain ⟨k₁, v₁⟩ := hd
    simp only [dictGet] at h
    split at h
    · cases h; subst ‹k₁ = k›; simp
    · exact List.mem_cons_of_mem _ (ih h)

theorem mem_dictInsert {l : List (String × Value)} {k k₁ : String} {v v₁ : Value}
    (h : (k₁, v₁) ∈ dictInsert l k v) : (k₁, v₁) ∈ l ∨ (k₁, v₁) = (k, v) := by
  induction l with
  | nil => simp [dictInsert] at h; simp [h]
  | cons hd tl ih =>
    obtain ⟨k₂, v₂⟩ := hd
    simp only [dictInsert] at h
    split at h
    · rcases List.mem_cons.mp h with heq | hm
      · right; exact heq
      · left; exact List.mem_cons_of_mem _ hm
    · rcases List.mem_cons.mp h with heq | hm
      · left; simp [heq]
      · rcases ih hm with h' | h'
        · left; exact List.mem_cons_of_mem _ h'
        · right; exact h'

theorem mem_serialize_toctree_options {t : TocTree} {skipDefaults : Bool}
    {kv : String × Value} (h : kv ∈ serialize_toctree_options t skipDefaults) :
    TOCTREE_OPTIONS.contains kv.1 = true := by
  unfold serialize_toctree_options at h
  obtain ⟨k₁, v₁⟩ := kv
  have main : ∀ (opts : List String) (init : List (String × Value)),
      (∀ kv ∈ init, TOCTREE_OPTIONS.contains kv.1 = true) →
      (∀ k ∈ opts, TOCTREE_OPTIONS.contains k = true) →
      ∀ kv ∈ opts.foldl
        (fun acc key =>
          if !skipDefaults || !pyEq (toctree_option_value t key) (toctreeFieldDefault key)
          then dictInsert acc key (toctree_option_value t key)
          else acc) init,
        TOCTREE_OPTIONS.contains kv.1 = true := by
    intro opts
    induction opts with
    | nil => intro init hinit _ kv hkv; exact hinit kv hkv
    | cons o rest ih =>
      intro init hinit hopts kv hkv
      simp only [List.foldl_cons] at hkv
      refine ih _ ?_ (fun k hk => hopts k (List.mem_cons_of_mem _ hk)) kv hkv
      intro kv' hkv'
      split at hkv'
      · obtain ⟨k', v'⟩ := kv'
        rcases mem_dictInsert hkv' with h' | h'
        · exact hinit _ h'
        · cases h'
          exact hopts o (List.mem_cons_self o rest)
      · exact hinit _ hkv'
  exact main TOCTREE_OPTIONS [] (by simp) (fun k hk => by fin_cases hk <;> rfl) _ h

theorem serialize_options_no_items_key (t : TocTree) (skipDefaults : Bool) :
    dictContains (serialize_toctree_options t skipDefaults) DEFAULT_ITEMS_KEY = false := by
  cases hg : dictGet (serialize_toctree_options t skipDefaults) DEFAULT_ITEMS_KEY with
  | none => simp [dictContains, hg]
  | some v =>
    have := mem_serialize_toctree_options (dictGet_mem hg)
    simp [TOCTREE_OPTIONS, DEFAULT_ITEMS_KEY] at this

theorem dictInsert_keys_nodup {l : List (String × Value)} (k : String) (v : Value)
    (h : (l.map Prod.fst).Nodup) : ((dictInsert l k v).map Prod.fst).Nodup := by
  induction l with
  | nil => simp [dictInsert]
  | cons hd tl ih =>
    obtain ⟨k₁, v₁⟩ := hd
    simp only [List.map_cons, List.nodup_cons] at h
    by_cases h₁ : k₁ = k
    · subst h₁
      have hrw : dictInsert ((k₁, v₁) :: tl) k₁ v = (k₁, v) :: tl := by
        simp [dictInsert]
      rw [hrw]
      simp only [List.map_cons, List.nodup_cons]
      exact ⟨h.1, h.2⟩
    · simp only [dictInsert, h₁, if_false, List.map_cons, List.nodup_cons]
      refine ⟨?_, ih h.2⟩
      intro hc
      have : ∀ x ∈ (dictInsert tl k v).map Prod.fst, x ∈ tl.map Prod.fst ∨ x = k := by
        intro x hx
        rcases List.mem_map.mp hx with ⟨⟨kx, vx⟩, hkx, rfl⟩
        rcases mem_dictInsert hkx with h' | h'
        · exact Or.inl (List.mem_map_of_mem Prod.fst h')
        · cases h'; exact Or.inr rfl
      rcases this k₁ hc with h' | h'
      · exact h.1 h'
      · exact h₁ h'

theorem length_dictInsert_of_not_contains {l : List (String × Value)} {k : String}
    (v : Value) (h : dictContains l k = false) :
    (dictInsert l k v).length = l.length + 1 := by
  induction l with
  | nil => rfl
  | cons hd tl ih =>
    obtain ⟨k₁, v₁⟩ := hd
    simp only [dictContains, dictGet] at h
    by_cases h₁ : k₁ = k
    · simp [h₁] at h
    · simp only [dictInsert, h₁, if_false, List.length_cons]
      rw [ih]
      simp only [dictContains]
      split at h
      · simp at h
      · exact h

theorem filter_dictInsert_of_not_contains {l : List (String × Value)} {k : String}
    (v : Value) (h : dictContains l k = false) :
    (dictInsert l k v).filter (fun kv => kv.1 ≠ k) = l := by
  induction l with
  | nil => simp [dictInsert]
  | cons hd tl ih =>
    obtain ⟨k₁, v₁⟩ := hd
    simp only [dictContains, dictGet] at h
    by_cases h₁ : k₁ = k
    · simp [h₁] at h
    · simp only [dictInsert, h₁, if_false]
      rw [List.filter_cons, if_pos (show decide ((k₁, v₁).1 ≠ k) = true by simp [h₁])]
      congr 1
      apply ih
      simp only [dictContains]
      split at h
      · simp at h
      · exact h

/-- C6: a document with exactly one item-grouping always serializes (with
`skip_defaults`) in the shorthand form: the serialized items list sits under
the `sections` key, no `subtrees` key remains, and the grouping's non-default
option fields — exactly `serialize_toctree_options` — appear under a nested
`options` key precisely when there is at least one of them.  The document's
file-key is one of the reserved keys (`file`/`root`), distinct from the
`sections`/`subtrees`/`options`/`title` keys. -/
theorem C6_single_grouping_shorthand :
    ∀ (fuel : Nat) (docItem : Document) (siteMap : SiteMap) (fileKey : String)
      (visited : List String) (m : List (String × Value)) (visited' : List String)
      (t : TocTree),
      docItem.subtrees = [t] →
      fileKey ≠ DEFAULT_SUBTREES_KEY → fileKey ≠ DEFAULT_ITEMS_KEY →
      fileKey ≠ "options" → fileKey ≠ "title" →
      docitem_to_dict fuel docItem siteMap true
        DEFAULT_SUBTREES_KEY DEFAULT_ITEMS_KEY fileKey visited = .ok (m, visited') →
      (∃ itemVals : List Value,
        dictGet m DEFAULT_ITEMS_KEY = some (.vlist itemVals)) ∧
      dictGet m DEFAULT_SUBTREES_KEY = none ∧
      dictGet m "options" =
        (if (serialize_toctree_options t true).isEmpty then none
         else some (.vmap (serialize_toctree_options t true))) := by
  intro fuel docItem siteMap fileKey visited m visited' t hsub hf1 hf2 hf3 hf4 h
  match fuel with
  | 0 => exact absurd h (by simp [docitem_to_dict])
  | Nat.succ n =>
    unfold docitem_to_dict at h
    rw [hsub] at h
    cases hg : visited.contains docItem.docname with
    | true => rw [hg] at h; simp at h
    | false =>
      rw [hg] at h
      simp only [if_false, List.isEmpty_cons, Bool.false_eq_true] at h
      cases hss : serialize_subtrees n [t] siteMap true DEFAULT_ITEMS_KEY
          (docItem.docname :: visited) with
      | error e => rw [hss] at h; simp at h
      | ok pr =>
        obtain ⟨toctreesData, vis2⟩ := pr
        rw [hss] at h
        dsimp only at h
        -- characterize the one serialized grouping
        match n with
        | 0 => exact absurd hss (by simp [serialize_subtrees])
        | Nat.succ k =>
          unfold serialize_subtrees at hss
          dsimp only at hss
          cases hsi : serialize_items k t.items siteMap true
              (docItem.docname :: visited) with
          | error e => rw [hsi] at hss; simp at hss
          | ok pri =>
            obtain ⟨itemVals, vis1⟩ := pri
            rw [hsi] at hss
            dsimp only at hss
            match k with
            | 0 => simp [serialize_subtrees] at hss
            | Nat.succ j =>
              rw [show serialize_subtrees (Nat.succ j) [] siteMap true
                  DEFAULT_ITEMS_KEY vis1 = .ok ([], vis1) from rfl] at hss
              dsimp only at hss
              cases hss
              -- now the compaction in `h`
              dsimp only at h
              rw [show dictContains
                  (dictInsert (serialize_toctree_options t true)
                    DEFAULT_ITEMS_KEY (.vlist itemVals)) DEFAULT_ITEMS_KEY = true from by
                simp [dictContains, dictGet_insert_self]] at h
              simp only [if_true] at h
              set opts := serialize_toctree_options t true with hopts
              have hnoik : dictContains opts DEFAULT_ITEMS_KEY = false :=
                serialize_options_no_items_key t true
              have hlen : (dictInsert opts DEFAULT_ITEMS_KEY (.vlist itemVals)).length
                  = opts.length + 1 := length_dictInsert_of_not_contains _ hnoik
              -- the document mapping before the subtrees key was added
              set data0 : List (String × Value) :=
                (match docItem.title with
                  | some t' => dictInsert [(fileKey, .vstr docItem.docname)] "title"
                      (.vstr t')
                  | none => [(fileKey, .vstr docItem.docname)]) with hdata0
              have hd0_nodup : (data0.map Prod.fst).Nodup := by
                rw [hdata0]
                cases docItem.title with
                | none => simp
                | some t' =>
                  dsimp only
                  apply dictInsert_keys_nodup
                  simp
              have hd0_sk : dictGet data0 DEFAULT_SUBTREES_KEY = none := by
                rw [hdata0]
                cases docItem.title with
                | none => simp [dictGet, hf1]
                | some t' =>
                  dsimp only
                  rw [dictGet_insert_ne _ _ (by decide)]
                  simp [dictGet, hf1]
              have hd0_ik : dictGet data0 DEFAULT_ITEMS_KEY = none := by
                rw [hdata0]
                cases docItem.title with
                | none => simp [dictGet, hf2]
                | some t' =>
                  dsimp only
                  rw [dictGet_insert_ne _ _ (by decide)]
                  simp [dictGet, hf2]
              have hd0_opt : dictGet data0 "options" = none := by
                rw [hdata0]
                cases docItem.title with
                | none => simp [dictGet, hf3]
                | some t' =>
                  dsimp only
                  rw [dictGet_insert_ne _ _ (by decide)]
                  simp [dictGet, hf3]
              -- name the intermediate mappings of the compaction
              set dataS := dictInsert data0 DEFAULT_SUBTREES_KEY
                (.vlist ([dictInsert opts DEFAULT_ITEMS_KEY (.vlist itemVals)].map .vmap))
                with hdataS
              set data1 := dictRemove dataS DEFAULT_SUBTREES_KEY with hdata1
              set data2 := dictInsert data1 DEFAULT_ITEMS_KEY
                ((dictGet (dictInsert opts DEFAULT_ITEMS_KEY (.vlist itemVals))
                  DEFAULT_ITEMS_KEY).getD .vnone) with hdata2
              have hd1_sk : dictGet data1 DEFAULT_SUBTREES_KEY = none := by
                rw [hdata1]
                exact dictGet_remove_self _ _ (dictInsert_keys_nodup _ _ hd0_nodup)
              have hd1_ik : dictGet data1 DEFAULT_ITEMS_KEY = none := by
                rw [hdata1, dictGet_remove_ne _ (by decide), hdataS,
                  dictGet_insert_ne _ _ (by decide)]
                exact hd0_ik
              have hd1_opt : dictGet data1 "options" = none := by
                rw [hdata1, dictGet_remove_ne _ (by decide), hdataS,
                  dictGet_insert_ne _ _ (by decide)]
                exact hd0_opt
              have hd2_ik : dictGet data2 DEFAULT_ITEMS_KEY = some (.vlist itemVals) := by
                rw [hdata2, dictGet_insert_self, dictGet_insert_self]
                rfl
              have hd2_sk : dictGet data2 DEFAULT_SUBTREES_KEY = none := by
                rw [hdata2, dictGet_insert_ne _ _ (by decide)]
                exact hd1_sk
              have hd2_opt : dictGet data2 "options" = none := by
                rw [hdata2, dictGet_insert_ne _ _ (by decide)]
                exact hd1_opt
              by_cases hl : (dictInsert opts DEFAULT_ITEMS_KEY (.vlist itemVals)).length > 1
              · rw [if_pos hl] at h
                cases h
                have hfilter : (dictInsert opts DEFAULT_ITEMS_KEY
                    (.vlist itemVals)).filter (fun kv => kv.1 ≠ DEFAULT_ITEMS_KEY)
                    = opts := filter_dictInsert_of_not_contains _ hnoik
                have hne : opts.isEmpty = false := by
                  rw [hlen] at hl
                  cases hop : opts.isEmpty with
                  | false => rfl
                  | true =>
                    rw [List.isEmpty_iff] at hop
                    rw [hop] at hl
                    simp at hl
                refine ⟨⟨itemVals, ?_⟩, ?_, ?_⟩
                · rw [dictGet_insert_ne _ _ (by decide)]
                  exact hd2_ik
                · rw [dictGet_insert_ne _ _ (by decide)]
                  exact hd2_sk
                · rw [dictGet_insert_self, hfilter, hne]
                  simp
              · rw [if_neg hl] at h
                simp only [Except.ok.injEq, Prod.mk.injEq] at h
                obtain ⟨rfl, rfl⟩ := h
                have hemp : opts.isEmpty = true := by
                  rw [hlen] at hl
                  cases hop : opts.isEmpty with
                  | true => rfl
                  | false =>
                    exfalso
                    apply hl
                    have hne' : opts ≠ [] := by
                      intro hc
                      rw [hc] at hop
                      simp at hop
                    have := List.length_pos.mpr hne'
                    omega
                refine ⟨⟨itemVals, hd2_ik⟩, hd2_sk, ?_⟩
                rw [hemp, if_pos rfl]
                exact hd2_opt

/-- The grouping, document and serialized mapping of C6's witness. -/
def w6_t : TocTree :=
  { items := [.glob "g"], caption := some "C", hidden := true, maxdepth := -1,
    numbered := .vbool false, reversed := false, titlesonly := true }

def w6_doc : Document := { docname := "d", title := none, subtrees := [w6_t] }

def w6_m : List (String × Value) :=
  [("file", .vstr "d"),
   ("sections", .vlist [.vmap [("glob", .vstr "g")]]),
   ("options", .vmap [("caption", .vstr "C")])]

/-- C6, witness: a document with one grouping holding one non-default option
(`caption`) serializes with `sections` at top level, no `subtrees` key, and
the option under `options`; the conclusion's `if` selects the `some` branch
because the options list is non-empty. -/
theorem C6_single_grouping_shorthand_witness :
    (∃ itemVals : List Value,
      dictGet w6_m DEFAULT_ITEMS_KEY = some (.vlist itemVals)) ∧
    dictGet w6_m DEFAULT_SUBTREES_KEY = none ∧
    dictGet w6_m "options" =
      (if (serialize_toctree_options w6_t true).isEmpty then none
       else some (.vmap (serialize_toctree_options w6_t true))) :=
  C6_single_grouping_shorthand 10 w6_doc (SiteMap.make w6_doc .vnone) FILE_KEY []
    w6_m ["d"] w6_t rfl (by decide) (by decide) (by decide) (by decide) rfl

/-! ### C9: an unrecognized `defaults` key poisons every grouping
construction. -/

theorem dictGet_isSome_of_mem {l : List (String × Value)} {k : String} {v : Value}
    (h : (k, v) ∈ l) : (dictGet l k).isSome = true := by
  induction l with
  | nil => cases h
  | cons hd tl ih =>
    obtain ⟨k₁, v₁⟩ := hd
    rcases List.mem_cons.mp h with heq | hm
    · cases heq; simp [dictGet]
    · simp only [dictGet]
      split
      · simp
      · exact ih hm

/-- A successful grouping construction forces every `defaults` key to be a
recognized option name (every `defaults` key not already present is passed as
a keyword, and unexpected keywords are a `TypeError`). -/
theorem defaults_recognized_of_toctree_ok {items : List Item} {tocData : Value}
    {defaults : List (String × Value)} {t : TocTree}
    (h : toctree_init items (toctree_keywords tocData defaults) = .ok t) :
    ∀ kv ∈ defaults, TOCTREE_OPTIONS.contains kv.1 = true := by
  have hall := (toctree_init_ok_inv h).1
  intro kv hkv
  obtain ⟨k, v⟩ := kv
  have hdef : (dictGet defaults k).isSome = true := dictGet_isSome_of_mem hkv
  have hkw : (dictGet (toctree_keywords tocData defaults) k).isSome = true := by
    rw [dictGet_toctree_keywords]
    split
    · simp
    · exact hdef
  cases hg : dictGet (toctree_keywords tocData defaults) k with
  | none => rw [hg] at hkw; simp at hkw
  | some w =>
    have hmem := dictGet_mem hg
    simpa using List.all_eq_true.mp hall _ hmem

theorem parse_subtrees_cons_defaults_recognized {tocData : Value}
    {rest : List Value} {defaults : List (String × Value)}
    {path subtreesKey itemsKey : String} {tocIdx : Nat} {ts : List TocTree}
    (h : parse_subtrees (tocData :: rest) defaults path subtreesKey itemsKey tocIdx
      = .ok ts) :
    ∀ kv ∈ defaults, TOCTREE_OPTIONS.contains kv.1 = true := by
  unfold parse_subtrees at h
  split at h
  · cases h
  · split at h
    · cases h
    · split at h
      · cases h
      · split at h
        · cases h
        · split at h
          · cases h
          · rename_i hinit
            split at h
            · cases h
            · exact defaults_recognized_of_toctree_ok hinit

theorem document_init_ok_subtrees {dv tv : Value} {st : List TocTree} {d : Document}
    (h : document_init dv tv st = .ok d) : d.subtrees = st := by
  cases dv <;> simp [document_init] at h <;> cases tv <;> simp at h <;> simp [← h]

/-- A successfully parsed doc item with at least one grouping forces every
`defaults` key to be recognized. -/
theorem parse_doc_item_defaults_recognized {data defaults : List (String × Value)}
    {path subtreesKey itemsKey fileKey : String} {docItem : Document}
    {cs : List Value}
    (h : parse_doc_item data defaults path subtreesKey itemsKey fileKey
      = .ok (docItem, cs))
    (hsub : docItem.subtrees ≠ []) :
    ∀ kv ∈ defaults, TOCTREE_OPTIONS.contains kv.1 = true := by
  unfold parse_doc_item at h
  split at h
  · cases h
  · split at h
    · cases h
    · rename_i subtreesData hsd
      split at h
      · cases h
      · rename_i toctrees hst
        split at h
        · cases h
        · rename_i docItem' hinit
          cases h
          have hts := document_init_ok_subtrees hinit
          match subtreesData with
          | [] =>
            exfalso
            apply hsub
            rw [hts]
            cases hst
            rfl
          | tocData :: rest => exact parse_subtrees_cons_defaults_recognized hst

theorem mem_setitemV_docs {sm : SiteMap} {dn : Value} {item : Document}
    {k : String} {d : Document}
    (h : (k, d) ∈ (sm.setitemV dn item).docs) :
    (k, d) ∈ sm.docs ∨ d = item := by
  match dn with
  | .vstr s =>
    have main : ∀ (l : List (String × Document)),
        (k, d) ∈ SiteMap.setitem.go s item l → (k, d) ∈ l ∨ d = item := by
      intro l
      induction l with
      | nil =>
        intro hm
        simp only [SiteMap.setitem.go] at hm
        rcases List.mem_cons.mp hm with heq | hc
        · cases heq; exact Or.inr rfl
        · cases hc
      | cons hd tl ih =>
        intro hm
        obtain ⟨k₁, d₁⟩ := hd
        simp only [SiteMap.setitem.go] at hm
        split at hm
        · rcases List.mem_cons.mp hm with heq | hc
          · cases heq; exact Or.inr rfl
          · exact Or.inl (List.mem_cons_of_mem _ hc)
        · rcases List.mem_cons.mp hm with heq | hc
          · cases heq; exact Or.inl (List.mem_cons_self _ _)
          · rcases ih hc with h' | h'
            · exact Or.inl (List.mem_cons_of_mem _ h')
            · exact Or.inr h'
    exact main sm.docs h
  | .vnone => exact Or.inl h
  | .vbool b => exact Or.inl h
  | .vint n => exact Or.inl h
  | .vlist l => exact Or.inl h
  | .vmap l => exact Or.inl h

/-- Every document registered by the walk either was already registered or
was produced by a `parse_doc_item` with the walk's `defaults`; in the latter
case a non-empty subtree list forces the `defaults` keys to be recognized. -/
theorem parse_docs_list_defaults_recognized :
    ∀ (docsList : List Value) (siteMap : SiteMap)
      (defaults : List (String × Value)) (path : String) (siteMap' : SiteMap),
      parse_docs_list docsList siteMap defaults path = .ok siteMap' →
      ∀ p ∈ siteMap'.docs, p ∈ siteMap.docs ∨
        (p.2.subtrees ≠ [] → ∀ kv ∈ defaults, TOCTREE_OPTIONS.contains kv.1 = true) := by
  intro docsList siteMap defaults path
  induction docsList, siteMap, defaults, path using parse_docs_list.induct with
  | case1 siteMap defaults path =>
    intro sm' h p hp
    rw [parse_docs_list] at h
    cases h
    exact Or.inl hp
  | case2 siteMap defaults path itemData rest docname hcont =>
    intro sm' h p hp
    rw [parse_docs_list] at h
    unfold docname at hcont
    rw [if_pos hcont] at h
    cases h
  | case3 siteMap defaults path itemData rest docname hcont childPath e hpi =>
    intro sm' h p hp
    rw [parse_docs_list] at h
    unfold docname at hcont
    unfold childPath docname at hpi
    rw [if_neg hcont] at h
    dsimp only at h
    rw [hpi] at h
    dsimp only at h
    cases h
  | case4 siteMap defaults path itemData rest docname hcont childPath childItem
      childDocsList hpi e hrec ihChild =>
    intro sm' h p hp
    rw [parse_docs_list] at h
    unfold docname at hcont
    unfold childPath docname at hpi hrec
    rw [if_neg hcont] at h
    dsimp only at h
    rw [hpi] at h
    dsimp only at h
    rw [hrec] at h
    dsimp only at h
    cases h
  | case5 siteMap defaults path itemData rest docname hcont childPath childItem
      childDocsList hpi smMid hrec ihChild ihRest =>
    intro sm' h p hp
    rw [parse_docs_list] at h
    unfold docname at hcont
    unfold childPath docname at hpi hrec
    rw [if_neg hcont] at h
    dsimp only at h
    rw [hpi] at h
    dsimp only at h
    rw [hrec] at h
    dsimp only at h
    rcases ihRest sm' h p hp with hmid | hP
    · rcases ihChild smMid hrec p hmid with hset | hP
      · obtain ⟨pk, pd⟩ := p
        rcases mem_setitemV_docs hset with hin | hitem
        · exact Or.inl hin
        · refine Or.inr (fun hsub kv hkv => ?_)
          refine parse_doc_item_defaults_recognized hpi ?_ kv hkv
          rw [← hitem]
          exact hsub
      · exact Or.inr hP
    · exact Or.inr hP

/-- C9 (stated in contrapositive form): if parsing succeeds and the resulting
SiteMap holds any document with at least one item-grouping, then every key of
the top-level `defaults` mapping is a recognized option name.  Equivalently,
a `defaults` key outside `{caption, hidden, maxdepth, numbered, reversed,
titlesonly}` makes parsing fail (with `MalformedError`, the parser's only
error kind) on every input with at least one grouping: each such key is
passed into every grouping's construction and rejected there, unlike
unrecognized keys on the grouping itself, which are ignored. -/
theorem C9_unrecognized_defaults_rejected :
    ∀ (data : Value) (siteMap : SiteMap),
      parse_toc_data data = .ok siteMap →
      (∃ p ∈ siteMap.docs, p.2.subtrees ≠ []) →
      ∀ kv ∈ pyDictPairs (pyGet data "defaults"),
        TOCTREE_OPTIONS.contains kv.1 = true := by
  intro data siteMap h hex
  unfold parse_toc_data at h
  split at h
  · cases h
  · dsimp only at h
    cases hpi : parse_doc_item (pyDictPairs data) (pyDictPairs (pyGet data "defaults"))
        "/" DEFAULT_SUBTREES_KEY DEFAULT_ITEMS_KEY "root" with
    | error e => rw [hpi] at h; cases h
    | ok pr =>
      obtain ⟨docItem, docsList⟩ := pr
      rw [hpi] at h
      dsimp only at h
      obtain ⟨p, hp, hsub⟩ := hex
      rcases parse_docs_list_defaults_recognized _ _ _ _ _ h p hp with hin | hP
      · obtain ⟨pk, pd⟩ := p
        simp only [SiteMap.make, List.mem_cons, List.not_mem_nil, or_false,
          Prod.mk.injEq] at hin
        exact parse_doc_item_defaults_recognized hpi (hin.2 ▸ hsub)
      · exact hP hsub

/-- The input of C9's witness: a toc with `defaults: {hidden: false}` and one
grouping. -/
def w9_input : Value :=
  .vmap [("root", .vstr "r"),
         ("defaults", .vmap [("hidden", .vbool false)]),
         ("sections", .vlist [.vmap [("file", .vstr "a")]])]

def w9_root : Document :=
  { docname := "r", title := none,
    subtrees := [{ items := [.file "a"], caption := none, hidden := false,
                   maxdepth := -1, numbered := .vbool false, reversed := false,
                   titlesonly := true }] }

def w9_leaf : Document := { docname := "a", title := none, subtrees := [] }

def w9_sm : SiteMap :=
  { root := w9_root, docs := [("r", w9_root), ("a", w9_leaf)], meta := .vnone }

/-- C9, witness: the contrapositive applied to the successful parse of
`w9_input`, whose root document has a grouping; instantiated at its one
`defaults` binding (`hidden`), the key is recognized. -/
theorem C9_unrecognized_defaults_rejected_witness :
    TOCTREE_OPTIONS.contains ("hidden", Value.vbool false).1 = true :=
  C9_unrecognized_defaults_rejected w9_input w9_sm
    ((parse_toc_data_eq_exec 50 w9_input rfl).trans rfl)
    ⟨("r", w9_root), List.mem_cons_self _ _, by simp [w9_root]⟩
    ("hidden", Value.vbool false)
    (by simp [w9_input, pyGet, pyDictPairs, dictGet])

/-! ### C10: the visited set is shared across the whole serialization. -/

theorem not_mem_of_contains_false {l : List String} {a : String}
    (h : l.contains a = false) : a ∉ l := by
  simpa using h

/-- Fuel induction: every successful serializer run maps a duplicate-free
visited list to a duplicate-free visited list (each docname is added at most
once over the entire traversal). -/
theorem serialize_visited_nodup :
    ∀ fuel : Nat,
      (∀ (doc : Document) (sm : SiteMap) (skip : Bool) (sk ik fk : String)
         (visited : List String) (m : List (String × Value)) (visited' : List String),
         docitem_to_dict fuel doc sm skip sk ik fk visited = .ok (m, visited') →
         visited.Nodup → visited'.Nodup) ∧
      (∀ (ts : List TocTree) (sm : SiteMap) (skip : Bool) (ik : String)
         (visited : List String) (out : List (List (String × Value)))
         (visited' : List String),
         serialize_subtrees fuel ts sm skip ik visited = .ok (out, visited') →
         visited.Nodup → visited'.Nodup) ∧
      (∀ (items : List Item) (sm : SiteMap) (skip : Bool) (visited : List String)
         (out : List Value) (visited' : List String),
         serialize_items fuel items sm skip visited = .ok (out, visited') →
         visited.Nodup → visited'.Nodup) ∧
      (∀ (item : Item) (sm : SiteMap) (skip : Bool) (visited : List String)
         (out : Value) (visited' : List String),
         serialize_item fuel item sm skip visited = .ok (out, visited') →
         visited.Nodup → visited'.Nodup) := by
  intro fuel
  induction fuel with
  | zero =>
    refine ⟨?_, ?_, ?_, ?_⟩
    · intro doc sm skip sk ik fk visited m visited' h
      simp [docitem_to_dict] at h
    · intro ts sm skip ik visited out visited' h
      simp [serialize_subtrees] at h
    · intro items sm skip visited out visited' h
      simp [serialize_items] at h
    · intro item sm skip visited out visited' h
      simp [serialize_item] at h
  | succ n ih =>
    obtain ⟨ihD, ihT, ihI, ihS⟩ := ih
    refine ⟨?_, ?_, ?_, ?_⟩
    · intro doc sm skip sk ik fk visited m visited' h hnd
      unfold docitem_to_dict at h
      cases hg : visited.contains doc.docname with
      | true => rw [hg] at h; simp at h
      | false =>
        rw [hg] at h
        simp only [Bool.false_eq_true, if_false] at h
        have hnd' : (doc.docname :: visited).Nodup :=
          List.nodup_cons.mpr ⟨not_mem_of_contains_false hg, hnd⟩
        cases hse : doc.subtrees.isEmpty with
        | true =>
          rw [hse] at h
          simp only [if_true] at h
          simp only [Except.ok.injEq, Prod.mk.injEq] at h
          rw [← h.2]
          exact hnd'
        | false =>
          rw [hse] at h
          simp only [Bool.false_eq_true, if_false] at h
          cases hss : serialize_subtrees n doc.subtrees sm skip ik
              (doc.docname :: visited) with
          | error e => rw [hss] at h; simp at h
          | ok pr =>
            obtain ⟨tsd, vis2⟩ := pr
            rw [hss] at h
            dsimp only at h
            have hvis2 := ihT _ _ _ _ _ _ _ hss hnd'
            split at h
            · split at h
              · split at h
                · simp only [Except.ok.injEq, Prod.mk.injEq] at h
                  rw [← h.2]; exact hvis2
                · simp only [Except.ok.injEq, Prod.mk.injEq] at h
                  rw [← h.2]; exact hvis2
              · simp only [Except.ok.injEq, Prod.mk.injEq] at h
                rw [← h.2]; exact hvis2
            · simp only [Except.ok.injEq, Prod.mk.injEq] at h
              rw [← h.2]; exact hvis2
    · intro ts sm skip ik visited out visited' h hnd
      unfold serialize_subtrees at h
      match ts with
      | [] =>
        simp only [Except.ok.injEq, Prod.mk.injEq] at h
        rw [← h.2]; exact hnd
      | t :: rest =>
        dsimp only at h
        cases hsi : serialize_items n t.items sm skip visited with
        | error e => rw [hsi] at h; simp at h
        | ok pri =>
          obtain ⟨itemVals, vis1⟩ := pri
          rw [hsi] at h
          dsimp only at h
          have hvis1 := ihI _ _ _ _ _ _ hsi hnd
          cases hst : serialize_subtrees n rest sm skip ik vis1 with
          | error e => rw [hst] at h; simp at h
          | ok prr =>
            obtain ⟨restData, vis2⟩ := prr
            rw [hst] at h
            dsimp only at h
            simp only [Except.ok.injEq, Prod.mk.injEq] at h
            rw [← h.2]
            exact ihT _ _ _ _ _ _ _ hst hvis1
    · intro items sm skip visited out visited' h hnd
      unfold serialize_items at h
      match items with
      | [] =>
        simp only [Except.ok.injEq, Prod.mk.injEq] at h
        rw [← h.2]; exact hnd
      | i :: rest =>
        dsimp only at h
        cases hsi : serialize_item n i sm skip visited with
        | error e => rw [hsi] at h; simp at h
        | ok pri =>
          obtain ⟨v, vis1⟩ := pri
          rw [hsi] at h
          dsimp only at h
          have hvis1 := ihS _ _ _ _ _ _ hsi hnd
          cases hsr : serialize_items n rest sm skip vis1 with
          | error e => rw [hsr] at h; simp at h
          | ok prr =>
            obtain ⟨vs, vis2⟩ := prr
            rw [hsr] at h
            dsimp only at h
            simp only [Except.ok.injEq, Prod.mk.injEq] at h
            rw [← h.2]
            exact ihI _ _ _ _ _ _ hsr hvis1
    · intro item sm skip visited out visited' h hnd
      unfold serialize_item at h
      match item with
      | .file s =>
        dsimp only at h
        cases hf : sm.find s with
        | none =>
          rw [hf] at h
          simp only [Except.ok.injEq, Prod.mk.injEq] at h
          rw [← h.2]; exact hnd
        | some childDoc =>
          rw [hf] at h
          dsimp only at h
          cases hd : docitem_to_dict n childDoc sm skip
              DEFAULT_SUBTREES_KEY DEFAULT_ITEMS_KEY FILE_KEY visited with
          | error e => rw [hd] at h; simp at h
          | ok prd =>
            obtain ⟨d, vis1⟩ := prd
            rw [hd] at h
            dsimp only at h
            simp only [Except.ok.injEq, Prod.mk.injEq] at h
            rw [← h.2]
            exact ihD _ _ _ _ _ _ _ _ _ hd hnd
      | .glob s =>
        simp only [Except.ok.injEq, Prod.mk.injEq] at h
        rw [← h.2]; exact hnd
      | .url u t =>
        dsimp only at h
        match t with
        | .vnone =>
          simp only [Except.ok.injEq, Prod.mk.injEq] at h
          rw [← h.2]; exact hnd
        | .vbool b =>
          simp only [Except.ok.injEq, Prod.mk.injEq] at h
          rw [← h.2]; exact hnd
        | .vstr s' =>
          simp only [Except.ok.injEq, Prod.mk.injEq] at h
          rw [← h.2]; exact hnd
        | .vint n' =>
          simp only [Except.ok.injEq, Prod.mk.injEq] at h
          rw [← h.2]; exact hnd
        | .vlist l =>
          simp only [Except.ok.injEq, Prod.mk.injEq] at h
          rw [← h.2]; exact hnd
        | .vmap l =>
          simp only [Except.ok.injEq, Prod.mk.injEq] at h
          rw [← h.2]; exact hnd

/-- C10's acyclic SiteMap: the root lists `a` and `b`; each of `a` and `b`
lists the same document `c`. -/
def c10_doc_c : Document := { docname := "c", title := none, subtrees := [] }

def c10_tree_c : TocTree :=
  { items := [.file "c"], caption := none, hidden := true, maxdepth := -1,
    numbered := .vbool false, reversed := false, titlesonly := true }

def c10_doc_a : Document := { docname := "a", title := none, subtrees := [c10_tree_c] }

def c10_doc_b : Document := { docname := "b", title := none, subtrees := [c10_tree_c] }

def c10_root : Document :=
  { docname := "r", title := none,
    subtrees := [{ items := [.file "a", .file "b"], caption := none, hidden := true,
                   maxdepth := -1, numbered := .vbool false, reversed := false,
                   titlesonly := true }] }

def c10_sm : SiteMap :=
  { root := c10_root,
    docs := [("r", c10_root), ("a", c10_doc_a), ("b", c10_doc_b), ("c", c10_doc_c)],
    meta := .vnone }

/-- C10: the serializer's visited-docname set is shared across the entire
traversal, not kept per ancestor chain.  First conjunct: on the acyclic
SiteMap `c10_sm`, in which the two distinct resolving `FileItem`s of `a` and
`b` reference the same docname `c`, serialization fails with the
`RecursionError` naming `c` — the second inlining of `c` happens in a sibling
branch, which a per-ancestor-chain guard would have allowed.  Second
conjunct: any successful serialization keeps the visited list duplicate-free,
i.e. it succeeds only if every document is inlined at most once. -/
theorem C10_shared_visited_guard :
    create_toc_dict 100 c10_sm true =
      .error (.recursion "'c' in site-map multiple times") ∧
    (∀ (fuel : Nat) (doc : Document) (sm : SiteMap) (skip : Bool)
       (sk ik fk : String) (visited : List String) (m : List (String × Value))
       (visited' : List String),
       docitem_to_dict fuel doc sm skip sk ik fk visited = .ok (m, visited') →
       visited.Nodup → visited'.Nodup) :=
  ⟨rfl, fun fuel => (serialize_visited_nodup fuel).1⟩

/-- C10, witness: the duplicate-free-visited property applied to a concrete
successful serialization of a leaf document. -/
theorem C10_shared_visited_guard_witness :
    docitem_to_dict 10 c10_doc_c c10_sm true
      DEFAULT_SUBTREES_KEY DEFAULT_ITEMS_KEY FILE_KEY [] =
      .ok ([("file", .vstr "c")], ["c"]) ∧ List.Nodup ["c"] :=
  ⟨rfl, C10_shared_visited_guard.2 10 c10_doc_c c10_sm true
    DEFAULT_SUBTREES_KEY DEFAULT_ITEMS_KEY FILE_KEY [] [("file", .vstr "c")] ["c"]
    rfl List.nodup_nil⟩

/-! ## C1: round-trip stability

The comparison of the claim — a site-map "equal to `parse(x)` when compared
by docnames, titles, items, and grouping options" — is equality of docnames
and titles, equality of the item lists, and Python equality (`==`, i.e.
`pyEq`, which identifies `0` with `False` and `1` with `True`) of each
recognized option value of corresponding groupings. -/

/-- Two groupings agree on their items and, option by option, on their
option values under Python `==`. -/
def TocTreeEquiv (t t' : TocTree) : Prop :=
  t.items = t'.items ∧
  ∀ k ∈ TOCTREE_OPTIONS,
    pyEq (toctree_option_value t k) (toctree_option_value t' k) = true

/-- Two documents agree by docname, title and groupings. -/
def DocEquiv (d d' : Document) : Prop :=
  d.docname = d'.docname ∧ d.title = d'.title ∧
  List.Forall₂ TocTreeEquiv d.subtrees d'.subtrees

/-- Two site-maps agree on their roots and, entry by entry, on the names and
documents they register. -/
def SiteMapEquiv (sm sm' : SiteMap) : Prop :=
  DocEquiv sm.root sm'.root ∧
  List.Forall₂ (fun (p q : String × Document) => p.1 = q.1 ∧ DocEquiv p.2 q.2)
    sm.docs sm'.docs

mutual

theorem Value.beq_refl : ∀ v : Value, Value.beq v v = true
  | .vnone => rfl
  | .vbool b => by simp [Value.beq]
  | .vstr s => by simp [Value.beq]
  | .vint n => by simp [Value.beq]
  | .vlist xs => by rw [Value.beq]; exact Value.beqList_refl xs
  | .vmap kvs => by rw [Value.beq]; exact Value.beqPairs_refl kvs

theorem Value.beqList_refl : ∀ xs : List Value, Value.beqList xs xs = true
  | [] => rfl
  | x :: xs => by
      rw [Value.beqList, Value.beq_refl x, Value.beqList_refl xs]; rfl

theorem Value.beqPairs_refl : ∀ kvs : List (String × Value), Value.beqPairs kvs kvs = true
  | [] => rfl
  | (k, v) :: kvs => by
      rw [Value.beqPairs, Value.beq_refl v, Value.beqPairs_refl kvs]; simp

end

theorem pyEq_refl (v : Value) : pyEq v v = true := by
  cases v <;> simp [pyEq, Value.beq_refl]

/-- A grouping's stored `numbered` value as produced by a successful
construction: a boolean or an integer. -/
def NumberedWf (t : TocTree) : Prop :=
  (∃ b, t.numbered = Value.vbool b) ∨ (∃ n, t.numbered = Value.vint n)

/-- The index of the span judgment: a document, a grouping list or an item
list. -/
inductive SKind where
  | doc : Document → SKind
  | trees : List TocTree → SKind
  | items : List Item → SKind

/-- `Spans sm k delta`: the serializer's depth-first traversal of `k`
through `sm` inlines exactly the documents named by `delta`, in preorder.
The judgment records the site-map facts a successful parse guarantees:
every `FileItem` resolves in `sm` to a document whose docname is the item's
string, groupings have non-empty item lists, and `numbered` values are
booleans or integers. -/
inductive Spans (sm : SiteMap) : SKind → List String → Prop where
  | doc : ∀ {d : Document} {delta : List String},
      Spans sm (.trees d.subtrees) delta → Spans sm (.doc d) (d.docname :: delta)
  | treesNil : Spans sm (.trees []) []
  | treesCons : ∀ {t : TocTree} {ts : List TocTree} {di dr : List String},
      t.items ≠ [] → NumberedWf t →
      Spans sm (.items t.items) di → Spans sm (.trees ts) dr →
      Spans sm (.trees (t :: ts)) (di ++ dr)
  | itemsNil : Spans sm (.items []) []
  | glob : ∀ {s : String} {its : List Item} {delta : List String},
      Spans sm (.items its) delta → Spans sm (.items (.glob s :: its)) delta
  | url : ∀ {u tv : Value} {its : List Item} {delta : List String},
      Spans sm (.items its) delta → Spans sm (.items (.url u tv :: its)) delta
  | file : ∀ {s : String} {d : Document} {its : List Item} {dd dr : List String},
      sm.find s = some d → d.docname = s →
      Spans sm (.doc d) dd → Spans sm (.items its) dr →
      Spans sm (.items (.file s :: its)) (dd ++ dr)

/-- Alignment of a parsed item list with the file-backed entries the parser
collected from the same grouping: file items correspond one-to-one and in
order with the entries carrying a `file` key, and nothing else does. -/
inductive ItemsAlign : List Item → List Value → Prop where
  | nil : ItemsAlign [] []
  | glob : ∀ {s : String} {its : List Item} {cs : List Value},
      ItemsAlign its cs → ItemsAlign (.glob s :: its) cs
  | url : ∀ {u tv : Value} {its : List Item} {cs : List Value},
      ItemsAlign its cs → ItemsAlign (.url u tv :: its) cs
  | file : ∀ {s : String} {its : List Item} {v : Value} {cs : List Value},
      pyInKey v FILE_KEY = true → pyStr (pyGet v FILE_KEY) = s →
      ItemsAlign its cs → ItemsAlign (.file s :: its) (v :: cs)

/-- The registrations the recursive walk performs for a list of file-backed
entries: each entry contributes a block headed by its document followed by
the registrations of the entry's own subtree, and the block's names are
spanned by that document. -/
inductive WalkOut (sm : SiteMap) : List Value → List (String × Document) → Prop where
  | nil : WalkOut sm [] []
  | cons : ∀ {v : Value} {cs : List Value} {d : Document}
      {bl regs : List (String × Document)},
      pyGet v FILE_KEY = .vstr d.docname →
      Spans sm (.doc d) (d.docname :: bl.map Prod.fst) →
      WalkOut sm cs regs →
      WalkOut sm (v :: cs) (((d.docname, d) :: bl) ++ regs)

/-- The reparse property of a serialized child-entry list: walking it from
any site-map fresh for `names` appends one document per name, each
`DocEquiv`-equal to the document `sm` knows under that name. -/
def RWalk (sm : SiteMap) (cs : List Value) (names : List String) : Prop :=
  ∀ (sm₀ : SiteMap) (path₀ : String),
    (∀ n ∈ names, sm₀.contains n = false) →
    ∃ regs : List (String × Document),
      parse_docs_list cs sm₀ [] path₀ =
        .ok { root := sm₀.root, docs := sm₀.docs ++ regs, meta := sm₀.meta } ∧
      regs.map Prod.fst = names ∧
      List.Forall₂ (fun n (pr : String × Document) =>
        ∃ d₀, sm.find n = some d₀ ∧ DocEquiv d₀ pr.2) names regs

/-! ### List and site-map utilities for the round trip. -/

theorem lookup_append_left {l l' : List (String × Document)} {k : String}
    {d : Document} (h : l.lookup k = some d) : (l ++ l').lookup k = some d := by
  induction l with
  | nil => simp [List.lookup] at h
  | cons hd tl ih =>
    obtain ⟨k₁, d₁⟩ := hd
    simp only [List.lookup, List.cons_append] at h ⊢
    split at h
    · simpa using h
    · simp_all

theorem lookup_append_right {l l' : List (String × Document)} {k : String}
    (h : l.lookup k = none) : (l ++ l').lookup k = l'.lookup k := by
  induction l with
  | nil => simp
  | cons hd tl ih =>
    obtain ⟨k₁, d₁⟩ := hd
    simp only [List.lookup, List.cons_append] at h ⊢
    split at h
    · simp at h
    · simp_all

theorem lookup_eq_some_of_mem_nodup {l : List (String × Document)} {k : String}
    {d : Document} (hm : (k, d) ∈ l) (hnd : (l.map Prod.fst).Nodup) :
    l.lookup k = some d := by
  induction l with
  | nil => simp at hm
  | cons hd tl ih =>
    obtain ⟨k₁, d₁⟩ := hd
    simp only [List.map_cons, List.nodup_cons] at hnd
    rcases List.mem_cons.mp hm with heq | hm'
    · cases heq; simp [List.lookup]
    · have hk : k ≠ k₁ := by
        rintro rfl
        exact hnd.1 (List.mem_map_of_mem Prod.fst hm')
      have hbeq : (k == k₁) = false := by simp [hk]
      simp only [List.lookup, hbeq]
      exact ih hm' hnd.2

theorem setitem_fresh {sm : SiteMap} {k : String} {d : Document}
    (h : sm.contains k = false) :
    sm.setitem k d = { sm with docs := sm.docs ++ [(k, d)] } := by
  unfold SiteMap.setitem
  have : ∀ l : List (String × Document), l.lookup k = none →
      SiteMap.setitem.go k d l = l ++ [(k, d)] := by
    intro l
    induction l with
    | nil => intro _; rfl
    | cons hd tl ih =>
      obtain ⟨k₁, d₁⟩ := hd
      intro hl
      simp only [List.lookup] at hl
      split at hl
      · simp at hl
      · rename_i hne
        have : k₁ ≠ k := by
          intro hc; subst hc; simp at hne
        simp [SiteMap.setitem.go, this, ih hl]
  have hn : sm.docs.lookup k = none := by
    cases hl : sm.docs.lookup k with
    | none => rfl
    | some d₁ =>
      exfalso
      unfold SiteMap.contains at h
      rw [hl] at h
      simp at h
  rw [this sm.docs hn]

theorem parse_docs_list_nil (sm : SiteMap) (df : List (String × Value)) (p : String) :
    parse_docs_list [] sm df p = .ok sm := by
  rw [parse_docs_list]

theorem parse_docs_list_cons (docData : Value) (rest : List Value) (sm : SiteMap)
    (df : List (String × Value)) (p : String) :
    parse_docs_list (docData :: rest) sm df p =
      (if sm.containsV (pyGet docData FILE_KEY) then
        .error ⟨"document file used multiple times: " ++ pyStr (pyGet docData FILE_KEY)⟩
      else
        match parse_doc_item (pyDictPairs docData) df
            (p ++ pyStr (pyGet docData FILE_KEY) ++ "/")
            DEFAULT_SUBTREES_KEY DEFAULT_ITEMS_KEY FILE_KEY with
        | .error e => .error e
        | .ok (childItem, childDocsList) =>
          match parse_docs_list childDocsList
              (sm.setitemV (pyGet docData FILE_KEY) childItem) df
              (p ++ pyStr (pyGet docData FILE_KEY) ++ "/") with
          | .error e => .error e
          | .ok sm' => parse_docs_list rest sm' df p) := by
  rw [parse_docs_list]
  cases hc : sm.containsV (pyGet docData FILE_KEY) with
  | true => simp [hc]
  | false =>
    simp only [hc, Bool.false_eq_true, if_false]
    cases hpi : parse_doc_item (pyDictPairs docData) df
        (p ++ pyStr (pyGet docData FILE_KEY) ++ "/")
        DEFAULT_SUBTREES_KEY DEFAULT_ITEMS_KEY FILE_KEY with
    | error e => rfl
    | ok pr =>
      obtain ⟨childItem, childDocsList⟩ := pr
      rfl

theorem parse_docs_list_append (a b : List Value) (sm : SiteMap)
    (df : List (String × Value)) (p : String) :
    parse_docs_list (a ++ b) sm df p =
      (match parse_docs_list a sm df p with
       | .error e => .error e
       | .ok sm' => parse_docs_list b sm' df p) := by
  induction a generalizing sm with
  | nil => simp [parse_docs_list_nil]
  | cons docData rest ih =>
    rw [List.cons_append, parse_docs_list_cons, parse_docs_list_cons]
    cases hc : sm.containsV (pyGet docData FILE_KEY) with
    | true => simp
    | false =>
      simp only [Bool.false_eq_true, if_false]
      cases hpi : parse_doc_item (pyDictPairs docData) df
          (p ++ pyStr (pyGet docData FILE_KEY) ++ "/")
          DEFAULT_SUBTREES_KEY DEFAULT_ITEMS_KEY FILE_KEY with
      | error e => rfl
      | ok pr =>
        obtain ⟨childItem, childDocsList⟩ := pr
        dsimp only
        cases hch : parse_docs_list childDocsList
            (sm.setitemV (pyGet docData FILE_KEY) childItem) df
            (p ++ pyStr (pyGet docData FILE_KEY) ++ "/") with
        | error e => rfl
        | ok sm₁ => exact ih sm₁

/-- Spans are preserved when the site-map's registry is extended on the
right (lookups that succeed keep succeeding). -/
theorem spans_mono {sm sm' : SiteMap} (ext : List (String × Document))
    (hdocs : sm'.docs = sm.docs ++ ext) :
    ∀ {k : SKind} {delta : List String}, Spans sm k delta → Spans sm' k delta := by
  intro k delta h
  induction h with
  | doc _ ih => exact .doc ih
  | treesNil => exact .treesNil
  | treesCons hne hnw _ _ ih₁ ih₂ => exact .treesCons hne hnw ih₁ ih₂
  | itemsNil => exact .itemsNil
  | glob _ ih => exact .glob ih
  | url _ ih => exact .url ih
  | file hfind hdn _ _ ih₁ ih₂ =>
    refine .file ?_ hdn ih₁ ih₂
    unfold SiteMap.find at hfind ⊢
    rw [hdocs]
    exact lookup_append_left hfind

theorem walkout_mono {sm sm' : SiteMap} (ext : List (String × Document))
    (hdocs : sm'.docs = sm.docs ++ ext) :
    ∀ {cs : List Value} {regs : List (String × Document)},
      WalkOut sm cs regs → WalkOut sm' cs regs := by
  intro cs regs h
  induction h with
  | nil => exact .nil
  | cons hget hsp _ ih => exact .cons hget (spans_mono ext hdocs hsp) ih

theorem walkout_append_inv {sm : SiteMap} :
    ∀ {cs₁ cs₂ : List Value} {regs : List (String × Document)},
      WalkOut sm (cs₁ ++ cs₂) regs →
      ∃ r₁ r₂, regs = r₁ ++ r₂ ∧ WalkOut sm cs₁ r₁ ∧ WalkOut sm cs₂ r₂ := by
  intro cs₁
  induction cs₁ with
  | nil => intro cs₂ regs h; exact ⟨[], regs, rfl, .nil, h⟩
  | cons v cs ih =>
    intro cs₂ regs h
    simp only [List.cons_append] at h
    cases h with
    | cons hget hsp htail =>
      rename_i d bl regs'
      obtain ⟨r₁, r₂, rfl, h₁, h₂⟩ := ih htail
      exact ⟨((d.docname, d) :: bl) ++ r₁, r₂, by simp, .cons hget hsp h₁, h₂⟩

/-- Composing an item alignment with the registrations of the corresponding
walk yields the span of the item list. -/
theorem spans_items_of_align {sm : SiteMap} :
    ∀ {its : List Item} {cs : List Value} {regs : List (String × Document)},
      ItemsAlign its cs → WalkOut sm cs regs →
      (∀ p ∈ regs, p ∈ sm.docs) → (sm.docs.map Prod.fst).Nodup →
      Spans sm (.items its) (regs.map Prod.fst) := by
  intro its cs regs hal
  induction hal generalizing regs with
  | nil =>
    intro hw _ _
    cases hw
    exact .itemsNil
  | glob _ ih =>
    intro hw hsub hnd
    exact .glob (ih hw hsub hnd)
  | url _ ih =>
    intro hw hsub hnd
    exact .url (ih hw hsub hnd)
  | file hin hstr _ ih =>
    intro hw hsub hnd
    cases hw with
    | cons hget hsp htail =>
      rename_i d bl regs'
      have hs : d.docname = ‹String› := by
        rw [hget] at hstr
        exact hstr
      have hmem : (d.docname, d) ∈ sm.docs := by
        apply hsub
        simp
      have hfind : sm.find ‹String› = some d := by
        rw [← hs]
        exact lookup_eq_some_of_mem_nodup hmem hnd
      have htl := ih htail (fun p hp => hsub p (by simp [hp])) hnd
      have := Spans.file hfind hs hsp htl
      simpa using this

/-- Composing the per-grouping alignments with the walk of the concatenated
file-backed entries yields the span of the grouping list. -/
theorem spans_trees_of_align {sm : SiteMap} :
    ∀ {ts : List TocTree} {blocks : List (List Value)}
      {regs : List (String × Document)},
      List.Forall₂ (fun t bl =>
        ItemsAlign t.items bl ∧ t.items ≠ [] ∧ NumberedWf t) ts blocks →
      WalkOut sm blocks.flatten regs →
      (∀ p ∈ regs, p ∈ sm.docs) → (sm.docs.map Prod.fst).Nodup →
      Spans sm (.trees ts) (regs.map Prod.fst) := by
  intro ts blocks regs hf
  induction hf generalizing regs with
  | nil =>
    intro hw _ _
    cases hw
    exact .treesNil
  | cons hpair htail ih =>
    intro hw hsub hnd
    rw [List.flatten_cons] at hw
    obtain ⟨r₁, r₂, rfl, h₁, h₂⟩ := walkout_append_inv hw
    have hs₁ := spans_items_of_align hpair.1 h₁
      (fun p hp => hsub p (by simp [hp])) hnd
    have hs₂ := ih h₂ (fun p hp => hsub p (by simp [hp])) hnd
    have := Spans.treesCons hpair.2.1 hpair.2.2 hs₁ hs₂
    simpa using this

/-! ### Inversion of the item, grouping and document parsers. -/

theorem parse_item_data_cases {v : Value} {p : String} {ti ii : Nat}
    {sk ik : String} {item : Item}
    (h : parse_item_data v p ti ii sk ik = .ok item) :
    (pyInKey v FILE_KEY = true ∧ item = .file (pyStr (pyGet v FILE_KEY))) ∨
    (pyInKey v FILE_KEY = false ∧
      (item = .glob (pyStr (pyGet v GLOB_KEY)) ∨
       item = .url (pyGet v URL_KEY) (pyGet v "title"))) := by
  unfold parse_item_data at h
  dsimp only at h
  split at h
  · cases h
  · cases hf : pyInKey v FILE_KEY <;> cases hg : pyInKey v GLOB_KEY <;>
      cases hu : pyInKey v URL_KEY <;> rw [hf, hg, hu] at h
    · -- no link key
      simp at h
    · -- url only
      simp only [Bool.false_and, Bool.true_and, Bool.false_eq_true, if_false] at h
      norm_num at h
      by_cases hsk : pyInKey v sk = true
      · simp [hsk] at h
      · by_cases hik : pyInKey v ik = true
        · simp [hsk, hik] at h
        · simp only [hsk, hik, if_false, if_neg] at h
          refine .inr ⟨rfl, .inr ?_⟩
          cases h
          rfl
    · -- glob only
      simp only [Bool.false_and, Bool.true_and, Bool.false_eq_true, if_false] at h
      norm_num at h
      by_cases hsk : pyInKey v sk = true
      · simp [hsk] at h
      · by_cases hik : pyInKey v ik = true
        · simp [hsk, hik] at h
        · simp only [hsk, hik, if_false, if_neg] at h
          refine .inr ⟨rfl, .inl ?_⟩
          cases h
          rfl
    · -- glob and url
      simp at h
    · -- file only
      norm_num at h
      refine .inl ⟨rfl, ?_⟩
      rw [h]
    · -- file and url
      simp at h
    · -- file and glob
      simp at h
    · -- all three
      simp at h

theorem parse_items_list_length :
    ∀ (itemsData : List Value) (p : String) (ti ii : Nat) (sk ik : String)
      (items : List Item),
      parse_items_list itemsData p ti ii sk ik = .ok items →
      items.length = itemsData.length := by
  intro itemsData
  induction itemsData with
  | nil =>
    intro p ti ii sk ik items h
    cases h
    rfl
  | cons v rest ih =>
    intro p ti ii sk ik items h
    unfold parse_items_list at h
    split at h
    · cases h
    · split at h
      · cases h
      · cases h
        simp only [List.length_cons]
        rw [ih _ _ _ _ _ _ (by assumption)]

theorem parse_items_list_align :
    ∀ (itemsData : List Value) (p : String) (ti ii : Nat) (sk ik : String)
      (items : List Item),
      parse_items_list itemsData p ti ii sk ik = .ok items →
      ItemsAlign items (itemsData.filter fun v => pyInKey v FILE_KEY) := by
  intro itemsData
  induction itemsData with
  | nil =>
    intro p ti ii sk ik items h
    cases h
    exact .nil
  | cons v rest ih =>
    intro p ti ii sk ik items h
    unfold parse_items_list at h
    cases hpd : parse_item_data v p ti ii sk ik with
    | error e => rw [hpd] at h; cases h
    | ok item =>
      rw [hpd] at h
      dsimp only at h
      cases hrest : parse_items_list rest p ti (ii + 1) sk ik with
      | error e => rw [hrest] at h; cases h
      | ok items' =>
        rw [hrest] at h
        cases h
        have htl := ih _ _ _ _ _ _ hrest
        rcases parse_item_data_cases hpd with ⟨hf, rfl⟩ | ⟨hf, hgl⟩
        · rw [List.filter_cons_of_pos (by simpa using hf)]
          exact .file hf rfl htl
        · rw [List.filter_cons_of_neg (by simpa using hf)]
          rcases hgl with rfl | rfl
          · exact .glob htl
          · exact .url htl

theorem validate_numbered_wf {v w : Value} (h : validate_numbered v = .ok w) :
    (∃ b, w = Value.vbool b) ∨ (∃ n, w = Value.vint n) := by
  cases v <;> simp [validate_numbered] at h
  · exact .inl ⟨_, h.symm⟩
  · exact .inr ⟨_, h.symm⟩

theorem parse_subtrees_align :
    ∀ (sd : List Value) (df : List (String × Value)) (p sk ik : String) (i : Nat)
      (ts : List TocTree),
      parse_subtrees sd df p sk ik i = .ok ts →
      List.Forall₂ (fun t td =>
        ItemsAlign t.items (file_entries_of td ik) ∧
        t.items ≠ [] ∧ NumberedWf t) ts sd := by
  intro sd
  induction sd with
  | nil =>
    intro df p sk ik i ts h
    cases h
    exact .nil
  | cons td rest ih =>
    intro df p sk ik i ts h
    unfold parse_subtrees at h
    split at h
    · cases h
    · cases hse : pySeqElems (pyGet td ik) with
      | none => rw [hse] at h; cases h
      | some itemsData =>
        rw [hse] at h
        dsimp only at h
        cases hemp : itemsData.isEmpty with
        | true => rw [hemp] at h; cases h
        | false =>
          rw [hemp] at h
          simp only [Bool.false_eq_true, if_false] at h
          cases hil : parse_items_list itemsData p i 0 sk ik with
          | error e => rw [hil] at h; cases h
          | ok items =>
            rw [hil] at h
            dsimp only at h
            cases hti : toctree_init items (toctree_keywords td df) with
            | error e => rw [hti] at h; cases h
            | ok tocItem =>
              rw [hti] at h
              dsimp only at h
              cases hrest : parse_subtrees rest df p sk ik (i + 1) with
              | error e => rw [hrest] at h; cases h
              | ok toctrees =>
                rw [hrest] at h
                cases h
                obtain ⟨-, hitems, -, -, -, hnum, -, -⟩ := toctree_init_ok_inv hti
                refine .cons ⟨?_, ?_, ?_⟩ (ih _ _ _ _ _ _ hrest)
                · rw [hitems]
                  unfold file_entries_of
                  rw [hse]
                  exact parse_items_list_align _ _ _ _ _ _ _ hil
                · rw [hitems]
                  intro hc
                  have hlen := parse_items_list_length _ _ _ _ _ _ _ hil
                  rw [hc] at hlen
                  simp only [List.length_nil] at hlen
                  have hnil : itemsData = [] := by
                    cases itemsData with
                    | nil => rfl
                    | cons a b => simp at hlen
                  rw [hnil] at hemp
                  simp at hemp
                · exact validate_numbered_wf hnum

theorem document_init_file_inv {dv tv : Value} {ts : List TocTree} {d : Document}
    (h : document_init dv tv ts = .ok d) :
    dv = .vstr d.docname ∧ d.subtrees = ts := by
  unfold document_init at h
  cases dv with
  | vstr s =>
    cases tv with
    | vnone => cases h; exact ⟨rfl, rfl⟩
    | vstr t => cases h; exact ⟨rfl, rfl⟩
    | vbool b => cases h
    | vint n => cases h
    | vlist xs => cases h
    | vmap kvs => cases h
  | vnone => cases h
  | vbool b => cases h
  | vint n => cases h
  | vlist xs => cases h
  | vmap kvs => cases h

/-- Shape of a successfully parsed doc item: the file value is the docname,
and its file-backed entries split into per-grouping blocks aligned with the
groupings' item lists. -/
theorem parse_doc_item_shape {data df : List (String × Value)}
    {path sk ik fk : String} {doc : Document} {cs : List Value}
    (h : parse_doc_item data df path sk ik fk = .ok (doc, cs)) :
    (dictGet data fk).getD .vnone = .vstr doc.docname ∧
    ∃ blocks : List (List Value), cs = blocks.flatten ∧
      List.Forall₂ (fun t bl =>
        ItemsAlign t.items bl ∧ t.items ≠ [] ∧ NumberedWf t)
        doc.subtrees blocks := by
  unfold parse_doc_item at h
  split at h
  · cases h
  · cases hsd : get_subtrees_data data path sk ik with
    | error e => rw [hsd] at h; cases h
    | ok sd =>
      rw [hsd] at h
      dsimp only at h
      cases hpt : parse_subtrees sd df path sk ik 0 with
      | error e => rw [hpt] at h; cases h
      | ok toctrees =>
        rw [hpt] at h
        dsimp only at h
        cases hdi : document_init ((dictGet data fk).getD .vnone)
            ((dictGet data "title").getD .vnone) toctrees with
        | error e => rw [hdi] at h; cases h
        | ok docItem =>
          rw [hdi] at h
          cases h
          obtain ⟨hdv, hst⟩ := document_init_file_inv hdi
          refine ⟨hdv, sd.map (fun td => file_entries_of td ik), ?_, ?_⟩
          · exact docs_data_of_eq_map sd ik
          · rw [hst]
            rw [List.forall₂_map_right_iff]
            exact parse_subtrees_align _ _ _ _ _ _ _ hpt

theorem not_mem_keys_of_lookup_none {l : List (String × Document)} {k : String}
    (h : l.lookup k = none) : k ∉ l.map Prod.fst := by
  induction l with
  | nil => simp
  | cons hd tl ih =>
    obtain ⟨k₁, d₁⟩ := hd
    simp only [List.lookup] at h
    split at h
    · simp at h
    · rename_i hne
      have hk : k ≠ k₁ := by intro hc; subst hc; simp at hne
      simp only [List.map_cons, List.mem_cons]
      push_neg
      exact ⟨hk, ih h⟩

/-- The recursive walk only appends registrations: on success the site-map's
root and meta are unchanged, its registry grows on the right by one block per
entry (each a document spanned by its own subtree's names), and distinctness
of the registered docnames is preserved. -/
theorem parse_docs_list_out :
    ∀ (docsList : List Value) (siteMap : SiteMap)
      (defaults : List (String × Value)) (path : String) (siteMap' : SiteMap),
      parse_docs_list docsList siteMap defaults path = .ok siteMap' →
      (siteMap.docs.map Prod.fst).Nodup →
      ∃ regs : List (String × Document),
        siteMap'.root = siteMap.root ∧ siteMap'.meta = siteMap.meta ∧
        siteMap'.docs = siteMap.docs ++ regs ∧
        (siteMap'.docs.map Prod.fst).Nodup ∧
        WalkOut siteMap' docsList regs := by
  intro docsList siteMap defaults path
  induction docsList, siteMap, defaults, path using parse_docs_list.induct with
  | case1 siteMap defaults path =>
    intro sm' h hnd
    rw [parse_docs_list] at h
    cases h
    exact ⟨[], rfl, rfl, by simp, hnd, .nil⟩
  | case2 siteMap defaults path itemData rest docname hcont =>
    intro sm' h hnd
    rw [parse_docs_list] at h
    unfold docname at hcont
    rw [if_pos hcont] at h
    cases h
  | case3 siteMap defaults path itemData rest docname hcont childPath e hpi =>
    intro sm' h hnd
    rw [parse_docs_list] at h
    unfold docname at hcont
    unfold childPath docname at hpi
    rw [if_neg hcont] at h
    dsimp only at h
    rw [hpi] at h
    dsimp only at h
    cases h
  | case4 siteMap defaults path itemData rest docname hcont childPath childItem
      childDocsList hpi e hrec ihChild =>
    intro sm' h hnd
    rw [parse_docs_list] at h
    unfold docname at hcont
    unfold childPath docname at hpi hrec
    rw [if_neg hcont] at h
    dsimp only at h
    rw [hpi] at h
    dsimp only at h
    rw [hrec] at h
    dsimp only at h
    cases h
  | case5 siteMap defaults path itemData rest docname hcont childPath childItem
      childDocsList hpi smMid hrec ihChild ihRest =>
    intro sm' h hnd
    rw [parse_docs_list] at h
    unfold docname at hcont
    unfold childPath docname at hpi hrec
    rw [if_neg hcont] at h
    dsimp only at h
    rw [hpi] at h
    dsimp only at h
    rw [hrec] at h
    dsimp only at h
    -- the entry's file value is its document's docname
    obtain ⟨hdv, blocks, hcs, halign⟩ := parse_doc_item_shape hpi
    have hdn : pyGet itemData FILE_KEY = .vstr childItem.docname := hdv
    have hfresh : siteMap.contains childItem.docname = false := by
      rw [Bool.not_eq_true] at hcont
      rw [hdn] at hcont
      exact hcont
    have hset : siteMap.setitemV (pyGet itemData FILE_KEY) childItem =
        { siteMap with docs := siteMap.docs ++ [(childItem.docname, childItem)] } := by
      rw [hdn]
      exact setitem_fresh hfresh
    have hnotin : childItem.docname ∉ siteMap.docs.map Prod.fst := by
      apply not_mem_keys_of_lookup_none
      cases hl : siteMap.docs.lookup childItem.docname with
      | none => rfl
      | some d₁ =>
        exfalso
        unfold SiteMap.contains at hfresh
        rw [hl] at hfresh
        simp at hfresh
    have hndset : (((siteMap.setitemV (pyGet itemData FILE_KEY)
        childItem).docs.map Prod.fst)).Nodup := by
      rw [hset]
      simp only [List.map_append, List.map_cons, List.map_nil]
      rw [List.nodup_append]
      exact ⟨hnd, List.nodup_singleton _, by simpa using hnotin⟩
    obtain ⟨regs₁, hr1, hm1, hd1, hn1, hw1⟩ := ihChild smMid hrec hndset
    obtain ⟨regs₂, hr2, hm2, hd2, hn2, hw2⟩ := ihRest sm' h hn1
    rw [hset] at hr1 hm1 hd1
    dsimp only at hr1 hm1 hd1
    refine ⟨((childItem.docname, childItem) :: regs₁) ++ regs₂, ?_, ?_, ?_, ?_, ?_⟩
    · rw [hr2, hr1]
    · rw [hm2, hm1]
    · rw [hd2, hd1]
      simp
    · exact hn2
    · -- the block structure of the registrations
      have hsub : ∀ p ∈ regs₁, p ∈ smMid.docs := by
        intro p hp
        rw [hd1]
        simp [hp]
      have hspans : Spans smMid (.trees childItem.subtrees) (regs₁.map Prod.fst) := by
        apply spans_trees_of_align halign _ hsub hn1
        rw [← hcs]
        exact hw1
      have hspanDoc : Spans sm' (.doc childItem)
          (childItem.docname :: regs₁.map Prod.fst) :=
        spans_mono regs₂ hd2 (Spans.doc hspans)
      exact WalkOut.cons hdn hspanDoc hw2

/-! ### Lookup characterizations of the serialized option mappings. -/

theorem dictGet_serialize_options_foldl (t : TocTree) (skipDefaults : Bool)
    (opts : List String) (init : List (String × Value)) (k : String) :
    dictGet (opts.foldl
      (fun acc key =>
        if !skipDefaults || !pyEq (toctree_option_value t key) (toctreeFieldDefault key)
        then dictInsert acc key (toctree_option_value t key)
        else acc) init) k =
    (if opts.contains k &&
        (!skipDefaults || !pyEq (toctree_option_value t k) (toctreeFieldDefault k))
     then some (toctree_option_value t k) else dictGet init k) := by
  induction opts generalizing init with
  | nil => simp
  | cons o rest ih =>
    simp only [List.foldl_cons]
    rw [ih]
    by_cases hk : o = k
    · subst hk
      cases hp : (!skipDefaults ||
          !pyEq (toctree_option_value t o) (toctreeFieldDefault o)) <;>
        cases hr : rest.contains o <;>
          simp_all [List.contains_cons, dictGet_insert_self]
    · cases hp : (!skipDefaults ||
          !pyEq (toctree_option_value t o) (toctreeFieldDefault o)) <;>
        simp_all [List.contains_cons, dictGet_insert_ne _ _ (Ne.symm hk),
          show (o == k) = false by simp [hk], Ne.symm hk]

theorem dictGet_serialize_toctree_options (t : TocTree) (skipDefaults : Bool)
    (k : String) :
    dictGet (serialize_toctree_options t skipDefaults) k =
      (if TOCTREE_OPTIONS.contains k &&
          (!skipDefaults || !pyEq (toctree_option_value t k) (toctreeFieldDefault k))
       then some (toctree_option_value t k) else none) := by
  unfold serialize_toctree_options
  rw [dictGet_serialize_options_foldl]
  cases hC : (TOCTREE_OPTIONS.contains k &&
      (!skipDefaults || !pyEq (toctree_option_value t k) (toctreeFieldDefault k))) <;>
    simp [hC, dictGet]

theorem toctree_keywords_keys (tocData : Value) :
    ∀ kv ∈ toctree_keywords tocData [], TOCTREE_OPTIONS.contains kv.1 = true := by
  unfold toctree_keywords
  simp only [List.foldl_nil]
  have main : ∀ (opts : List String) (init : List (String × Value)),
      (∀ kv ∈ init, TOCTREE_OPTIONS.contains kv.1 = true) →
      (∀ k ∈ opts, TOCTREE_OPTIONS.contains k = true) →
      ∀ kv ∈ opts.foldl
        (fun acc k => if pyInKey tocData k then dictInsert acc k (pyGet tocData k)
          else acc) init,
        TOCTREE_OPTIONS.contains kv.1 = true := by
    intro opts
    induction opts with
    | nil => intro init hinit _ kv hkv; exact hinit kv hkv
    | cons o rest ih =>
      intro init hinit hopts kv hkv
      simp only [List.foldl_cons] at hkv
      refine ih _ ?_ (fun k hk => hopts k (List.mem_cons_of_mem _ hk)) kv hkv
      intro kv' hkv'
      split at hkv'
      · obtain ⟨k', v'⟩ := kv'
        rcases mem_dictInsert hkv' with h' | h'
        · exact hinit _ h'
        · cases h'
          exact hopts o (List.mem_cons_self o rest)
      · exact hinit _ hkv'
  exact main TOCTREE_OPTIONS [] (by simp) (fun k hk => by fin_cases hk <;> rfl)

theorem dictGet_keywords_serialized (t : TocTree) (vals : List Value) (k : String) :
    dictGet (toctree_keywords
      (.vmap (dictInsert (serialize_toctree_options t true) DEFAULT_ITEMS_KEY
        (.vlist vals))) []) k =
    dictGet (serialize_toctree_options t true) k := by
  rw [dictGet_toctree_keywords]
  cases hk : TOCTREE_OPTIONS.contains k with
  | false =>
    simp only [hk, Bool.false_and, Bool.false_eq_true, if_false, dictGet]
    rw [dictGet_serialize_toctree_options, hk]
    simp
  | true =>
    simp only [hk, Bool.true_and]
    have hkik : k ≠ DEFAULT_ITEMS_KEY := by
      intro hc
      subst hc
      revert hk
      decide
    have hpg : pyInKey (Value.vmap (dictInsert (serialize_toctree_options t true)
        DEFAULT_ITEMS_KEY (.vlist vals))) k =
        dictContains (serialize_toctree_options t true) k := by
      simp only [pyInKey, dictContains, dictGet_insert_ne _ _ hkik]
    rw [hpg]
    cases hc : dictContains (serialize_toctree_options t true) k with
    | false =>
      simp only [Bool.false_eq_true, if_false, dictGet]
      unfold dictContains at hc
      cases hg : dictGet (serialize_toctree_options t true) k with
      | none => rfl
      | some v => rw [hg] at hc; simp at hc
    | true =>
      simp only [if_true]
      unfold dictContains at hc
      cases hg : dictGet (serialize_toctree_options t true) k with
      | none => rw [hg] at hc; simp at hc
      | some v =>
        simp only [pyGet, pyDictPairs, dictGet_insert_ne _ _ hkik, hg]
        rfl

/-! ### Per-field validation round trips (serialize with `skip_defaults`,
then validate the emitted value or the built-in default). -/

theorem rt_caption (c : Option String) :
    ∃ c', validate_caption ((if !pyEq (captionValue c) Value.vnone
        then some (captionValue c) else none).getD Value.vnone) =
      .ok c' ∧ pyEq (captionValue c) (captionValue c') = true := by
  cases c with
  | none => exact ⟨none, rfl, rfl⟩
  | some s => exact ⟨some s, rfl, pyEq_refl _⟩

theorem rt_bool (b db : Bool) :
    ∃ b', validate_bool ((if !pyEq (Value.vbool b) (Value.vbool db)
        then some (Value.vbool b) else none).getD (Value.vbool db)) = .ok b' ∧
      pyEq (Value.vbool b) (Value.vbool b') = true := by
  cases b <;> cases db <;> exact ⟨_, rfl, rfl⟩

theorem rt_maxdepth (n : Int) :
    ∃ n', validate_int ((if !pyEq (Value.vint n) (Value.vint (-1))
        then some (Value.vint n) else none).getD (Value.vint (-1))) = .ok n' ∧
      pyEq (Value.vint n) (Value.vint n') = true := by
  by_cases h : n = -1
  · subst h
    exact ⟨-1, rfl, rfl⟩
  · have hb : pyEq (Value.vint n) (Value.vint (-1)) = false := by
      simp [pyEq, Value.beq, h]
    rw [hb]
    exact ⟨n, rfl, pyEq_refl _⟩

theorem rt_numbered {t : TocTree} (hnw : NumberedWf t) :
    ∃ v', validate_numbered ((if !pyEq t.numbered (Value.vbool false)
        then some t.numbered else none).getD (Value.vbool false)) = .ok v' ∧
      pyEq t.numbered v' = true := by
  rcases hnw with ⟨b, hb⟩ | ⟨n, hn⟩
  · rw [hb]
    cases b with
    | false => exact ⟨.vbool false, rfl, rfl⟩
    | true => exact ⟨.vbool true, rfl, rfl⟩
  · rw [hn]
    by_cases h0 : n = 0
    · subst h0
      exact ⟨.vbool false, rfl, rfl⟩
    · have hb : pyEq (Value.vint n) (Value.vbool false) = false := by
        show (n == (0 : Int)) = false
        simp [h0]
      rw [hb]
      exact ⟨.vint n, rfl, pyEq_refl _⟩

/-- The serialized options of a grouping, reparsed into keyword arguments
with no defaults, reconstruct a grouping with the same items and, option by
option, Python-equal option values. -/
theorem toctree_options_roundtrip (t : TocTree) (its : List Item) (vals : List Value)
    (hnw : NumberedWf t) :
    ∃ t' : TocTree,
      toctree_init its (toctree_keywords (.vmap (dictInsert
        (serialize_toctree_options t true) DEFAULT_ITEMS_KEY (.vlist vals))) []) =
        .ok t' ∧
      t'.items = its ∧
      ∀ k ∈ TOCTREE_OPTIONS,
        pyEq (toctree_option_value t k) (toctree_option_value t' k) = true := by
  have hkw : ∀ k, TOCTREE_OPTIONS.contains k = true →
      dictGet (toctree_keywords (.vmap (dictInsert
        (serialize_toctree_options t true) DEFAULT_ITEMS_KEY (.vlist vals))) []) k =
      (if !pyEq (toctree_option_value t k) (toctreeFieldDefault k)
       then some (toctree_option_value t k) else none) := by
    intro k hk
    rw [dictGet_keywords_serialized, dictGet_serialize_toctree_options, hk]
    simp only [Bool.true_and, Bool.not_true, Bool.false_or]
  obtain ⟨c', hvc, hec⟩ := rt_caption t.caption
  obtain ⟨hb', hvh, heh⟩ := rt_bool t.hidden true
  obtain ⟨mi', hvm, hem⟩ := rt_maxdepth t.maxdepth
  obtain ⟨nv', hvn, hen⟩ := rt_numbered hnw
  obtain ⟨rb', hvr, her⟩ := rt_bool t.reversed false
  obtain ⟨tb', hvt, het⟩ := rt_bool t.titlesonly true
  refine ⟨{ items := its, caption := c', hidden := hb', maxdepth := mi',
            numbered := nv', reversed := rb', titlesonly := tb' }, ?_, rfl, ?_⟩
  · have hall : ((toctree_keywords (.vmap (dictInsert
        (serialize_toctree_options t true) DEFAULT_ITEMS_KEY (.vlist vals))) []).all
          fun kv => TOCTREE_OPTIONS.contains kv.1) = true := by
      rw [List.all_eq_true]
      intro kv hkv
      simpa using toctree_keywords_keys _ kv hkv
    unfold toctree_init
    rw [hall]
    simp only [Bool.not_true, Bool.false_eq_true, if_false]
    rw [hkw "caption" rfl, hkw "hidden" rfl, hkw "maxdepth" rfl,
      hkw "numbered" rfl, hkw "reversed" rfl, hkw "titlesonly" rfl]
    simp only [toctree_option_value, toctreeFieldDefault]
    rw [hvc]
    dsimp only
    rw [hvh]
    dsimp only
    rw [hvm]
    dsimp only
    rw [hvn]
    dsimp only
    rw [hvr]
    dsimp only
    rw [hvt]
  · intro k hk
    fin_cases hk
    · exact hec
    · exact heh
    · exact hem
    · exact hen
    · exact her
    · exact het

/-! ### Lookup equality of the reparsed shorthand with the serialized
grouping, and congruence of the grouping parser under lookup equality. -/

theorem serialize_options_keys_nodup (t : TocTree) (skipDefaults : Bool) :
    ((serialize_toctree_options t skipDefaults).map Prod.fst).Nodup := by
  unfold serialize_toctree_options
  have main : ∀ (opts : List String) (init : List (String × Value)),
      (init.map Prod.fst).Nodup →
      ((opts.foldl
        (fun acc key =>
          if !skipDefaults || !pyEq (toctree_option_value t key) (toctreeFieldDefault key)
          then dictInsert acc key (toctree_option_value t key)
          else acc) init).map Prod.fst).Nodup := by
    intro opts
    induction opts with
    | nil => intro init h; exact h
    | cons o rest ih =>
      intro init h
      simp only [List.foldl_cons]
      apply ih
      split
      · exact dictInsert_keys_nodup _ _ h
      · exact h
  exact main _ _ (by simp)

theorem dictGet_dictMerge (b a : List (String × Value))
    (hnd : (b.map Prod.fst).Nodup) (k : String) :
    dictGet (dictMerge a b) k =
      (if (dictGet b k).isSome then dictGet b k else dictGet a k) := by
  revert hnd
  induction b generalizing a with
  | nil =>
    intro _
    simp [dictMerge, dictGet]
  | cons kv b' ih =>
    intro hnd
    obtain ⟨k₁, v₁⟩ := kv
    simp only [List.map_cons, List.nodup_cons] at hnd
    show dictGet (dictMerge (dictInsert a k₁ v₁) b') k = _
    rw [ih _ hnd.2]
    by_cases hk : k₁ = k
    · subst hk
      have hb'none : dictGet b' k₁ = none :=
        dictGet_eq_none_of_not_mem _ _ hnd.1
      simp [dictGet, hb'none, dictGet_insert_self]
    · cases hb' : dictGet b' k with
      | some v => simp [dictGet, hb', hk]
      | none => simp [dictGet, hb', hk, dictGet_insert_ne _ _ (Ne.symm hk)]

theorem merged_lookup_eq {opts : List (String × Value)} {ik : String} (w : Value)
    (hnd : (opts.map Prod.fst).Nodup) (hno : dictContains opts ik = false)
    (k : String) :
    dictGet (dictMerge [(ik, w)] opts) k = dictGet (dictInsert opts ik w) k := by
  rw [dictGet_dictMerge _ _ hnd]
  by_cases hk : k = ik
  · subst hk
    have hnone : dictGet opts k = none := by
      unfold dictContains at hno
      cases hg : dictGet opts k with
      | none => rfl
      | some v => rw [hg] at hno; simp at hno
    simp [hnone, dictGet_insert_self, dictGet]
  · rw [dictGet_insert_ne _ _ hk]
    cases hg : dictGet opts k with
    | some v => simp [hg]
    | none => simp [hg, dictGet, Ne.symm hk]

theorem toctree_keywords_congr {a b : List (String × Value)}
    (h : ∀ k, dictGet a k = dictGet b k) (df : List (String × Value)) :
    toctree_keywords (.vmap a) df = toctree_keywords (.vmap b) df := by
  unfold toctree_keywords
  have hfun : (fun (acc : List (String × Value)) k =>
      if pyInKey (Value.vmap a) k then dictInsert acc k (pyGet (Value.vmap a) k)
      else acc) = (fun acc k =>
      if pyInKey (Value.vmap b) k then dictInsert acc k (pyGet (Value.vmap b) k)
      else acc) := by
    funext acc k
    simp only [pyInKey, pyGet, pyDictPairs, dictContains, h k]
  rw [hfun]

theorem file_entries_of_congr {a b : List (String × Value)}
    (h : ∀ k, dictGet a k = dictGet b k) (ik : String) :
    file_entries_of (.vmap a) ik = file_entries_of (.vmap b) ik := by
  unfold file_entries_of
  simp only [pyGet, pyDictPairs, h ik]

theorem parse_subtrees_head_congr {a b : List (String × Value)}
    (h : ∀ k, dictGet a k = dictGet b k) (rest : List Value)
    (df : List (String × Value)) (p sk ik : String) (i : Nat) :
    parse_subtrees (.vmap a :: rest) df p sk ik i =
    parse_subtrees (.vmap b :: rest) df p sk ik i := by
  unfold parse_subtrees
  have h1 : pyInKey (Value.vmap a) ik = pyInKey (Value.vmap b) ik := by
    simp only [pyInKey, dictContains, h ik]
  have h2 : pyGet (Value.vmap a) ik = pyGet (Value.vmap b) ik := by
    simp only [pyGet, pyDictPairs, h ik]
  rw [show isMapping (Value.vmap a) = isMapping (Value.vmap b) from rfl, h1, h2,
    toctree_keywords_congr h df]

/-! ### Algebra of the reparse walk property. -/

theorem lookup_eq_none_of_not_mem_keys {l : List (String × Document)} {k : String}
    (h : k ∉ l.map Prod.fst) : l.lookup k = none := by
  induction l with
  | nil => rfl
  | cons hd tl ih =>
    obtain ⟨k₁, d₁⟩ := hd
    simp only [List.map_cons, List.mem_cons] at h
    push_neg at h
    have : (k == k₁) = false := by simp [h.1]
    simp only [List.lookup, this]
    exact ih h.2

theorem contains_eq_false_of_not_mem {l : List String} {a : String} (h : a ∉ l) :
    l.contains a = false := by
  simpa using h

theorem rwalk_nil (sm : SiteMap) : RWalk sm [] [] := by
  intro sm₀ path₀ _
  refine ⟨[], ?_, rfl, .nil⟩
  rw [List.append_nil]
  exact parse_docs_list_nil sm₀ [] path₀

theorem rwalk_append {sm : SiteMap} {cs₁ cs₂ : List Value}
    {names₁ names₂ : List String} (h₁ : RWalk sm cs₁ names₁)
    (h₂ : RWalk sm cs₂ names₂) (hdisj : ∀ n ∈ names₂, n ∉ names₁) :
    RWalk sm (cs₁ ++ cs₂) (names₁ ++ names₂) := by
  intro sm₀ path₀ hfresh
  obtain ⟨r₁, hw₁, hn₁, hf₁⟩ := h₁ sm₀ path₀
    (fun n hn => hfresh n (List.mem_append_left _ hn))
  have hfresh₂ : ∀ n ∈ names₂,
      ({ root := sm₀.root, docs := sm₀.docs ++ r₁, meta := sm₀.meta } :
        SiteMap).contains n = false := by
    intro n hn
    have h0 : sm₀.docs.lookup n = none := by
      have hf := hfresh n (List.mem_append_right _ hn)
      unfold SiteMap.contains at hf
      cases hl : sm₀.docs.lookup n with
      | none => rfl
      | some d => rw [hl] at hf; simp at hf
    have h1 : r₁.lookup n = none := by
      apply lookup_eq_none_of_not_mem_keys
      rw [hn₁]
      exact hdisj n hn
    unfold SiteMap.contains
    dsimp only
    rw [lookup_append_right h0, h1]
    rfl
  obtain ⟨r₂, hw₂, hn₂, hf₂⟩ := h₂
    { root := sm₀.root, docs := sm₀.docs ++ r₁, meta := sm₀.meta } path₀ hfresh₂
  refine ⟨r₁ ++ r₂, ?_, by simp [hn₁, hn₂], List.rel_append hf₁ hf₂⟩
  rw [parse_docs_list_append, hw₁]
  dsimp only
  rw [hw₂]
  simp

/-! ### The serializer-reparse correspondence, by induction on spans. -/

theorem dictRemove_dictInsert_self {l : List (String × Value)} {k : String}
    (v : Value) (h : dictContains l k = false) :
    dictRemove (dictInsert l k v) k = l := by
  induction l with
  | nil => simp [dictInsert, dictRemove]
  | cons hd tl ih =>
    obtain ⟨k₁, v₁⟩ := hd
    simp only [dictContains, dictGet] at h
    by_cases h₁ : k₁ = k
    · simp [h₁] at h
    · simp only [dictInsert, h₁, if_false, dictRemove]
      congr 1
      apply ih
      simp only [dictContains]
      split at h
      · simp at h
      · exact h

theorem pyInKey_vmap_pair_ne (k₁ k : String) (v₁ : Value) (h : k₁ ≠ k) :
    pyInKey (.vmap [(k₁, v₁)]) k = false := by
  simp [pyInKey, dictContains, dictGet, h]

theorem pyInKey_vmap_two_ne (k₁ k₂ k : String) (v₁ v₂ : Value)
    (h₁ : k₁ ≠ k) (h₂ : k₂ ≠ k) :
    pyInKey (.vmap [(k₁, v₁), (k₂, v₂)]) k = false := by
  simp [pyInKey, dictContains, dictGet, h₁, h₂]

/-- The serialized entry of a `UrlItem` (lines 233-236): the `url` key plus
a `title` key when the title is not `None`. -/
def url_entry (u tv : Value) : Value :=
  match tv with
  | .vnone => .vmap [(URL_KEY, u)]
  | _ => .vmap [(URL_KEY, u), ("title", tv)]

theorem url_entry_serialize (n : Nat) (u tv : Value) (sm : SiteMap) (skip : Bool)
    (visited : List String) :
    serialize_item (n + 1) (.url u tv) sm skip visited =
      .ok (url_entry u tv, visited) := by
  cases tv <;> rfl

theorem url_entry_parse (u tv : Value) (path : String) (ti ii : Nat) :
    parse_item_data (url_entry u tv) path ti ii DEFAULT_SUBTREES_KEY
      DEFAULT_ITEMS_KEY = .ok (.url u tv) := by
  cases tv <;> rfl

theorem url_entry_no_file (u tv : Value) :
    pyInKey (url_entry u tv) FILE_KEY = false := by
  cases tv
  case vnone => exact pyInKey_vmap_pair_ne _ _ _ (by decide)
  all_goals exact pyInKey_vmap_two_ne _ _ _ _ _ (by decide) (by decide)

/-- The conclusion of the correspondence for one document: for all
sufficiently large fuels the serializer produces one mapping `m` and visits
exactly `delta` (in reverse preorder); `m` carries the docname under the
file-key, uses only the reserved keys, and reparses to an equal document
whose child entries walk to registrations named by `delta.tail`. -/
def RDoc (sm : SiteMap) (doc : Document) (delta : List String) : Prop :=
  ∀ (fk : String) (visited : List String),
    delta.Nodup → (∀ n ∈ delta, n ∉ visited) →
    fk ≠ "title" → fk ≠ DEFAULT_SUBTREES_KEY → fk ≠ DEFAULT_ITEMS_KEY →
    fk ≠ "options" →
    ∃ (f₀ : Nat) (m : List (String × Value)),
      (∀ fuel, f₀ ≤ fuel →
        docitem_to_dict fuel doc sm true DEFAULT_SUBTREES_KEY DEFAULT_ITEMS_KEY fk
          visited = .ok (m, delta.reverse ++ visited)) ∧
      dictGet m fk = some (.vstr doc.docname) ∧
      (∀ k, dictContains m k = true →
        k = fk ∨ k = "title" ∨ k = DEFAULT_SUBTREES_KEY ∨ k = DEFAULT_ITEMS_KEY ∨
        k = "options") ∧
      ∀ path : String, ∃ (doc' : Document) (cs : List Value),
        parse_doc_item m [] path DEFAULT_SUBTREES_KEY DEFAULT_ITEMS_KEY fk =
          .ok (doc', cs) ∧
        DocEquiv doc doc' ∧ RWalk sm cs delta.tail

/-- The correspondence for a grouping list. -/
def RTrees (sm : SiteMap) (ts : List TocTree) (delta : List String) : Prop :=
  ∀ visited : List String,
    delta.Nodup → (∀ n ∈ delta, n ∉ visited) →
    ∃ (f₀ : Nat) (tsd : List (List (String × Value))),
      (∀ fuel, f₀ ≤ fuel →
        serialize_subtrees fuel ts sm true DEFAULT_ITEMS_KEY visited =
          .ok (tsd, delta.reverse ++ visited)) ∧
      List.Forall₂ (fun t td => ∃ vals : List Value,
        td = dictInsert (serialize_toctree_options t true) DEFAULT_ITEMS_KEY
          (.vlist vals)) ts tsd ∧
      (∀ (path : String) (idx : Nat), ∃ ts',
        parse_subtrees (tsd.map .vmap) [] path DEFAULT_SUBTREES_KEY
          DEFAULT_ITEMS_KEY idx = .ok ts' ∧
        List.Forall₂ TocTreeEquiv ts ts') ∧
      RWalk sm (docs_data_of (tsd.map .vmap) DEFAULT_ITEMS_KEY) delta

/-- The correspondence for an item list. -/
def RItems (sm : SiteMap) (its : List Item) (delta : List String) : Prop :=
  ∀ visited : List String,
    delta.Nodup → (∀ n ∈ delta, n ∉ visited) →
    ∃ (f₀ : Nat) (vals : List Value),
      (∀ fuel, f₀ ≤ fuel →
        serialize_items fuel its sm true visited =
          .ok (vals, delta.reverse ++ visited)) ∧
      vals.length = its.length ∧
      (∀ (path : String) (ti ii : Nat),
        parse_items_list vals path ti ii DEFAULT_SUBTREES_KEY DEFAULT_ITEMS_KEY =
          .ok its) ∧
      RWalk sm (vals.filter fun v => pyInKey v FILE_KEY) delta

/-- The correspondence, indexed like the span judgment. -/
def RGoal (sm : SiteMap) : SKind → List String → Prop
  | .doc d, delta => RDoc sm d delta
  | .trees ts, delta => RTrees sm ts delta
  | .items its, delta => RItems sm its delta

theorem dictContains_dictInsert {l : List (String × Value)} {k k₁ : String}
    {v : Value} (h : dictContains (dictInsert l k v) k₁ = true) :
    k₁ = k ∨ dictContains l k₁ = true := by
  unfold dictContains at h
  cases hg : dictGet (dictInsert l k v) k₁ with
  | none => rw [hg] at h; simp at h
  | some w =>
    rcases dictGet_insert_cases hg with ⟨hk, -⟩ | hgl
    · exact Or.inl hk
    · exact Or.inr (by simp [dictContains, hgl])

/-- Assembling a reparse of a serialized document mapping from its parts:
the file and title lookups, the recovered grouping data, an equivalent
parsed grouping list, and the walk property of its file-backed entries. -/
theorem parse_doc_item_of_parts {m : List (String × Value)} {fk path : String}
    {d : Document} {sd : List Value} {ts' : List TocTree} {sm : SiteMap}
    {delta' : List String}
    (hm_fk : dictGet m fk = some (.vstr d.docname))
    (hm_title : dictGet m "title" = (match d.title with
      | some t' => some (Value.vstr t') | none => none))
    (hsd : get_subtrees_data m path DEFAULT_SUBTREES_KEY DEFAULT_ITEMS_KEY = .ok sd)
    (hps : parse_subtrees sd [] path DEFAULT_SUBTREES_KEY DEFAULT_ITEMS_KEY 0 =
      .ok ts')
    (hfa : List.Forall₂ TocTreeEquiv d.subtrees ts')
    (hwalk : RWalk sm (docs_data_of sd DEFAULT_ITEMS_KEY) delta') :
    ∃ doc' cs, parse_doc_item m [] path DEFAULT_SUBTREES_KEY DEFAULT_ITEMS_KEY fk =
      .ok (doc', cs) ∧ DocEquiv d doc' ∧ RWalk sm cs delta' := by
  refine ⟨{ docname := d.docname, title := d.title, subtrees := ts' },
    docs_data_of sd DEFAULT_ITEMS_KEY, ?_, ⟨rfl, rfl, hfa⟩, hwalk⟩
  unfold parse_doc_item
  rw [show dictContains m fk = true from by simp [dictContains, hm_fk]]
  simp only [Bool.not_true, Bool.false_eq_true, if_false]
  rw [hsd]
  dsimp only
  rw [hps]
  dsimp only
  rw [hm_fk, hm_title]
  cases htit : d.title with
  | none => rfl
  | some t' => rfl

theorem spans_serialize_reparse {sm : SiteMap} {k : SKind} {delta : List String}
    (h : Spans sm k delta) : RGoal sm k delta := by
  induction h with
  | itemsNil =>
    show RItems sm [] []
    intro visited _ _
    refine ⟨1, [], ?_, rfl, fun path ti ii => rfl, ?_⟩
    · intro fuel hf
      obtain ⟨n, rfl⟩ : ∃ n, fuel = n + 1 := ⟨fuel - 1, by omega⟩
      rfl
    · exact rwalk_nil sm
  | treesNil =>
    show RTrees sm [] []
    intro visited _ _
    refine ⟨1, [], ?_, .nil, fun path idx => ⟨[], rfl, .nil⟩, ?_⟩
    · intro fuel hf
      obtain ⟨n, rfl⟩ : ∃ n, fuel = n + 1 := ⟨fuel - 1, by omega⟩
      rfl
    · exact rwalk_nil sm
  | glob hits ih =>
    rename_i s its delta'
    have ihi : RItems sm its delta' := ih
    show RItems sm (.glob s :: its) delta'
    intro visited hnd hdis
    obtain ⟨f₀, vals, hser, hlen, hpar, hwalk⟩ := ihi visited hnd hdis
    refine ⟨f₀ + 2, .vmap [(GLOB_KEY, .vstr s)] :: vals, ?_, ?_, ?_, ?_⟩
    · intro fuel hf
      obtain ⟨n, rfl⟩ : ∃ n, fuel = n + 2 := ⟨fuel - 2, by omega⟩
      have hrest := hser (n + 1) (by omega)
      show serialize_items (n + 1 + 1) _ _ _ _ = _
      unfold serialize_items serialize_item
      dsimp only
      rw [hrest]
    · simp [hlen]
    · intro path ti ii
      unfold parse_items_list
      rw [show parse_item_data (.vmap [(GLOB_KEY, .vstr s)]) path ti ii
          DEFAULT_SUBTREES_KEY DEFAULT_ITEMS_KEY = .ok (.glob s) from rfl]
      dsimp only
      rw [hpar path ti (ii + 1)]
    · have hflt : (Value.vmap [(GLOB_KEY, Value.vstr s)] :: vals).filter
          (fun v => pyInKey v FILE_KEY) =
          vals.filter (fun v => pyInKey v FILE_KEY) := by
        rw [List.filter_cons_of_neg]
        simp [pyInKey_vmap_pair_ne GLOB_KEY FILE_KEY _ (by decide)]
      rw [hflt]
      exact hwalk
  | url hits ih =>
    rename_i u tv its delta'
    have ihi : RItems sm its delta' := ih
    show RItems sm (.url u tv :: its) delta'
    intro visited hnd hdis
    obtain ⟨f₀, vals, hser, hlen, hpar, hwalk⟩ := ihi visited hnd hdis
    refine ⟨f₀ + 2, url_entry u tv :: vals, ?_, ?_, ?_, ?_⟩
    · intro fuel hf
      obtain ⟨n, rfl⟩ : ∃ n, fuel = n + 2 := ⟨fuel - 2, by omega⟩
      have hrest := hser (n + 1) (by omega)
      show serialize_items (n + 1 + 1) _ _ _ _ = _
      unfold serialize_items
      dsimp only
      rw [url_entry_serialize]
      dsimp only
      rw [hrest]
    · simp [hlen]
    · intro path ti ii
      unfold parse_items_list
      rw [url_entry_parse]
      dsimp only
      rw [hpar path ti (ii + 1)]
    · have hflt : (url_entry u tv :: vals).filter (fun v => pyInKey v FILE_KEY) =
          vals.filter (fun v => pyInKey v FILE_KEY) := by
        rw [List.filter_cons, url_entry_no_file]
        simp
      rw [hflt]
      exact hwalk
  | file hfind hdn hd hits ihd ihits =>
    rename_i s d its dd dr
    have ihd' : RDoc sm d dd := ihd
    have ihits' : RItems sm its dr := ihits
    show RItems sm (.file s :: its) (dd ++ dr)
    intro visited hnd hdis
    rw [List.nodup_append] at hnd
    obtain ⟨hndd, hndr, hdisj⟩ := hnd
    obtain ⟨dsub, rfl⟩ : ∃ dsub, dd = d.docname :: dsub := by
      cases hd with
      | doc htr => exact ⟨_, rfl⟩
    obtain ⟨f₁, m, hser₁, hmfk, hmkeys, hrep⟩ := ihd' FILE_KEY visited hndd
      (fun n hn => hdis n (List.mem_append_left _ hn))
      (by decide) (by decide) (by decide) (by decide)
    have hfr₂ : ∀ n ∈ dr, n ∉ (d.docname :: dsub).reverse ++ visited := by
      intro n hn
      rw [List.mem_append, List.mem_reverse]
      push_neg
      exact ⟨fun hc => hdisj hc hn, hdis n (List.mem_append_right _ hn)⟩
    obtain ⟨f₂, vals, hser₂, hlen₂, hpar₂, hwalk₂⟩ := ihits'
      ((d.docname :: dsub).reverse ++ visited) hndr hfr₂
    have hfile : pyInKey (Value.vmap m) FILE_KEY = true := by
      simp [pyInKey, dictContains, hmfk]
    have hpg : pyGet (Value.vmap m) FILE_KEY = .vstr d.docname := by
      simp [pyGet, pyDictPairs, hmfk]
    refine ⟨max f₁ f₂ + 2, .vmap m :: vals, ?_, ?_, ?_, ?_⟩
    · intro fuel hf
      obtain ⟨n, rfl⟩ : ∃ n, fuel = n + 2 := ⟨fuel - 2, by omega⟩
      show serialize_items (n + 1 + 1) _ _ _ _ = _
      unfold serialize_items
      dsimp only
      unfold serialize_item
      dsimp only
      rw [hfind]
      dsimp only
      rw [hser₁ n (by omega)]
      dsimp only
      rw [hser₂ (n + 1) (by omega)]
      dsimp only
      rw [List.reverse_append, List.append_assoc]
    · simp [hlen₂]
    · intro path ti ii
      unfold parse_items_list
      have hglob : pyInKey (Value.vmap m) GLOB_KEY = false := by
        cases hcg : pyInKey (Value.vmap m) GLOB_KEY with
        | false => rfl
        | true =>
          exfalso
          have hmem := hmkeys GLOB_KEY (by simpa [pyInKey] using hcg)
          revert hmem
          decide
      have hurl : pyInKey (Value.vmap m) URL_KEY = false := by
        cases hcu : pyInKey (Value.vmap m) URL_KEY with
        | false => rfl
        | true =>
          exfalso
          have hmem := hmkeys URL_KEY (by simpa [pyInKey] using hcu)
          revert hmem
          decide
      have hpd : parse_item_data (.vmap m) path ti ii DEFAULT_SUBTREES_KEY
          DEFAULT_ITEMS_KEY = .ok (.file s) := by
        unfold parse_item_data
        dsimp only
        rw [show isMapping (Value.vmap m) = true from rfl]
        rw [hfile, hglob, hurl]
        norm_num
        rw [hpg, hdn]
        rfl
      rw [hpd]
      dsimp only
      rw [hpar₂ path ti (ii + 1)]
    · rw [List.filter_cons, hfile]
      rw [if_pos rfl]
      intro sm₀ path₀ hfresh
      have hfr0 : sm₀.contains d.docname = false :=
        hfresh d.docname (List.mem_append_left _ (List.mem_cons_self _ _))
      obtain ⟨doc', cs', hpd', heq', hrw'⟩ :=
        hrep (path₀ ++ pyStr (.vstr d.docname) ++ "/")
      simp only [List.tail_cons] at hrw'
      have hfr1 : ∀ n ∈ dsub,
          ({ sm₀ with docs := sm₀.docs ++ [(d.docname, doc')] } : SiteMap).contains n
            = false := by
        intro n hn
        have hnm : n ≠ d.docname := by
          intro hc
          subst hc
          exact (List.nodup_cons.mp hndd).1 hn
        have h0 : sm₀.docs.lookup n = none := by
          have hb := hfresh n (List.mem_append_left _ (List.mem_cons_of_mem _ hn))
          unfold SiteMap.contains at hb
          cases hl : sm₀.docs.lookup n with
          | none => rfl
          | some d₁ => rw [hl] at hb; simp at hb
        unfold SiteMap.contains
        dsimp only
        rw [lookup_append_right h0]
        have hbeq : (n == d.docname) = false := by simp [hnm]
        simp [List.lookup, hbeq]
      obtain ⟨regs₁, hw₁, hn₁, hf₁⟩ := hrw'
        { sm₀ with docs := sm₀.docs ++ [(d.docname, doc')] }
        (path₀ ++ pyStr (.vstr d.docname) ++ "/") hfr1
      have hfr2 : ∀ n ∈ dr,
          ({ root := sm₀.root, docs := (sm₀.docs ++ [(d.docname, doc')]) ++ regs₁,
             meta := sm₀.meta } : SiteMap).contains n = false := by
        intro n hn
        have hnm : n ≠ d.docname := by
          intro hc
          subst hc
          exact hdisj (List.mem_cons_self _ _) hn
        have h0 : sm₀.docs.lookup n = none := by
          have hb := hfresh n (List.mem_append_right _ hn)
          unfold SiteMap.contains at hb
          cases hl : sm₀.docs.lookup n with
          | none => rfl
          | some d₁ => rw [hl] at hb; simp at hb
        have h1 : regs₁.lookup n = none := by
          apply lookup_eq_none_of_not_mem_keys
          rw [hn₁]
          intro hc
          exact hdisj (List.mem_cons_of_mem _ hc) hn
        unfold SiteMap.contains
        dsimp only
        rw [lookup_append_right, h1]
        · rfl
        · rw [lookup_append_right h0]
          have hbeq : (n == d.docname) = false := by simp [hnm]
          simp [List.lookup, hbeq]
      obtain ⟨regs₂, hw₂, hn₂, hf₂⟩ := hwalk₂
        { root := sm₀.root, docs := (sm₀.docs ++ [(d.docname, doc')]) ++ regs₁,
          meta := sm₀.meta } path₀ hfr2
      refine ⟨((d.docname, doc') :: regs₁) ++ regs₂, ?_, ?_, ?_⟩
      · rw [parse_docs_list_cons, hpg]
        have hcv : sm₀.containsV (.vstr d.docname) = false := by
          simp [SiteMap.containsV, hfr0]
        rw [hcv]
        simp only [Bool.false_eq_true, if_false]
        rw [show pyDictPairs (Value.vmap m) = m from rfl]
        rw [hpd']
        dsimp only
        have hset : sm₀.setitemV (.vstr d.docname) doc' =
            { sm₀ with docs := sm₀.docs ++ [(d.docname, doc')] } := by
          show sm₀.setitem d.docname doc' = _
          exact setitem_fresh hfr0
        rw [hset, hw₁]
        dsimp only
        rw [hw₂]
        simp [List.append_assoc]
      · simp only [List.map_append, List.map_cons]
        rw [hn₁, hn₂]
      · refine List.rel_append (List.Forall₂.cons ?_ hf₁) hf₂
        refine ⟨d, ?_, heq'⟩
        rw [hdn]
        exact hfind
  | doc htrees ih =>
    rename_i d delta'
    have iht : RTrees sm d.subtrees delta' := ih
    show RDoc sm d (d.docname :: delta')
    intro fk visited hnd hdis hf1 hf2 hf3 hf4
    rw [List.nodup_cons] at hnd
    obtain ⟨hdnotin, hnd'⟩ := hnd
    have hdnvis : d.docname ∉ visited := hdis d.docname (List.mem_cons_self _ _)
    have hcont : visited.contains d.docname = false :=
      contains_eq_false_of_not_mem hdnvis
    have hdis' : ∀ n ∈ delta', n ∉ d.docname :: visited := by
      intro n hn
      rw [List.mem_cons]
      push_neg
      exact ⟨fun hc => hdnotin (hc ▸ hn), hdis n (List.mem_cons_of_mem _ hn)⟩
    set data0 : List (String × Value) := (match d.title with
      | some t' => dictInsert [(fk, Value.vstr d.docname)] "title" (Value.vstr t')
      | none => [(fk, Value.vstr d.docname)]) with hdata0
    have hd0fk : dictGet data0 fk = some (.vstr d.docname) := by
      rw [hdata0]
      cases htit : d.title with
      | none => simp [dictGet]
      | some t' =>
        rw [dictGet_insert_ne _ _ hf1]
        simp [dictGet]
    have hd0none : ∀ k₁, k₁ ≠ fk → k₁ ≠ "title" → dictGet data0 k₁ = none := by
      intro k₁ h1 h2
      rw [hdata0]
      cases htit : d.title with
      | none => simp [dictGet, Ne.symm h1]
      | some t' =>
        rw [dictGet_insert_ne _ _ h2]
        simp [dictGet, Ne.symm h1]
    have hd0title : dictGet data0 "title" = (match d.title with
        | some t' => some (Value.vstr t') | none => none) := by
      rw [hdata0]
      cases htit : d.title with
      | none => simp [dictGet, hf1]
      | some t' => rw [dictGet_insert_self]
    have hd0mem : ∀ k₁, dictContains data0 k₁ = true → k₁ = fk ∨ k₁ = "title" := by
      intro k₁ hk
      by_contra hc
      push_neg at hc
      unfold dictContains at hk
      rw [hd0none k₁ hc.1 hc.2] at hk
      simp at hk
    have hd0sk : dictContains data0 DEFAULT_SUBTREES_KEY = false := by
      unfold dictContains
      rw [hd0none _ (Ne.symm hf2) (by decide)]
      rfl
    cases hsubs : d.subtrees with
    | nil =>
      rw [hsubs] at htrees
      have hdelta : delta' = [] := by cases htrees; rfl
      subst hdelta
      refine ⟨1, data0, ?_, hd0fk, ?_, ?_⟩
      · intro fuel hf
        obtain ⟨n, rfl⟩ : ∃ n, fuel = n + 1 := ⟨fuel - 1, by omega⟩
        unfold docitem_to_dict
        dsimp only
        rw [hcont]
        simp only [Bool.false_eq_true, if_false]
        rw [← hdata0]
        rw [show d.subtrees.isEmpty = true from by rw [hsubs]; rfl]
        rw [if_pos rfl]
        rfl
      · intro k₁ hk
        rcases hd0mem k₁ hk with h | h
        · exact Or.inl h
        · exact Or.inr (Or.inl h)
      · intro path
        have hik : dictContains data0 DEFAULT_ITEMS_KEY = false := by
          unfold dictContains
          rw [hd0none _ (Ne.symm hf3) (by decide)]
          rfl
        have hsd : get_subtrees_data data0 path DEFAULT_SUBTREES_KEY
            DEFAULT_ITEMS_KEY = .ok [] := by
          unfold get_subtrees_data
          rw [hik, hd0sk]
          simp
        have hout := parse_doc_item_of_parts hd0fk hd0title hsd rfl
          (by rw [hsubs]; exact .nil) (rwalk_nil sm)
        simpa using hout
    | cons t₁ trest =>
      obtain ⟨f₁, tsd, hserT, hstructT, hparT, hwalkT⟩ :=
        iht (d.docname :: visited) hnd' hdis'
      have hsubs_ne : d.subtrees.isEmpty = false := by rw [hsubs]; rfl
      cases htsdd : tsd with
      | nil =>
        exfalso
        rw [htsdd] at hstructT
        rw [hsubs] at hstructT
        cases hstructT
      | cons td tsd₂ =>
        rw [htsdd] at hserT hstructT hparT hwalkT
        cases htsd2 : tsd₂ with
        | cons td₂ tsd₃ =>
          -- at least two groupings: long form, no compaction
          rw [htsd2] at hserT hstructT hparT hwalkT
          have hm_ik : dictGet (dictInsert data0 DEFAULT_SUBTREES_KEY
              (.vlist ((td :: td₂ :: tsd₃).map .vmap))) DEFAULT_ITEMS_KEY = none := by
            rw [dictGet_insert_ne _ _ (by decide)]
            exact hd0none _ (Ne.symm hf3) (by decide)
          have hm_sk : dictGet (dictInsert data0 DEFAULT_SUBTREES_KEY
              (.vlist ((td :: td₂ :: tsd₃).map .vmap))) DEFAULT_SUBTREES_KEY =
              some (.vlist ((td :: td₂ :: tsd₃).map .vmap)) := dictGet_insert_self _ _ _
          refine ⟨f₁ + 1, dictInsert data0 DEFAULT_SUBTREES_KEY
            (.vlist ((td :: td₂ :: tsd₃).map .vmap)), ?_, ?_, ?_, ?_⟩
          · intro fuel hf
            obtain ⟨n, rfl⟩ : ∃ n, fuel = n + 1 := ⟨fuel - 1, by omega⟩
            unfold docitem_to_dict
            dsimp only
            rw [hcont]
            simp only [Bool.false_eq_true, if_false]
            rw [← hdata0, hsubs_ne]
            simp only [Bool.false_eq_true, if_false]
            rw [hserT n (by omega)]
            dsimp only
            rw [List.reverse_cons, List.append_assoc]
            rfl
          · rw [dictGet_insert_ne _ _ hf2]
            exact hd0fk
          · intro k₁ hk
            rcases dictContains_dictInsert hk with h | h
            · exact Or.inr (Or.inr (Or.inl h))
            · rcases hd0mem k₁ h with h' | h'
              · exact Or.inl h'
              · exact Or.inr (Or.inl h')
          · intro path
            have hm_title : dictGet (dictInsert data0 DEFAULT_SUBTREES_KEY
                (.vlist ((td :: td₂ :: tsd₃).map .vmap))) "title" =
                (match d.title with
                 | some t' => some (Value.vstr t') | none => none) := by
              rw [dictGet_insert_ne _ _ (by decide)]
              exact hd0title
            have hm_fk' : dictGet (dictInsert data0 DEFAULT_SUBTREES_KEY
                (.vlist ((td :: td₂ :: tsd₃).map .vmap))) fk =
                some (.vstr d.docname) := by
              rw [dictGet_insert_ne _ _ hf2]
              exact hd0fk
            have hsd : get_subtrees_data (dictInsert data0 DEFAULT_SUBTREES_KEY
                (.vlist ((td :: td₂ :: tsd₃).map .vmap))) path DEFAULT_SUBTREES_KEY
                DEFAULT_ITEMS_KEY = .ok ((td :: td₂ :: tsd₃).map .vmap) := by
              unfold get_subtrees_data
              rw [show dictContains (dictInsert data0 DEFAULT_SUBTREES_KEY
                  (.vlist ((td :: td₂ :: tsd₃).map .vmap))) DEFAULT_ITEMS_KEY = false
                from by unfold dictContains; rw [hm_ik]; rfl]
              rw [show dictContains (dictInsert data0 DEFAULT_SUBTREES_KEY
                  (.vlist ((td :: td₂ :: tsd₃).map .vmap))) DEFAULT_SUBTREES_KEY = true
                from by unfold dictContains; rw [hm_sk]; rfl]
              simp only [Bool.false_eq_true, if_false, if_true]
              rw [hm_sk]
              rfl
            obtain ⟨ts', hps, hfa⟩ := hparT path 0
            have hout := parse_doc_item_of_parts hm_fk' hm_title hsd hps hfa hwalkT
            simpa using hout
        | nil =>
          -- exactly one grouping: compaction to the shorthand
          rw [htsd2] at hserT hstructT hparT hwalkT
          rw [hsubs] at hstructT
          obtain ⟨vals, htd⟩ : ∃ vals, td = dictInsert
              (serialize_toctree_options t₁ true) DEFAULT_ITEMS_KEY (.vlist vals) := by
            cases hstructT with
            | cons hp htl => exact hp
          have htrest : trest = [] := by
            cases hstructT with
            | cons hp htl => cases htl; rfl
          have hik_opts : dictContains (serialize_toctree_options t₁ true)
              DEFAULT_ITEMS_KEY = false := serialize_options_no_items_key t₁ true
          have htd_ik : dictGet td DEFAULT_ITEMS_KEY = some (.vlist vals) := by
            rw [htd]
            exact dictGet_insert_self _ _ _
          have htd_cik : dictContains td DEFAULT_ITEMS_KEY = true := by
            unfold dictContains
            rw [htd_ik]
            rfl
          have hlen_td : td.length = (serialize_toctree_options t₁ true).length + 1 := by
            rw [htd]
            exact length_dictInsert_of_not_contains _ hik_opts
          have hfilter_td : td.filter (fun kv => kv.1 ≠ DEFAULT_ITEMS_KEY) =
              serialize_toctree_options t₁ true := by
            rw [htd]
            exact filter_dictInsert_of_not_contains _ hik_opts
          have hmerge : ∀ k₁, dictGet (dictMerge [(DEFAULT_ITEMS_KEY, Value.vlist vals)]
              (serialize_toctree_options t₁ true)) k₁ = dictGet td k₁ := by
            intro k₁
            rw [htd]
            exact merged_lookup_eq _ (serialize_options_keys_nodup t₁ true) hik_opts k₁
          have hdd_congr : docs_data_of [Value.vmap (dictMerge
              [(DEFAULT_ITEMS_KEY, Value.vlist vals)]
              (serialize_toctree_options t₁ true))] DEFAULT_ITEMS_KEY =
              docs_data_of [Value.vmap td] DEFAULT_ITEMS_KEY := by
            rw [docs_data_of_eq_map, docs_data_of_eq_map]
            simp only [List.map_cons, List.map_nil]
            rw [show file_entries_of (Value.vmap (dictMerge
                [(DEFAULT_ITEMS_KEY, Value.vlist vals)]
                (serialize_toctree_options t₁ true))) DEFAULT_ITEMS_KEY =
                file_entries_of (Value.vmap td) DEFAULT_ITEMS_KEY
              from file_entries_of_congr hmerge DEFAULT_ITEMS_KEY]
          have hps_congr : ∀ path, parse_subtrees [Value.vmap (dictMerge
              [(DEFAULT_ITEMS_KEY, Value.vlist vals)]
              (serialize_toctree_options t₁ true))] [] path DEFAULT_SUBTREES_KEY
              DEFAULT_ITEMS_KEY 0 =
              parse_subtrees [Value.vmap td] [] path DEFAULT_SUBTREES_KEY
              DEFAULT_ITEMS_KEY 0 := by
            intro path
            exact parse_subtrees_head_congr hmerge [] [] path _ _ 0
          -- the serializer equation, common to both compaction outcomes up to
          -- the final options test
          have hser_core : ∀ n : Nat, f₁ ≤ n →
              docitem_to_dict (n + 1) d sm true DEFAULT_SUBTREES_KEY
                DEFAULT_ITEMS_KEY fk visited =
              (if td.length > 1 then
                .ok (dictInsert (dictInsert data0 DEFAULT_ITEMS_KEY (.vlist vals))
                  "options" (.vmap (td.filter (fun kv => kv.1 ≠ DEFAULT_ITEMS_KEY))),
                  delta'.reverse ++ (d.docname :: visited))
              else
                .ok (dictInsert data0 DEFAULT_ITEMS_KEY (.vlist vals),
                  delta'.reverse ++ (d.docname :: visited))) := by
            intro n hn
            unfold docitem_to_dict
            dsimp only
            rw [hcont]
            simp only [Bool.false_eq_true, if_false]
            rw [← hdata0, hsubs_ne]
            simp only [Bool.false_eq_true, if_false]
            rw [hserT n hn]
            dsimp only
            rw [htd_cik]
            simp only [if_true]
            rw [show dictRemove (dictInsert data0 DEFAULT_SUBTREES_KEY
                (.vlist ([td].map .vmap))) DEFAULT_SUBTREES_KEY = data0
              from dictRemove_dictInsert_self _ hd0sk]
            rw [htd_ik]
            rfl
          cases hoe : (serialize_toctree_options t₁ true).isEmpty with
          | true =>
            have hoptsnil : serialize_toctree_options t₁ true = [] :=
              List.isEmpty_iff.mp hoe
            have hlen1 : ¬ td.length > 1 := by
              rw [hlen_td, hoptsnil]
              simp
            refine ⟨f₁ + 1, dictInsert data0 DEFAULT_ITEMS_KEY (.vlist vals),
              ?_, ?_, ?_, ?_⟩
            · intro fuel hf
              obtain ⟨n, rfl⟩ : ∃ n, fuel = n + 1 := ⟨fuel - 1, by omega⟩
              rw [hser_core n (by omega), if_neg hlen1]
              rw [List.reverse_cons, List.append_assoc]
              rfl
            · rw [dictGet_insert_ne _ _ hf3]
              exact hd0fk
            · intro k₁ hk
              rcases dictContains_dictInsert hk with h | h
              · exact Or.inr (Or.inr (Or.inr (Or.inl h)))
              · rcases hd0mem k₁ h with h' | h'
                · exact Or.inl h'
                · exact Or.inr (Or.inl h')
            · intro path
              simp only [List.tail_cons]
              have hm_fk' : dictGet (dictInsert data0 DEFAULT_ITEMS_KEY
                  (.vlist vals)) fk = some (.vstr d.docname) := by
                rw [dictGet_insert_ne _ _ hf3]
                exact hd0fk
              have hm_title : dictGet (dictInsert data0 DEFAULT_ITEMS_KEY
                  (.vlist vals)) "title" = (match d.title with
                  | some t' => some (Value.vstr t') | none => none) := by
                rw [dictGet_insert_ne _ _ (by decide)]
                exact hd0title
              have hm_sk : dictGet (dictInsert data0 DEFAULT_ITEMS_KEY
                  (.vlist vals)) DEFAULT_SUBTREES_KEY = none := by
                rw [dictGet_insert_ne _ _ (by decide)]
                exact hd0none _ (Ne.symm hf2) (by decide)
              have hm_opt : dictGet (dictInsert data0 DEFAULT_ITEMS_KEY
                  (.vlist vals)) "options" = none := by
                rw [dictGet_insert_ne _ _ (by decide)]
                exact hd0none _ (Ne.symm hf4) (by decide)
              have hsd : get_subtrees_data (dictInsert data0 DEFAULT_ITEMS_KEY
                  (.vlist vals)) path DEFAULT_SUBTREES_KEY DEFAULT_ITEMS_KEY =
                  .ok [Value.vmap (dictMerge [(DEFAULT_ITEMS_KEY, Value.vlist vals)]
                    (serialize_toctree_options t₁ true))] := by
                unfold get_subtrees_data
                rw [show dictContains (dictInsert data0 DEFAULT_ITEMS_KEY
                    (.vlist vals)) DEFAULT_ITEMS_KEY = true
                  from by unfold dictContains; rw [dictGet_insert_self]; rfl]
                rw [show dictContains (dictInsert data0 DEFAULT_ITEMS_KEY
                    (.vlist vals)) DEFAULT_SUBTREES_KEY = false
                  from by unfold dictContains; rw [hm_sk]; rfl]
                simp only [if_true, Bool.false_eq_true, if_false]
                rw [dictGet_insert_self, hm_opt, hoptsnil]
                rfl
              obtain ⟨ts', hps, hfa⟩ := hparT path 0
              have hout := parse_doc_item_of_parts hm_fk' hm_title hsd
                (by rw [hps_congr path]; exact hps) hfa
                (by rw [hdd_congr]; exact hwalkT)
              simpa using hout
          | false =>
            have hlen1 : td.length > 1 := by
              rw [hlen_td]
              have : serialize_toctree_options t₁ true ≠ [] := by
                intro hc
                rw [hc] at hoe
                simp at hoe
              have := List.length_pos.mpr this
              omega
            refine ⟨f₁ + 1, dictInsert (dictInsert data0 DEFAULT_ITEMS_KEY
              (.vlist vals)) "options"
              (.vmap (serialize_toctree_options t₁ true)), ?_, ?_, ?_, ?_⟩
            · intro fuel hf
              obtain ⟨n, rfl⟩ : ∃ n, fuel = n + 1 := ⟨fuel - 1, by omega⟩
              rw [hser_core n (by omega), if_pos hlen1, hfilter_td]
              rw [List.reverse_cons, List.append_assoc]
              rfl
            · rw [dictGet_insert_ne _ _ hf4, dictGet_insert_ne _ _ hf3]
              exact hd0fk
            · intro k₁ hk
              rcases dictContains_dictInsert hk with h | h
              · exact Or.inr (Or.inr (Or.inr (Or.inr h)))
              · rcases dictContains_dictInsert h with h' | h'
                · exact Or.inr (Or.inr (Or.inr (Or.inl h')))
                · rcases hd0mem k₁ h' with h'' | h''
                  · exact Or.inl h''
                  · exact Or.inr (Or.inl h'')
            · intro path
              simp only [List.tail_cons]
              have hm_fk' : dictGet (dictInsert (dictInsert data0 DEFAULT_ITEMS_KEY
                  (.vlist vals)) "options"
                  (.vmap (serialize_toctree_options t₁ true))) fk =
                  some (.vstr d.docname) := by
                rw [dictGet_insert_ne _ _ hf4, dictGet_insert_ne _ _ hf3]
                exact hd0fk
              have hm_title : dictGet (dictInsert (dictInsert data0 DEFAULT_ITEMS_KEY
                  (.vlist vals)) "options"
                  (.vmap (serialize_toctree_options t₁ true))) "title" =
                  (match d.title with
                   | some t' => some (Value.vstr t') | none => none) := by
                rw [dictGet_insert_ne _ _ (by decide), dictGet_insert_ne _ _ (by decide)]
                exact hd0title
              have hm_sk : dictGet (dictInsert (dictInsert data0 DEFAULT_ITEMS_KEY
                  (.vlist vals)) "options"
                  (.vmap (serialize_toctree_options t₁ true))) DEFAULT_SUBTREES_KEY =
                  none := by
                rw [dictGet_insert_ne _ _ (by decide), dictGet_insert_ne _ _ (by decide)]
                exact hd0none _ (Ne.symm hf2) (by decide)
              have hm_ik : dictGet (dictInsert (dictInsert data0 DEFAULT_ITEMS_KEY
                  (.vlist vals)) "options"
                  (.vmap (serialize_toctree_options t₁ true))) DEFAULT_ITEMS_KEY =
                  some (.vlist vals) := by
                rw [dictGet_insert_ne _ _ (by decide)]
                exact dictGet_insert_self _ _ _
              have hsd : get_subtrees_data (dictInsert (dictInsert data0
                  DEFAULT_ITEMS_KEY (.vlist vals)) "options"
                  (.vmap (serialize_toctree_options t₁ true))) path
                  DEFAULT_SUBTREES_KEY DEFAULT_ITEMS_KEY =
                  .ok [Value.vmap (dictMerge [(DEFAULT_ITEMS_KEY, Value.vlist vals)]
                    (serialize_toctree_options t₁ true))] := by
                unfold get_subtrees_data
                rw [show dictContains (dictInsert (dictInsert data0 DEFAULT_ITEMS_KEY
                    (.vlist vals)) "options"
                    (.vmap (serialize_toctree_options t₁ true))) DEFAULT_ITEMS_KEY = true
                  from by unfold dictContains; rw [hm_ik]; rfl]
                rw [show dictContains (dictInsert (dictInsert data0 DEFAULT_ITEMS_KEY
                    (.vlist vals)) "options"
                    (.vmap (serialize_toctree_options t₁ true))) DEFAULT_SUBTREES_KEY
                    = false
                  from by unfold dictContains; rw [hm_sk]; rfl]
                simp only [if_true, Bool.false_eq_true, if_false]
                rw [hm_ik, dictGet_insert_self]
                rfl
              obtain ⟨ts', hps, hfa⟩ := hparT path 0
              have hout := parse_doc_item_of_parts hm_fk' hm_title hsd
                (by rw [hps_congr path]; exact hps) hfa
                (by rw [hdd_congr]; exact hwalkT)
              simpa using hout
  | treesCons hne hnw hitems htrees ihi iht =>
    rename_i t ts di dr
    have ihi' : RItems sm t.items di := ihi
    have iht' : RTrees sm ts dr := iht
    show RTrees sm (t :: ts) (di ++ dr)
    intro visited hnd hdis
    rw [List.nodup_append] at hnd
    obtain ⟨hndi, hndr, hdisj⟩ := hnd
    obtain ⟨f₁, vals, hserI, hlenI, hparI, hwalkI⟩ := ihi' visited hndi
      (fun n hn => hdis n (List.mem_append_left _ hn))
    have hfr₂ : ∀ n ∈ dr, n ∉ di.reverse ++ visited := by
      intro n hn
      rw [List.mem_append, List.mem_reverse]
      push_neg
      exact ⟨fun hc => hdisj hc hn, hdis n (List.mem_append_right _ hn)⟩
    obtain ⟨f₂, tsd', hserT, hstructT, hparT, hwalkT⟩ := iht'
      (di.reverse ++ visited) hndr hfr₂
    have hvne : vals.isEmpty = false := by
      cases hv : vals with
      | nil =>
        exfalso
        rw [hv] at hlenI
        exact hne (List.length_eq_zero.mp hlenI.symm)
      | cons a b => rfl
    have hmik : pyInKey (Value.vmap (dictInsert (serialize_toctree_options t true)
        DEFAULT_ITEMS_KEY (.vlist vals))) DEFAULT_ITEMS_KEY = true := by
      simp [pyInKey, dictContains, dictGet_insert_self]
    have hpgik : pyGet (Value.vmap (dictInsert (serialize_toctree_options t true)
        DEFAULT_ITEMS_KEY (.vlist vals))) DEFAULT_ITEMS_KEY = .vlist vals := by
      simp [pyGet, pyDictPairs, dictGet_insert_self]
    refine ⟨max f₁ f₂ + 1,
      dictInsert (serialize_toctree_options t true) DEFAULT_ITEMS_KEY
        (.vlist vals) :: tsd', ?_, ?_, ?_, ?_⟩
    · intro fuel hf
      obtain ⟨n, rfl⟩ : ∃ n, fuel = n + 1 := ⟨fuel - 1, by omega⟩
      unfold serialize_subtrees
      dsimp only
      rw [hserI n (by omega)]
      dsimp only
      rw [hserT n (by omega)]
      dsimp only
      rw [List.reverse_append, List.append_assoc]
    · exact .cons ⟨vals, rfl⟩ hstructT
    · intro path idx
      obtain ⟨ts'', hp, hfa⟩ := hparT path (idx + 1)
      obtain ⟨t', hinit, hits', hopts⟩ := toctree_options_roundtrip t t.items vals hnw
      refine ⟨t' :: ts'', ?_, .cons ⟨hits'.symm, hopts⟩ hfa⟩
      unfold parse_subtrees
      dsimp only [List.map_cons]
      rw [show isMapping (Value.vmap (dictInsert (serialize_toctree_options t true)
          DEFAULT_ITEMS_KEY (.vlist vals))) = true from rfl, hmik]
      simp only [Bool.and_self, Bool.not_true, Bool.false_eq_true, if_false]
      rw [hpgik]
      rw [show pySeqElems (Value.vlist vals) = some vals from rfl]
      dsimp only
      rw [hvne]
      simp only [Bool.false_eq_true, if_false]
      rw [hparI path idx 0]
      dsimp only
      rw [hinit]
      dsimp only
      rw [hp]
    · have hsplit : docs_data_of ((dictInsert (serialize_toctree_options t true)
          DEFAULT_ITEMS_KEY (.vlist vals) :: tsd').map .vmap) DEFAULT_ITEMS_KEY =
          vals.filter (fun v => pyInKey v FILE_KEY) ++
          docs_data_of (tsd'.map .vmap) DEFAULT_ITEMS_KEY := by
        unfold docs_data_of
        simp only [List.map_cons, List.flatten_cons]
        rw [hpgik]
        rfl
      rw [hsplit]
      exact rwalk_append hwalkI hwalkT (fun n hn hc => hdisj hc hn)

/-! ### Assembling the round trip. -/

/-- `parse_doc_item` depends on its document mapping only through the five
keys it reads. -/
theorem parse_doc_item_congr {a b df : List (String × Value)}
    {path sk ik fk : String}
    (hfk : dictGet a fk = dictGet b fk)
    (htitle : dictGet a "title" = dictGet b "title")
    (hsk : dictGet a sk = dictGet b sk)
    (hik : dictGet a ik = dictGet b ik)
    (hopt : dictGet a "options" = dictGet b "options") :
    parse_doc_item a df path sk ik fk = parse_doc_item b df path sk ik fk := by
  unfold parse_doc_item get_subtrees_data
  rw [show dictContains a fk = dictContains b fk from by unfold dictContains; rw [hfk]]
  rw [show dictContains a ik = dictContains b ik from by unfold dictContains; rw [hik]]
  rw [show dictContains a sk = dictContains b sk from by unfold dictContains; rw [hsk]]
  rw [hik, hsk, hopt, hfk, htitle]

/-- Pairing the walk's name-indexed equivalences back with the original
registrations. -/
theorem forall₂_regs {smF : SiteMap} :
    ∀ (regs regs' : List (String × Document)),
      List.Forall₂ (fun n (pr : String × Document) =>
        ∃ d₀, smF.find n = some d₀ ∧ DocEquiv d₀ pr.2) (regs.map Prod.fst) regs' →
      regs'.map Prod.fst = regs.map Prod.fst →
      (∀ p ∈ regs, smF.find p.1 = some p.2) →
      List.Forall₂ (fun p q : String × Document => p.1 = q.1 ∧ DocEquiv p.2 q.2)
        regs regs' := by
  intro regs
  induction regs with
  | nil =>
    intro regs' hf _ _
    cases hf
    exact .nil
  | cons p ps ih =>
    intro regs' hf hnames hfind
    simp only [List.map_cons] at hf
    cases hf with
    | cons hp hps =>
      rename_i q qs
      obtain ⟨d₀, hfind₀, heq₀⟩ := hp
      simp only [List.map_cons, List.cons.injEq] at hnames
      have hd₀ : d₀ = p.2 := by
        rw [hfind p (List.mem_cons_self _ _)] at hfind₀
        exact (Option.some.inj hfind₀).symm
      refine .cons ⟨hnames.1.symm, hd₀ ▸ heq₀⟩ ?_
      exact ih qs hps hnames.2 (fun p' hp' => hfind p' (List.mem_cons_of_mem _ hp'))

/-- C1: for every input on which `parse_toc_data` succeeds, serializing the
resulting site-map with `skip_defaults` produces (for every sufficiently
large fuel — the bound is an artefact of the model, every terminating run of
the source is reproduced by all of them) one dictionary whose reparse
succeeds and yields a site-map equal to the original when compared by
docnames, titles, items and grouping options.  Option values are compared by
Python `==` (`pyEq`), the equality the source itself uses on them, which
identifies `False` with `0` and `True` with `1`: a grouping parsed from
`numbered: 0` serializes to no `numbered` key and reparses to the default
`False`, which Python compares equal to the original `0`. -/
theorem C1_roundtrip_stability :
    ∀ (x : Value) (sm : SiteMap),
      parse_toc_data x = .ok sm →
      ∃ (f₀ : Nat) (out : List (String × Value)) (sm' : SiteMap),
        (∀ fuel, f₀ ≤ fuel → create_toc_dict fuel sm true = .ok out) ∧
        parse_toc_data (.vmap out) = .ok sm' ∧
        SiteMapEquiv sm sm' := by
  intro x sm h
  unfold parse_toc_data at h
  split at h
  · cases h
  · dsimp only at h
    cases hpi : parse_doc_item (pyDictPairs x) (pyDictPairs (pyGet x "defaults")) "/"
        DEFAULT_SUBTREES_KEY DEFAULT_ITEMS_KEY "root" with
    | error e => rw [hpi] at h; cases h
    | ok pr =>
      obtain ⟨rootDoc, cs⟩ := pr
      rw [hpi] at h
      dsimp only at h
      obtain ⟨regs, hroot, hmeta, hdocs, hnodup, hwout⟩ :=
        parse_docs_list_out cs (SiteMap.make rootDoc (pyGet x "meta"))
          (pyDictPairs (pyGet x "defaults")) "/" sm h (by simp [SiteMap.make])
      have hdocs' : sm.docs = (rootDoc.docname, rootDoc) :: regs := by
        rw [hdocs]
        rfl
      obtain ⟨hdv, blocks, hcs, halign⟩ := parse_doc_item_shape hpi
      have hsub : ∀ p ∈ regs, p ∈ sm.docs := by
        intro p hp
        rw [hdocs']
        exact List.mem_cons_of_mem _ hp
      have hspan : Spans sm (.doc rootDoc) (rootDoc.docname :: regs.map Prod.fst) := by
        apply Spans.doc
        apply spans_trees_of_align halign _ hsub hnodup
        rw [← hcs]
        exact hwout
      have hdelta_nodup : (rootDoc.docname :: regs.map Prod.fst).Nodup := by
        have hm := hnodup
        rw [hdocs'] at hm
        simpa using hm
      have hRD : RDoc sm rootDoc (rootDoc.docname :: regs.map Prod.fst) :=
        spans_serialize_reparse hspan
      obtain ⟨f₁, m, hser, hmfk, hmkeys, hrep⟩ := hRD "root" [] hdelta_nodup
        (by simp) (by decide) (by decide) (by decide) (by decide)
      obtain ⟨doc', cs', hpd', heq', hrw'⟩ := hrep "/"
      simp only [List.tail_cons] at hrw'
      have hfindfact : ∀ p ∈ regs, sm.find p.1 = some p.2 := by
        intro p hp
        obtain ⟨pn, pd⟩ := p
        exact lookup_eq_some_of_mem_nodup (hsub _ hp) hnodup
      -- reparse succeeds for any output agreeing with `m` away from "meta"
      have hrepgen : ∀ out : List (String × Value),
          (∀ k₁, k₁ ≠ "meta" → dictGet out k₁ = dictGet m k₁) →
          ∃ sm', parse_toc_data (.vmap out) = .ok sm' ∧ SiteMapEquiv sm sm' := by
        intro out hagree
        have hod : dictGet out "defaults" = none := by
          rw [hagree _ (by decide)]
          cases hg : dictGet m "defaults" with
          | none => rfl
          | some v =>
            exfalso
            have hmm := hmkeys "defaults" (by unfold dictContains; rw [hg]; rfl)
            revert hmm
            decide
        have hocongr : parse_doc_item out [] "/" DEFAULT_SUBTREES_KEY
            DEFAULT_ITEMS_KEY "root" = parse_doc_item m [] "/" DEFAULT_SUBTREES_KEY
            DEFAULT_ITEMS_KEY "root" :=
          parse_doc_item_congr (hagree "root" (by decide)) (hagree "title" (by decide))
            (hagree DEFAULT_SUBTREES_KEY (by decide))
            (hagree DEFAULT_ITEMS_KEY (by decide)) (hagree "options" (by decide))
        have hdef : pyDictPairs (pyGet (Value.vmap out) "defaults") = [] := by
          simp [pyGet, pyDictPairs, hod]
        unfold parse_toc_data
        rw [show isMapping (Value.vmap out) = true from rfl]
        simp only [Bool.not_true, Bool.false_eq_true, if_false]
        rw [show pyDictPairs (Value.vmap out) = out from rfl]
        rw [hdef, hocongr, hpd']
        dsimp only
        have hfr : ∀ n ∈ regs.map Prod.fst,
            (SiteMap.make doc' (pyGet (Value.vmap out) "meta")).contains n = false := by
          intro n hn
          have hne : n ≠ rootDoc.docname := by
            intro hc
            subst hc
            exact (List.nodup_cons.mp hdelta_nodup).1 hn
          have hdd : doc'.docname = rootDoc.docname := heq'.1.symm
          unfold SiteMap.contains SiteMap.make
          dsimp only
          have hbeq : (n == doc'.docname) = false := by
            rw [hdd]
            simp [hne]
          simp [List.lookup, hbeq]
        obtain ⟨regs', hw', hn', hf'⟩ :=
          hrw' (SiteMap.make doc' (pyGet (Value.vmap out) "meta")) "/" hfr
        rw [hw']
        refine ⟨_, rfl, ?_, ?_⟩
        · rw [show sm.root = rootDoc from hroot]
          exact heq'
        · rw [hdocs']
          dsimp only [SiteMap.make]
          refine List.Forall₂.cons ⟨heq'.1, heq'⟩ ?_
          exact forall₂_regs regs regs' hf' hn' hfindfact
      cases hmt : pyTruthy sm.meta with
      | true =>
        obtain ⟨sm', hp', hequiv⟩ := hrepgen (dictInsert m "meta" sm.meta)
          (fun k₁ hk => dictGet_insert_ne _ _ hk)
        refine ⟨f₁, dictInsert m "meta" sm.meta, sm', ?_, hp', hequiv⟩
        intro fuel hf
        unfold create_toc_dict
        rw [show sm.root = rootDoc from hroot]
        rw [hser fuel hf]
        dsimp only
        rw [hmt]
        rfl
      | false =>
        obtain ⟨sm', hp', hequiv⟩ := hrepgen m (fun k₁ _ => rfl)
        refine ⟨f₁, m, sm', ?_, hp', hequiv⟩
        intro fuel hf
        unfold create_toc_dict
        rw [show sm.root = rootDoc from hroot]
        rw [hser fuel hf]
        dsimp only
        rw [hmt]
        rfl

/-- The input of C1's witness: a root with one shorthand grouping holding a
single child document. -/
def c1w_input : Value :=
  .vmap [("root", .vstr "intro"),
         ("sections", .vlist [.vmap [("file", .vstr "ch1")]])]

def c1w_root : Document :=
  { docname := "intro", title := none,
    subtrees := [{ items := [.file "ch1"], caption := none, hidden := true,
                   maxdepth := -1, numbered := .vbool false, reversed := false,
                   titlesonly := true }] }

def c1w_leaf : Document := { docname := "ch1", title := none, subtrees := [] }

def c1w_sm : SiteMap :=
  { root := c1w_root, docs := [("intro", c1w_root), ("ch1", c1w_leaf)],
    meta := .vnone }

/-- C1, witness: the round trip applied to the successful parse of
`c1w_input`. -/
theorem C1_roundtrip_stability_witness :
    ∃ (f₀ : Nat) (out : List (String × Value)) (sm' : SiteMap),
      (∀ fuel, f₀ ≤ fuel → create_toc_dict fuel c1w_sm true = .ok out) ∧
      parse_toc_data (.vmap out) = .ok sm' ∧
      SiteMapEquiv c1w_sm sm' :=
  C1_roundtrip_stability c1w_input c1w_sm
    ((parse_toc_data_eq_exec 50 c1w_input rfl).trans rfl)

end SphinxExternalToc
